import Mathlib

/-!
Verification of the document-processor pipeline (pdf-processor services).

This file gives a shallow embedding, in Lean 4, of the parts of the code that
the specification's claims are about:

* `services/folder_sync_tracker.py` — the per-folder batch counter
  (`increment_and_check_sync`, `reset_count`);
* `services/kb_sync_service.py` — ingestion-job orchestration
  (`sync_and_handle_failed_files`, `wait_for_ingestion_job`, `move_s3_object`,
  the token-limit failure-reason regex);
* `services/ocr_service.py` — `apply_ocr_to_pdf`;
* `services/watermark_service.py` — `remove_watermarks`;
* `services/chunking_service.py` — `extract_metadata`, `chunk_pdf_processed`,
  `chunk_pdf_direct`;
* `services/filename_service.py` — `clean_filename`.

Strings from the Python code are embedded as `List Char`; regular-expression
substitutions are embedded as explicit recursive functions implementing the
same left-to-right, non-overlapping substitution the Python `re.sub` calls
perform on the concrete patterns appearing in the source.  External effects
(S3 calls, Bedrock job submissions, state-file writes) are recorded as
explicit event traces, and external inputs (poll responses, lock outcomes,
recognizer output) are parameters of the embedded functions.
-/

/-- Turn a string literal into the `List Char` representation used throughout. -/
def cs (s : String) : List Char := s.data

/-- ASCII whitespace, as matched by the regex class backslash-s in the Python
sources (the inputs reaching those regexes are ASCII, where the Python class
is exactly this set). -/
def isWsP (c : Char) : Bool :=
  c = ' ' || c = '\t' || c = '\n' || c = '\x0d' || c = '\x0b' || c = '\x0c'

/-- ASCII decimal digit, as matched by the regex class backslash-d on ASCII input. -/
def isDigitP (c : Char) : Bool := '0' ≤ c && c ≤ '9'

/-- A character is ASCII (code point below 128). -/
def isAsciiP (c : Char) : Bool := c.toNat < 128

/-- Case-insensitive character comparison (Python `re.IGNORECASE` on ASCII). -/
def eqCI (a b : Char) : Bool := a.toLower = b.toLower

/-- Case-insensitive check that `pat` is an initial segment of `s`. -/
def startsWithCI : List Char → List Char → Bool
  | [], _ => true
  | _ :: _, [] => false
  | p :: ps, c :: rest => eqCI c p && startsWithCI ps rest

/-- Containment of `pat` as a contiguous substring of `s`, case-sensitive
(Python `in` on strings). -/
def containsSubstr (s pat : List Char) : Bool :=
  match s with
  | [] => decide (pat = [])
  | _ :: rest => decide (pat = List.take pat.length s) || containsSubstr rest pat

/-- Case-insensitive substring containment (Python `a.lower() in b.lower()`). -/
def containsSubstrCI (s pat : List Char) : Bool :=
  containsSubstr (s.map Char.toLower) (pat.map Char.toLower)

/-! ### Folder sync tracker (`services/folder_sync_tracker.py`)

The tracker's persisted state `file_counts` is a JSON dictionary mapping a
folder name to an integer; it is embedded as `String → Option Nat`, with
`none` meaning the folder is absent from the dictionary (the code tests
membership with `in` / `not in`).  Writes of the state file and the
knowledge-base sync call are recorded as `TrackerEv` events in the order the
code performs them. -/

/-- Observable effects of the tracker: a `_save_state()` write of the counter
dictionary, or the `sync_to_knowledge_base` call. -/
inductive TrackerEv : Type
  | saveState (counts : String → Option Nat)
  | syncKB (folder : String)

/-- `FolderSyncTracker.SYNC_THRESHOLD`. -/
def SYNC_THRESHOLD : Nat := 20

/-- Embedding of `FolderSyncTracker.reset_count`: if the folder is present in
the dictionary, set its count to zero and save; otherwise do nothing. -/
def reset_count (counts : String → Option Nat) (folder : String) :
    (String → Option Nat) × List TrackerEv :=
  if (counts folder).isSome then
    let counts2 : String → Option Nat := fun f => if f = folder then some 0 else counts f
    (counts2, [TrackerEv.saveState counts2])
  else
    (counts, [])

/-- Embedding of `FolderSyncTracker.increment_and_check_sync`: default the
folder's entry to 0 if absent, add one, save, then, when the count has reached
`SYNC_THRESHOLD`, reset the count (which saves again) and call the
knowledge-base sync.  Returns the `should_sync` boolean, the final counter
dictionary, and the event trace. -/
def increment_and_check_sync (counts : String → Option Nat) (folder : String) :
    Bool × (String → Option Nat) × List TrackerEv :=
  let base : Nat := (counts folder).getD 0
  let counts1 : String → Option Nat := fun f => if f = folder then some (base + 1) else counts f
  let should_sync : Bool := decide (SYNC_THRESHOLD ≤ base + 1)
  if should_sync then
    let r := reset_count counts1 folder
    (true, r.1, TrackerEv.saveState counts1 :: (r.2 ++ [TrackerEv.syncKB folder]))
  else
    (false, counts1, [TrackerEv.saveState counts1])

/-! ### Knowledge-base sync service (`services/kb_sync_service.py`)

`wait_for_ingestion_job` polls the Bedrock API; each poll either yields a
response (a status string plus a list of failure-reason strings) or raises.
The embedding consumes a list of such poll outcomes, one per attempt, with
`max_attempts = 60` attempts available from the top-level entry point.
A raised Python exception is an `Except.error`. -/

/-- One poll outcome from `get_ingestion_job`: a response, or a raised exception. -/
inductive PollResp : Type
  | ok (status : String) (reasons : List (List Char))
  | exn (e : String)
deriving DecidableEq

/-- Result dictionary returned by `wait_for_ingestion_job`: the `status` entry,
the `failed_files` entry (defaulting to the empty list where the code omits
it), and the raw failure reasons carried in the `message` of a
`FAILED_OTHER_ERROR` result. -/
structure WaitRes : Type where
  status : String
  failed_files : List (List Char)
  rawReasons : List (List Char)
deriving DecidableEq

/-- KBIngestionService `token_error_pattern`, the compiled regex
`file\s+([^\s]+)\s+.*token\s+limit` with `re.IGNORECASE`: attempt a match
starting exactly at the head of `s`, returning the captured group.  The
greedy runs are deterministic here: shortening `\s+` leaves a whitespace
character where a non-whitespace is required and vice versa, so each run is
maximal, and `.*` (which does not cross a newline) reduces to searching for
`token\s+limit` on the same line. -/
def tokenMatchFrom (s : List Char) : Option (List Char) :=
  if startsWithCI (cs "file") s then
    let r1 := s.drop 4
    let ws1 := r1.takeWhile isWsP
    let r2 := r1.dropWhile isWsP
    let cap := r2.takeWhile (fun c => !isWsP c)
    let r3 := r2.dropWhile (fun c => !isWsP c)
    let ws2 := r3.takeWhile isWsP
    let r4 := r3.dropWhile isWsP
    if ws1 ≠ [] && cap ≠ [] && ws2 ≠ [] && tokenLimitOnLine r4 then some cap else none
  else none
where
  /-- Search for `token\s+limit` (case-insensitively) at or after the current
  position, without crossing a newline (the regex `.` does not match one). -/
  tokenLimitOnLine : List Char → Bool
    | [] => false
    | c :: rest =>
      (startsWithCI (cs "token") (c :: rest)
        && (let r := (c :: rest).drop 5
            (r.takeWhile isWsP ≠ [] && startsWithCI (cs "limit") (r.dropWhile isWsP) : Bool)))
      || (c ≠ '\n' && tokenLimitOnLine rest)

/-- `re.search` with `token_error_pattern`: leftmost position at which the
pattern matches, returning the captured file path. -/
def tokenErrorSearch : List Char → Option (List Char)
  | [] => none
  | c :: rest =>
    match tokenMatchFrom (c :: rest) with
    | some cap => some cap
    | none => tokenErrorSearch rest

/-- The `FAILED` branch of `wait_for_ingestion_job`: scan every (string)
failure reason with the token regex and append each newly matched file path
to the accumulator, skipping paths already present. -/
def addTokenMatches (acc : List (List Char)) (reasons : List (List Char)) : List (List Char) :=
  reasons.foldl
    (fun a r =>
      match tokenErrorSearch r with
      | some f => if f ∈ a then a else a ++ [f]
      | none => a)
    acc

/-- `max_attempts` in `wait_for_ingestion_job`. -/
def KB_MAX_ATTEMPTS : Nat := 60

/-- The polling loop of `wait_for_ingestion_job`, over the remaining poll
outcomes and the `failed_files_due_to_tokens` accumulator.  `COMPLETE`
returns immediately with the accumulator; `FAILED` scans the reasons and
returns `FAILED_TOKEN_ERROR` or `FAILED_OTHER_ERROR`; any other status polls
again; a poll exception re-raises when the accumulator is empty and returns
`ERROR_DURING_WAIT` otherwise; exhausting all attempts raises when the
accumulator is empty and returns `TIMEOUT_TOKEN_ERROR` otherwise. -/
def waitLoop : List PollResp → List (List Char) → Except String WaitRes
  | [], acc =>
    if acc = [] then Except.error "Ingestion job timed out"
    else Except.ok ⟨"TIMEOUT_TOKEN_ERROR", acc, []⟩
  | PollResp.exn e :: _, acc =>
    if acc = [] then Except.error e
    else Except.ok ⟨"ERROR_DURING_WAIT", acc, []⟩
  | PollResp.ok status reasons :: rest, acc =>
    if status = "COMPLETE" then Except.ok ⟨"COMPLETE", acc, []⟩
    else if status = "FAILED" then
      let files := addTokenMatches acc reasons
      if files = [] then Except.ok ⟨"FAILED_OTHER_ERROR", [], reasons⟩
      else Except.ok ⟨"FAILED_TOKEN_ERROR", files, []⟩
    else waitLoop rest acc

/-- Embedding of `wait_for_ingestion_job`: run the polling loop for up to
`max_attempts = 60` poll outcomes with an empty accumulator. -/
def wait_for_ingestion_job (polls : List PollResp) : Except String WaitRes :=
  waitLoop (polls.take KB_MAX_ATTEMPTS) []

/-- Observable external operations of the sync service: Bedrock job
submissions, S3 copies and deletions, and the lock release performed in the
`finally` block. -/
inductive KbOp : Type
  | startJob (description : String)
  | s3Copy (srcBucket srcKey dstBucket dstKey : List Char)
  | s3Delete (bucket key : List Char)
  | lockRelease
deriving DecidableEq

/-- Whether an operation writes to S3 (a copy or a delete). -/
def isS3Write : KbOp → Bool
  | KbOp.s3Copy _ _ _ _ => true
  | KbOp.s3Delete _ _ => true
  | _ => false

/-- Result dictionary of `sync_and_handle_failed_files`: its `status` entry
and its `files_moved_to_unprocessed` entry (empty where the code omits it). -/
structure SyncOutcome : Type where
  status : String
  files_moved_to_unprocessed : List (List Char)
deriving DecidableEq

/-- `os.path.basename`: the part of the key after the last slash. -/
def basenameP (s : List Char) : List Char :=
  ((s.reverse.takeWhile (fun c => c ≠ '/'))).reverse

/-- `KBMappingConfig.UNPROCESSED_FOLDER`. -/
def UNPROCESSED_FOLDER : List Char := cs "to_further_process"

/-- `KBMappingConfig.CHUNKED_BUCKET`. -/
def CHUNKED_BUCKET_KB : List Char := cs "chunked-rules-repository"

/-- `KBMappingConfig.UNPROCESSED_BUCKET`. -/
def UNPROCESSED_BUCKET_KB : List Char := cs "unprocessed-files-error-on-pdf-processing"

/-- Embedding of `KBIngestionService.move_s3_object` (the copy-then-delete
move), with the underlying S3 calls taken to succeed: it emits a
`copy_object` followed by a `delete_object` and reports success.  This
function exists in the source but — decisive for claim C1 — is never invoked
by `sync_and_handle_failed_files`. -/
def move_s3_object (srcBucket srcKey dstBucket dstKey : List Char) : Bool × List KbOp :=
  (true, [KbOp.s3Copy srcBucket srcKey dstBucket dstKey, KbOp.s3Delete srcBucket srcKey])

/-- Embedding of `KBIngestionService.sync_and_handle_failed_files`.

Inputs are the outcomes of the external interactions: whether the KB lock was
acquired (`lockOk`), and the combined start-and-wait outcome of the first and
second ingestion jobs (`step1`, `step2`), an `Except.error` standing for a
raised exception anywhere inside the corresponding `try` block.

Faithful to the source (kb_sync_service.py lines 224–230): for every failed
file reported by the first job, the code only computes the destination key
`to_further_process/<basename>` and appends it to `files_successfully_moved`;
the comment `# move_s3_object will be implemented when needed` stands where
the move would be, so no S3 copy or delete is performed. -/
def sync_and_handle_failed_files (lockOk : Bool)
    (step1 step2 : Except String WaitRes) : SyncOutcome × List KbOp :=
  if ¬lockOk then (⟨"LOCK_TIMEOUT", []⟩, [])
  else
    match step1 with
    | Except.error _ => (⟨"Error", []⟩, [KbOp.lockRelease])
    | Except.ok w1 =>
      let failed_files_initial_sync := w1.failed_files
      let files_successfully_moved :=
        failed_files_initial_sync.map (fun k => UNPROCESSED_FOLDER ++ '/' :: basenameP k)
      match step2 with
      | Except.error _ =>
        (⟨"Completed with Errors and Unprocessed Files", files_successfully_moved⟩,
         [KbOp.startJob "initial", KbOp.lockRelease])
      | Except.ok _ =>
        if files_successfully_moved ≠ [] then
          (⟨"Completed with Failed Files", files_successfully_moved⟩,
           [KbOp.startJob "initial", KbOp.startJob "retry", KbOp.lockRelease])
        else
          (⟨"COMPLETE", []⟩,
           [KbOp.startJob "initial", KbOp.startJob "retry", KbOp.lockRelease])

/-- C3: the tracker increments the folder's counter by exactly one, triggers
exactly when the incremented counter has reached the threshold 20, and on a
trigger the counter is reset to zero (and the reset is saved) strictly before
the knowledge-base sync call appears in the event trace. -/
theorem increment_and_check_sync_spec (counts : String → Option Nat) (folder : String) :
    (increment_and_check_sync counts folder).1
        = decide (20 ≤ (counts folder).getD 0 + 1)
    ∧ (increment_and_check_sync counts folder).2.1 folder
        = some (if 20 ≤ (counts folder).getD 0 + 1 then 0 else (counts folder).getD 0 + 1)
    ∧ (∀ g, g ≠ folder → (increment_and_check_sync counts folder).2.1 g = counts g)
    ∧ ((increment_and_check_sync counts folder).1 = true →
        ∃ cmid,
          (increment_and_check_sync counts folder).2.2
            = [TrackerEv.saveState cmid,
               TrackerEv.saveState (increment_and_check_sync counts folder).2.1,
               TrackerEv.syncKB folder]
          ∧ cmid folder = some ((counts folder).getD 0 + 1))
    ∧ ((increment_and_check_sync counts folder).1 = false →
        (increment_and_check_sync counts folder).2.2
          = [TrackerEv.saveState (increment_and_check_sync counts folder).2.1]
        ∧ (increment_and_check_sync counts folder).2.1 folder
            = some ((counts folder).getD 0 + 1)) := by
  by_cases h : 20 ≤ (counts folder).getD 0 + 1
  · refine ⟨?_, ?_, ?_, ?_, ?_⟩
    · simp [increment_and_check_sync, SYNC_THRESHOLD, h]
    · simp [increment_and_check_sync, reset_count, SYNC_THRESHOLD, h]
    · intro g hg
      simp [increment_and_check_sync, reset_count, SYNC_THRESHOLD, h, hg]
    · intro _
      refine ⟨fun f => if f = folder then some ((counts folder).getD 0 + 1) else counts f, ?_, ?_⟩
      · simp [increment_and_check_sync, reset_count, SYNC_THRESHOLD, h]
      · simp
    · intro hfalse
      exfalso
      simp [increment_and_check_sync, SYNC_THRESHOLD, h] at hfalse
  · refine ⟨?_, ?_, ?_, ?_, ?_⟩
    · simp [increment_and_check_sync, SYNC_THRESHOLD, h]
    · simp [increment_and_check_sync, SYNC_THRESHOLD, h]
    · intro g hg
      simp [increment_and_check_sync, SYNC_THRESHOLD, h, hg]
    · intro htrue
      exfalso
      simp [increment_and_check_sync, SYNC_THRESHOLD, h] at htrue
    · intro _
      constructor
      · simp [increment_and_check_sync, SYNC_THRESHOLD, h]
      · simp [increment_and_check_sync, SYNC_THRESHOLD, h]

/-- Witness for C3: starting from a dictionary where every folder already has
19 files counted, one more file triggers a sync, the counter is reset to
zero, and the trace has three events (save, save of the reset, sync). -/
theorem increment_and_check_sync_spec_witness :
    (increment_and_check_sync (fun _ => some 19) "Direct Taxes").1 = true
    ∧ (increment_and_check_sync (fun _ => some 19) "Direct Taxes").2.1 "Direct Taxes" = some 0
    ∧ ((increment_and_check_sync (fun _ => some 19) "Direct Taxes").2.2).length = 3 := by
  have h := increment_and_check_sync_spec (fun _ => some 19) "Direct Taxes"
  have h1 : (increment_and_check_sync (fun _ => some 19) "Direct Taxes").1 = true := by
    rw [h.1]; rfl
  refine ⟨h1, ?_, ?_⟩
  · rw [h.2.1]
    simp
  · obtain ⟨cmid, heq, _⟩ := h.2.2.2.1 h1
    rw [heq]
    rfl

/-! ### OCR service (`services/ocr_service.py`)

A source page is abstracted by the two features `apply_ocr_to_pdf` inspects:
whether it has (nonempty, stripped) extractable text and whether it embeds
raster images.  The parallel recognition step is modelled by a `recognize`
function (what `perform_ocr_on_page` returns for a page — recognized text,
or an error string containing `Error` when recognition failed) together with
an `arrival` list: the order in which the per-page results are collected into
the `ocr_results` dictionary.  `fits` tells whether `insert_textbox` succeeds
for a page at a given font size. -/

/-- A source PDF page as classified by the OCR stage. -/
structure SrcPage : Type where
  hasText : Bool
  hasImages : Bool
deriving DecidableEq

/-- The OCR flagging rule: a page needs OCR when it has embedded images or no
extractable text. -/
def needsOcr (p : SrcPage) : Bool := p.hasImages || !p.hasText

/-- The `enumerate` loop collecting `pages_to_ocr`, carrying the running
index. -/
def flaggedFrom : Nat → List SrcPage → List Nat
  | _, [] => []
  | i, p :: rest =>
    if needsOcr p then i :: flaggedFrom (i + 1) rest else flaggedFrom (i + 1) rest

/-- The `pages_to_ocr` list of 0-based page indices flagged for OCR. -/
def pages_to_ocr (pages : List SrcPage) : List Nat := flaggedFrom 0 pages

/-- The `ocr_results` dictionary: per-page recognition results collected in
`arrival` order, keyed by page index. -/
def ocr_results (recognize : Nat → List Char) (arrival : List Nat) :
    List (Nat × List Char) :=
  arrival.map (fun i => (i, recognize i))

/-- The shrinking-font-size retry loop (start at 9, decrement to 5, stop at
the first size where `insert_textbox` reports success); `none` when no size
fits. -/
def chooseFontSize (fitsAt : Nat → Bool) : Option Nat :=
  [9, 8, 7, 6, 5].find? fitsAt

/-- The `"Error" in ocr_text` test selecting the error-placeholder page. -/
def containsErrorStr (t : List Char) : Bool := containsSubstr t (cs "Error")

/-- An output page of the OCR stage: an `OCR Failed` placeholder page, a
fresh page holding the recognized text (at the chosen font size), or the
original page copied through. -/
inductive OutPage : Type
  | errorPage (i : Nat) (text : List Char)
  | ocrPage (i : Nat) (text : List Char) (fontSize : Option Nat)
  | original (i : Nat)
deriving DecidableEq

/-- The body of the rebuild loop for page `j`: a replacement page when `j`
has an entry in `ocr_results`, the original page otherwise. -/
def rebuiltPage (results : List (Nat × List Char)) (fits : Nat → Nat → Bool)
    (j : Nat) : OutPage :=
  match results.lookup j with
  | some t =>
    if containsErrorStr t then OutPage.errorPage j t
    else OutPage.ocrPage j t (chooseFontSize (fits j))
  | none => OutPage.original j

/-- Embedding of `OCRService.apply_ocr_to_pdf`: flag pages, return the
`(None, [])` sentinel when no page is flagged, otherwise rebuild the document
page by page in input order — replacing exactly the pages present in
`ocr_results` and recording their 1-based numbers — and return the sentinel
again in the (unreachable when results cover the flagged pages) case where no
page was replaced. -/
def apply_ocr_to_pdf (pages : List SrcPage) (recognize : Nat → List Char)
    (arrival : List Nat) (fits : Nat → Nat → Bool) :
    Option (List OutPage) × List Nat :=
  let flagged := pages_to_ocr pages
  if flagged = [] then (none, [])
  else
    let results := ocr_results recognize arrival
    let out := (List.range pages.length).map (rebuiltPage results fits)
    let replaced := (List.range pages.length).filterMap
      (fun j => if (results.lookup j).isSome then some (j + 1) else none)
    if replaced = [] then (none, []) else (some out, replaced)

/-! ### Watermark service (`services/watermark_service.py`)

A page is abstracted by what `remove_watermarks` inspects: its extractable
text (on which `page.search_for(term)` finds occurrences), its embedded-image
count, and its hyperlink annotations (`uri` and `xref` entries, both of which
the code treats as optional dictionary keys).  Redacting a found term erases
its occurrences from the page text. -/

/-- A hyperlink annotation as seen through `page.get_links()`. -/
structure WLink : Type where
  uri : Option (List Char)
  xref : Option Nat
deriving DecidableEq

/-- A PDF page as seen by the watermark stage. -/
structure WPage : Type where
  text : List Char
  imageCount : Nat
  links : List WLink
deriving DecidableEq

/-- `WATERMARK_TERMS_TO_REMOVE`. -/
def WATERMARK_TERMS_TO_REMOVE : List (List Char) :=
  [cs "Tax Management India .com", cs "https://www.taxmanagementindia.com", cs "TMI"]

/-- Remove every (left-to-right, non-overlapping) occurrence of `pat` from
`s` — the effect of `apply_redactions` on the occurrences `search_for`
located. -/
def removeOcc (pat : List Char) (s : List Char) : List Char :=
  match s with
  | [] => []
  | c :: rest =>
    if pat ≠ [] ∧ pat = List.take pat.length (c :: rest) then
      removeOcc pat (List.drop pat.length (c :: rest))
    else
      c :: removeOcc pat rest
termination_by s.length
decreasing_by
  · rename_i h
    have hp : pat.length ≠ 0 := by
      intro hc
      exact h.1 (List.eq_nil_of_length_eq_zero hc)
    simp only [List.length_drop, List.length_cons]
    omega
  · simp only [List.length_cons]
    omega

/-- The per-term redaction loop of `remove_watermarks` on one page: for each
watermark term in order, if it occurs in the (current) page text, erase its
occurrences and mark the page modified. -/
def removeTermsFromText (text : List Char) : List Char × Bool :=
  WATERMARK_TERMS_TO_REMOVE.foldl
    (fun acc term =>
      if containsSubstr acc.1 term then (removeOcc term acc.1, true) else acc)
    (text, false)

/-- The link test: the link has a `uri` whose lower-cased value contains some
lower-cased watermark term. -/
def linkHasTerm (l : WLink) : Bool :=
  match l.uri with
  | some u => WATERMARK_TERMS_TO_REMOVE.any (fun t => containsSubstrCI u t)
  | none => false

/-- Processing of one page: redact found terms from the text, and delete the
annotations of term-bearing links that carry an `xref`.  Returns the
resulting page, whether a term was redacted from the text (membership in
`pages_with_terms_indices`), and whether the page contributed to the
document-level `modified` flag (a text term found or a term link found). -/
def processWPage (p : WPage) : WPage × Bool × Bool :=
  let r := removeTermsFromText p.text
  let linkMod := p.links.any linkHasTerm
  let links2 := p.links.filter (fun l => !(linkHasTerm l && l.xref.isSome))
  (⟨r.1, p.imageCount, links2⟩, r.2, r.2 || linkMod)

/-- Python `str.strip()` on the page text. -/
def stripWs (s : List Char) : List Char :=
  ((s.dropWhile isWsP).reverse.dropWhile isWsP).reverse

/-- `WatermarkService.is_page_empty`: no stripped text, no images, no links. -/
def is_page_empty (p : WPage) : Bool :=
  stripWs p.text = [] && p.imageCount = 0 && p.links.isEmpty

/-- Embedding of `WatermarkService.remove_watermarks`: process every page;
when nothing was modified return the `(None, [])` no-op sentinel without any
page-removal pass; otherwise drop the pages that ended up empty and were not
among the pages where a term was redacted, reporting their 1-based numbers in
the descending order the deletion loop appends them (the loop's bound check
always passes for descending distinct indices). -/
def remove_watermarks (pages : List WPage) : Option (List WPage) × List Nat :=
  let processed := pages.map processWPage
  let modified := processed.any (fun r => r.2.2)
  if modified then
    let del : Nat → Bool := fun i =>
      match processed[i]? with
      | some r => is_page_empty r.1 && !r.2.1
      | none => false
    let delIdx := (List.range processed.length).filter del
    let removed := delIdx.reverse.map (fun i => i + 1)
    let kept := (List.range processed.length).filterMap
      (fun i => match processed[i]? with
        | some r => if del i then none else some r.1
        | none => none)
    (some kept, removed)
  else
    (none, [])

/-- Interface wrapper for `remove_watermarks`: a `None` input stream and a
raised exception from the fallible primitives (for instance `fitz.open` on
bytes that are not a valid PDF) both produce the `(None, [])` sentinel —
the body's `try`/`except Exception` boundary. -/
def remove_watermarks_total (input : Option (Except String (List WPage))) :
    Option (List WPage) × List Nat :=
  match input with
  | none => (none, [])
  | some (Except.error _) => (none, [])
  | some (Except.ok pages) => remove_watermarks pages

/-- Interface wrapper for `apply_ocr_to_pdf`: a `None` input stream and a
raised exception from the fallible primitives both produce the `(None, [])`
sentinel — the body's `try`/`except Exception` boundary. -/
def apply_ocr_to_pdf_total (input : Option (Except String (List SrcPage)))
    (recognize : Nat → List Char) (arrival : List Nat) (fits : Nat → Nat → Bool) :
    Option (List OutPage) × List Nat :=
  match input with
  | none => (none, [])
  | some (Except.error _) => (none, [])
  | some (Except.ok pages) => apply_ocr_to_pdf pages recognize arrival fits

/-! ### Chunking service (`services/chunking_service.py`)

`extract_metadata` derives a metadata dictionary from the `/`-separated
segments of the object key.  The dictionary is embedded as an association
list in insertion order; values are strings or numbers.  Every Python list
indexing `parts[i]` is embedded as the partial access `parts[i]?`, so the
whole function lives in `Option`: a `none` result would be an uncaught
`IndexError`. -/

/-- A metadata value: a string or an integer. -/
inductive MVal : Type
  | s (v : List Char)
  | n (v : Nat)
deriving DecidableEq

/-- Python `key.split('/')`: split at every slash; always nonempty. -/
def splitSlash (s : List Char) : List (List Char) :=
  match s with
  | [] => [[]]
  | c :: rest =>
    if c = '/' then [] :: splitSlash rest
    else
      match splitSlash rest with
      | p :: ps => (c :: p) :: ps
      | [] => [[c]]

/-- The root part of `os.path.splitext` on a slash-free name: drop the final
`.ext` when the name has a dot after its leading dots; otherwise the name
itself. -/
def splitextRoot (s : List Char) : List Char :=
  if (s.dropWhile (fun c => c = '.')).any (fun c => c = '.') then
    ((s.reverse.dropWhile (fun c => c ≠ '.')).drop 1).reverse
  else s

/-- Embedding of `ChunkingService.extract_metadata`: the `if`/`elif` chain
over the taxonomy root (the first path segment), each rule guarding its
segment accesses by length checks before indexing, followed by the
page-specific fields. -/
def extract_metadata (key : List Char) (page_number total_pages : Nat) :
    Option (List (String × MVal)) := do
  let parts := splitSlash key
  let folder ← parts[0]?
  let md0 := [("standard_type", MVal.s folder)]
  let md ←
    if folder = cs "Auditing-global" ∨ folder = cs "Finance Tools"
        ∨ folder = cs "GIFT City" ∨ folder = cs "test" then
      if 1 < parts.length then do
        let md1 ←
          if 2 < parts.length then do
            let p1 ← parts[1]?
            pure (md0 ++ [("Standard_type", MVal.s p1)])
          else pure md0
        let md2 ←
          if 3 < parts.length then do
            let p2 ← parts[2]?
            pure (md1 ++ [("document_type", MVal.s p2)])
          else pure md1
        let plast ← parts.getLast?
        pure (md2 ++ [("document_name", MVal.s (splitextRoot plast))])
      else pure md0
    else if folder = cs "accounting-global" then
      if 1 < parts.length then do
        let p1 ← parts[1]?
        let md1 := md0 ++ [("complexity", MVal.s p1)]
        let md2 ←
          if 2 < parts.length then do
            let p2 ← parts[2]?
            pure (md1 ++ [("Standard_type", MVal.s p2)])
          else pure md1
        let md3 ←
          if 3 < parts.length then do
            let p3 ← parts[3]?
            pure (md2 ++ [("document_type", MVal.s p3)])
          else pure md2
        let plast ← parts.getLast?
        pure (md3 ++ [("document_name", MVal.s (splitextRoot plast))])
      else pure md0
    else if folder = cs "Banking Regulations-test" ∧ parts[1]? = some (cs "Bahrain") then
      if 2 < parts.length then do
        let p1 ← parts[1]?
        let p2 ← parts[2]?
        let md1 := md0 ++ [("country", MVal.s p1), ("complexity", MVal.s p2)]
        let md2 ←
          if 4 < parts.length then do
            let p3 ← parts[3]?
            pure (md1 ++ [("document_type", MVal.s p3)])
          else pure md1
        let md3 ←
          if 5 < parts.length then do
            let p4 ← parts[4]?
            pure (md2 ++ [("document_category", MVal.s p4)])
          else pure md2
        let md4 ←
          if 6 < parts.length then do
            let p5 ← parts[5]?
            pure (md3 ++ [("document_sub-category", MVal.s p5)])
          else pure md3
        let plast ← parts.getLast?
        pure (md4 ++ [("document_name", MVal.s (splitextRoot plast))])
      else pure md0
    else if folder = cs "Banking-Regulations-Bahrain" ∧ parts[1]? = some (cs "Bahrain") then
      if 2 < parts.length then do
        let p1 ← parts[1]?
        let p2 ← parts[2]?
        let md1 := md0 ++ [("country", MVal.s p1), ("volume", MVal.s p2)]
        let md2 ←
          if 4 < parts.length then do
            let p3 ← parts[3]?
            pure (md1 ++ [("document_type", MVal.s p3)])
          else pure md1
        let md3 ←
          if 5 < parts.length then do
            let p4 ← parts[4]?
            pure (md2 ++ [("document_category", MVal.s p4)])
          else pure md2
        let md4 ←
          if 6 < parts.length then do
            let p5 ← parts[5]?
            pure (md3 ++ [("document_sub-category", MVal.s p5)])
          else pure md3
        let plast ← parts.getLast?
        pure (md4 ++ [("document_name", MVal.s (splitextRoot plast))])
      else pure md0
    else if folder = cs "accounting-standards" ∨ folder = cs "commercial-laws"
        ∨ folder = cs "Banking Regulations" ∨ folder = cs "Direct Taxes"
        ∨ folder = cs "Capital Market Regulations" ∨ folder = cs "Auditing Standards"
        ∨ folder = cs "Insurance" ∨ folder = cs "Labour Law" then
      if 1 < parts.length then do
        let p1 ← parts[1]?
        let md1 := md0 ++ [("country", MVal.s p1)]
        let md2 ←
          if 3 < parts.length then do
            let p2 ← parts[2]?
            pure (md1 ++ [("document_type", MVal.s p2)])
          else pure md1
        let md3 ←
          if 4 < parts.length then do
            let p3 ← parts[3]?
            pure (md2 ++ [("document_category", MVal.s p3)])
          else pure md2
        let md4 ←
          if 5 < parts.length then do
            let p4 ← parts[4]?
            pure (md3 ++ [("document_sub-category", MVal.s p4)])
          else pure md3
        let plast ← parts.getLast?
        pure (md4 ++ [("document_name", MVal.s (splitextRoot plast))])
      else pure md0
    else if folder = cs "Indirect Taxes" then
      if 1 < parts.length then do
        let p1 ← parts[1]?
        let md1 := md0 ++ [("country", MVal.s p1)]
        let md2 ←
          if 3 < parts.length then do
            let p2 ← parts[2]?
            pure (md1 ++ [("document_type", MVal.s p2)])
          else pure md1
        let md3 ←
          if 4 < parts.length then do
            let p3 ← parts[3]?
            pure (md2 ++ [("State", MVal.s p3)])
          else pure md2
        let md4 ←
          if 5 < parts.length then do
            let p4 ← parts[4]?
            pure (md3 ++ [("State_category", MVal.s p4)])
          else pure md3
        let plast ← parts.getLast?
        pure (md4 ++ [("document_name", MVal.s (splitextRoot plast))])
      else pure md0
    else if folder = cs "usecase-reports-4" then
      if 1 < parts.length then do
        let p1 ← parts[1]?
        let md1 := md0 ++ [("country", MVal.s p1)]
        let md2 ←
          if 2 < parts.length then do
            let p2 ← parts[2]?
            pure (md1 ++ [("year", MVal.s p2)])
          else pure md1
        let plast ← parts.getLast?
        pure (md2 ++ [("document_name", MVal.s (splitextRoot plast))])
      else pure md0
    else do
      let md1 ←
        if 1 < parts.length then do
          let p1 ← parts[1]?
          pure (md0 ++ [("country", MVal.s p1)])
        else pure md0
      let plast ← parts.getLast?
      pure (md1 ++ [("document_name", MVal.s (splitextRoot plast))])
  pure (md ++ [("page_number", MVal.n page_number), ("total_pages", MVal.n total_pages)])

/-- The exact condition under which `extract_metadata` sets a
`document_name` field: the guard of the rule matched by the taxonomy root
admits the key's segment count.  For recognized roots this fails on a
single-segment key; for the two Bahrain rules it fails when the key is
exactly `<root>/Bahrain`; the generic fallback always sets the field. -/
def document_name_guard (parts : List (List Char)) : Bool :=
  match parts with
  | [] => false
  | folder :: _ =>
    if folder = cs "Auditing-global" ∨ folder = cs "Finance Tools"
        ∨ folder = cs "GIFT City" ∨ folder = cs "test"
        ∨ folder = cs "accounting-global"
        ∨ folder = cs "accounting-standards" ∨ folder = cs "commercial-laws"
        ∨ folder = cs "Banking Regulations" ∨ folder = cs "Direct Taxes"
        ∨ folder = cs "Capital Market Regulations" ∨ folder = cs "Auditing Standards"
        ∨ folder = cs "Insurance" ∨ folder = cs "Labour Law"
        ∨ folder = cs "Indirect Taxes" ∨ folder = cs "usecase-reports-4" then
      decide (1 < parts.length)
    else if (folder = cs "Banking Regulations-test" ∨ folder = cs "Banking-Regulations-Bahrain")
        ∧ parts[1]? = some (cs "Bahrain") then
      decide (2 < parts.length)
    else true

/-- `config.CHUNKED_BUCKET` (default value). -/
def CHUNKED_BUCKET : List Char := cs "chunked-rules-repository"

/-- `config.DIRECT_CHUNKED_BUCKET` (default value). -/
def DIRECT_CHUNKED_BUCKET : List Char := cs "rules-repository-alpha"

/-- Decimal rendering of a page number (Python f-string interpolation). -/
def natStr (n : Nat) : List Char := (toString n).data

/-- Dictionary read `metadata.get(k, d)` for an integer field. -/
def mdGetNat (md : List (String × MVal)) (k : String) (d : Nat) : Nat :=
  match md.lookup k with
  | some (MVal.n v) => v
  | _ => d

/-- The per-page loop of the chunking functions: a `none` from any iteration
aborts the whole run (the body's exception reaches the surrounding
`try`/`except`, which returns the empty list). -/
def chunkLoop (f : Nat → Option (List (String × MVal))) :
    List Nat → Option (List (List (String × MVal)))
  | [] => some []
  | i :: rest => do
    let x ← f i
    let xs ← chunkLoop f rest
    pure (x :: xs)

/-- The folder path of a key: everything before the last slash, preserved
verbatim (`'/'.join(key.split('/')[:-1]) if '/' in key else ''`). -/
def folder_path_of (key : List Char) : List Char :=
  if '/' ∈ key then List.intercalate (cs "/") (splitSlash key).dropLast else []

/-- The base filename of a key: the last segment without its extension. -/
def base_filename_of (key : List Char) : List Char :=
  splitextRoot ((splitSlash key).getLastD [])

/-- The normalized base filename: spaces replaced by underscores
(`base_filename.replace(' ', '_')`). -/
def normalized_base_of (key : List Char) : List Char :=
  (base_filename_of key).map (fun c => if c = ' ' then '_' else c)

/-- The chunk object key for a page: `<folder_path>/<base>_page_<n><suffix>.pdf`
with the folder path omitted when empty. -/
def chunk_key_of (key : List Char) (n : Nat) (suffix : List Char) : List Char :=
  let fname := normalized_base_of key ++ cs "_page_" ++ natStr n ++ suffix ++ cs ".pdf"
  if folder_path_of key ≠ [] then folder_path_of key ++ '/' :: fname else fname

/-- Metadata body of one page of `chunk_pdf_direct`: the base metadata plus
the direct-stream fields and the single destination URI. -/
def direct_chunk_md (key : List Char) (page_num total_pages : Nat) :
    Option (List (String × MVal)) := do
  let md ← extract_metadata key (page_num + 1) total_pages
  let md := md ++ [("processing_method", MVal.s (cs "direct")),
                   ("chunk_type", MVal.s (cs "direct"))]
  let page_number := mdGetNat md "page_number" 1
  pure (md ++ [("chunk_s3_uri",
    MVal.s (cs "s3://" ++ DIRECT_CHUNKED_BUCKET ++ '/' :: chunk_key_of key page_number []))])

/-- Embedding of `ChunkingService.chunk_pdf_direct` at the metadata level:
one chunk per page of the (already parsed) document; an exception anywhere
yields the empty list. -/
def chunk_pdf_direct (total_pages : Nat) (key : List Char) :
    List (List (String × MVal)) :=
  (chunkLoop (fun page_num => direct_chunk_md key page_num total_pages)
    (List.range total_pages)).getD []

/-- Metadata body of one page of `chunk_pdf_processed`: the base metadata
plus the processed-stream fields and the two destination URIs (the processed
chunk in the chunked bucket, and the sibling direct chunk in the direct
bucket). -/
def processed_chunk_md (key : List Char) (page_num total_pages : Nat) :
    Option (List (String × MVal)) := do
  let md ← extract_metadata key (page_num + 1) total_pages
  let md := md ++ [("processing_method", MVal.s (cs "processed")),
                   ("chunk_type", MVal.s (cs "processed"))]
  let page_number := mdGetNat md "page_number" 1
  pure (md ++ [("chunk_s3_uri_processed",
    MVal.s (cs "s3://" ++ CHUNKED_BUCKET ++ '/' ::
      chunk_key_of key page_number (cs "_processed"))),
    ("chunk_s3_uri",
    MVal.s (cs "s3://" ++ DIRECT_CHUNKED_BUCKET ++ '/' :: chunk_key_of key page_number []))])

/-- Embedding of `ChunkingService.chunk_pdf_processed` at the metadata
level. -/
def chunk_pdf_processed (total_pages : Nat) (key : List Char) :
    List (List (String × MVal)) :=
  (chunkLoop (fun page_num => processed_chunk_md key page_num total_pages)
    (List.range total_pages)).getD []

/-- Written from the specification's words, as the refinement target for the
chunk destination URIs: `s3://<bucket>/<folder_path>/<base_name>_page_<n>[_<suffix>].pdf`
with the source key's folder path (the segments before the filename)
preserved verbatim, the base name being the filename without its extension
with spaces replaced by underscores, and the folder component omitted when
the key has no folder. -/
def specChunkUri (bucket : List Char) (key : List Char) (n : Nat) (suffix : List Char) :
    List Char :=
  let parts := splitSlash key
  let folder := List.intercalate (cs "/") parts.dropLast
  let base := splitextRoot (parts.getLastD [])
  let norm := base.map (fun c => if c = ' ' then '_' else c)
  let fname := norm ++ cs "_page_" ++ natStr n ++ suffix ++ cs ".pdf"
  cs "s3://" ++ bucket ++ '/' :: (if folder = [] then fname else folder ++ '/' :: fname)

/-! ### Filename service (`services/filename_service.py`)

`clean_filename` applies, to the filename portion of a key, a fixed sequence
of regex substitutions.  Each is embedded as a recursive scanner performing
the same left-to-right, non-overlapping substitution as `re.sub` on the
concrete pattern:

* `BRACKET_CONTENT_REGEX = \[.*?\]\s*` and `PAREN_CONTENT_REGEX = \(.*?\)\s*`:
  the lazy `.*?` matches up to the first closing delimiter, and `.` does not
  cross a newline; the trailing `\s*` is greedy.
* the four TMI patterns (`TMI\s*`, `\d+\s*TMI\s*`, `\(\d+\)\s*TMI\s*`,
  `\[\d+\]\s*TMI\s*`), case-insensitive; the greedy runs are deterministic
  because each is followed by a token of a disjoint character class.
* `QUOTE_CHARS_REGEX`: after Python string-literal concatenation the pattern
  is a character class holding only the straight quotes `'` and `"`, so the
  substitution deletes every such character.
* `WHITESPACE_REGEX = \s+` replaced by `_`, and the step-7 fallback
  `[^\x00-\x7F]+` replaced by `_` (the step-7 `unidecode(...)` call raises
  `TypeError` — the module is called, not its function — so the fallback is
  what runs): each maximal run becomes one underscore, embedded with a
  flag recording whether the scanner is inside a run.
* `MULTIPLE_UNDERSCORES_REGEX = _{2,}` replaced by `_`, then `strip("_")`. -/

/-- Modelled from the spec: the external `unidecode` transliteration library
(step 1 of `clean_filename`).  On ASCII input it is the identity, which is
`unidecode`'s documented behavior for code points below 128 and the only
behavior the theorems below rely on (they hypothesize ASCII filenames);
non-ASCII characters are approximated by dropping them. -/
def unidecodeModel (s : List Char) : List Char := s.filter isAsciiP

/-- A straight quote character (the effective content of
`QUOTE_CHARS_REGEX`). -/
def isQuoteF (c : Char) : Bool := c = '\'' || c = '"'

/-- A quote character as the claim states it: straight or curly, single or
double (the curly forms are the Unicode code points U+2018, U+2019, U+201C
and U+201D). -/
def isQuoteAny (c : Char) : Bool :=
  c = '\'' || c = '"' || c = '‘' || c = '’' || c = '“' || c = '”'

/-- Scan for the first closing bracket reachable without crossing a newline
(the lazy `.*?` cannot match `\n`); returns the suffix after it, with a bound
witnessing that the suffix is no longer than the input. -/
def bracketRest (close : Char) : (s : List Char) → Option { r : List Char // r.length ≤ s.length }
  | [] => none
  | c :: rest =>
    if c = close then some ⟨rest, by simp⟩
    else if c = '\n' then none
    else
      match bracketRest close rest with
      | some ⟨r, hr⟩ => some ⟨r, by simp; omega⟩
      | none => none

/-- `re.sub(r"\[.*?\]\s*", "", s)`: at every `[` with a reachable `]`, drop
the span and the trailing whitespace and continue after it; otherwise keep
the character. -/
def subBracket : List Char → List Char
  | [] => []
  | c :: rest =>
    if c = '[' then
      match bracketRest ']' rest with
      | some ⟨r, _⟩ => subBracket (r.dropWhile isWsP)
      | none => c :: subBracket rest
    else c :: subBracket rest
termination_by s => s.length
decreasing_by
  · rename_i hr
    have h1 := List.Sublist.length_le (List.dropWhile_sublist (l := r) isWsP)
    simp only [List.length_cons]
    omega
  · simp only [List.length_cons]; omega
  · simp only [List.length_cons]; omega

/-- `re.sub(r"\(.*?\)\s*", "", s)`. -/
def subParen : List Char → List Char
  | [] => []
  | c :: rest =>
    if c = '(' then
      match bracketRest ')' rest with
      | some ⟨r, _⟩ => subParen (r.dropWhile isWsP)
      | none => c :: subParen rest
    else c :: subParen rest
termination_by s => s.length
decreasing_by
  · rename_i hr
    have h1 := List.Sublist.length_le (List.dropWhile_sublist (l := r) isWsP)
    simp only [List.length_cons]
    omega
  · simp only [List.length_cons]; omega
  · simp only [List.length_cons]; omega

/-- `re.sub(r"TMI\s*", "", s, flags=re.IGNORECASE)`. -/
def subTMI : List Char → List Char
  | [] => []
  | c :: rest =>
    if startsWithCI (cs "TMI") (c :: rest) then
      subTMI (((c :: rest).drop 3).dropWhile isWsP)
    else c :: subTMI rest
termination_by s => s.length
decreasing_by
  · simp only [List.drop_succ_cons, List.length_cons]
    have h1 := List.Sublist.length_le (List.dropWhile_sublist (l := rest.drop 2) isWsP)
    have h2 := List.length_drop 2 rest
    omega
  · simp only [List.length_cons]; omega

/-- `re.sub(r"\d+\s*TMI\s*", "", s, flags=re.IGNORECASE)`: at a digit, the
greedy digit run, optional whitespace, then `TMI` must follow; on failure the
scan advances one character. -/
def subNumTMI : List Char → List Char
  | [] => []
  | c :: rest =>
    if isDigitP c then
      let r2 := (rest.dropWhile isDigitP).dropWhile isWsP
      if startsWithCI (cs "TMI") r2 then subNumTMI ((r2.drop 3).dropWhile isWsP)
      else c :: subNumTMI rest
    else c :: subNumTMI rest
termination_by s => s.length
decreasing_by
  · have h1 := List.Sublist.length_le (List.dropWhile_sublist (l := rest) isDigitP)
    have h2 := List.Sublist.length_le
      (List.dropWhile_sublist (l := rest.dropWhile isDigitP) isWsP)
    have h3 := List.length_drop 3 ((rest.dropWhile isDigitP).dropWhile isWsP)
    have h4 := List.Sublist.length_le (List.dropWhile_sublist
      (l := ((rest.dropWhile isDigitP).dropWhile isWsP).drop 3) isWsP)
    simp only [List.length_cons]
    omega
  · simp only [List.length_cons]; omega
  · simp only [List.length_cons]; omega

/-- `re.sub(r"\(\d+\)\s*TMI\s*", "", s, flags=re.IGNORECASE)`. -/
def subParenNumTMI : List Char → List Char
  | [] => []
  | c :: rest =>
    if c = '(' then
      match hd : rest.takeWhile isDigitP, hr : rest.dropWhile isDigitP with
      | _ :: _, ')' :: r2 =>
        let r3 := r2.dropWhile isWsP
        if startsWithCI (cs "TMI") r3 then subParenNumTMI ((r3.drop 3).dropWhile isWsP)
        else c :: subParenNumTMI rest
      | _, _ => c :: subParenNumTMI rest
    else c :: subParenNumTMI rest
termination_by s => s.length
decreasing_by
  · have h1 := List.Sublist.length_le (List.dropWhile_sublist (l := rest) isDigitP)
    rw [hr] at h1
    have h2 := List.Sublist.length_le (List.dropWhile_sublist (l := r2) isWsP)
    have h3 := List.length_drop 3 (r2.dropWhile isWsP)
    have h4 := List.Sublist.length_le
      (List.dropWhile_sublist (l := (r2.dropWhile isWsP).drop 3) isWsP)
    simp only [List.length_cons] at *
    omega
  · simp only [List.length_cons]; omega
  · simp only [List.length_cons]; omega
  · simp only [List.length_cons]; omega

/-- `re.sub(r"\[\d+\]\s*TMI\s*", "", s, flags=re.IGNORECASE)`. -/
def subBrackNumTMI : List Char → List Char
  | [] => []
  | c :: rest =>
    if c = '[' then
      match hd : rest.takeWhile isDigitP, hr : rest.dropWhile isDigitP with
      | _ :: _, ']' :: r2 =>
        let r3 := r2.dropWhile isWsP
        if startsWithCI (cs "TMI") r3 then subBrackNumTMI ((r3.drop 3).dropWhile isWsP)
        else c :: subBrackNumTMI rest
      | _, _ => c :: subBrackNumTMI rest
    else c :: subBrackNumTMI rest
termination_by s => s.length
decreasing_by
  · have h1 := List.Sublist.length_le (List.dropWhile_sublist (l := rest) isDigitP)
    rw [hr] at h1
    have h2 := List.Sublist.length_le (List.dropWhile_sublist (l := r2) isWsP)
    have h3 := List.length_drop 3 (r2.dropWhile isWsP)
    have h4 := List.Sublist.length_le
      (List.dropWhile_sublist (l := (r2.dropWhile isWsP).drop 3) isWsP)
    simp only [List.length_cons] at *
    omega
  · simp only [List.length_cons]; omega
  · simp only [List.length_cons]; omega
  · simp only [List.length_cons]; omega

/-- `re.sub(QUOTE_CHARS_REGEX, "", s)`: delete every straight quote. -/
def subQuotes (s : List Char) : List Char := s.filter (fun c => !isQuoteF c)

/-- `re.sub(r"\s+", "_", s)`: replace each maximal whitespace run with one
underscore; the flag records whether the scanner is inside a run whose
underscore was already emitted. -/
def subWs : List Char → Bool → List Char
  | [], _ => []
  | c :: rest, inRun =>
    if isWsP c then
      if inRun then subWs rest true else '_' :: subWs rest true
    else c :: subWs rest false

/-- The step-7 fallback `re.sub(r"[^\x00-\x7F]+", "_", s)`. -/
def subNonAscii : List Char → Bool → List Char
  | [], _ => []
  | c :: rest, inRun =>
    if !isAsciiP c then
      if inRun then subNonAscii rest true else '_' :: subNonAscii rest true
    else c :: subNonAscii rest false

/-- `re.sub(r"_{2,}", "_", s)`: collapse each maximal underscore run to one
underscore (runs of length one are left as they are, which is the same
result). -/
def collapseUnd : List Char → Bool → List Char
  | [], _ => []
  | c :: rest, inRun =>
    if c = '_' then
      if inRun then collapseUnd rest true else '_' :: collapseUnd rest true
    else c :: collapseUnd rest false

/-- Python `strip("_")`. -/
def stripUnd (s : List Char) : List Char :=
  ((s.dropWhile (fun c => c = '_')).reverse.dropWhile (fun c => c = '_')).reverse

/-- Python `key.rsplit('/', 1) if '/' in key else ('', key)`. -/
def rsplitSlash (s : List Char) : List Char × List Char :=
  if '/' ∈ s then
    (((s.reverse.dropWhile (fun c => c ≠ '/')).drop 1).reverse,
     (s.reverse.takeWhile (fun c => c ≠ '/')).reverse)
  else ([], s)

/-- Python `str.replace("//", "/")`: one left-to-right non-overlapping
pass. -/
def replaceDS : List Char → List Char
  | '/' :: '/' :: rest => '/' :: replaceDS rest
  | c :: rest => c :: replaceDS rest
  | [] => []

/-- A case-insensitive occurrence of `TMI` as three consecutive
characters. -/
def hasTMI : List Char → Bool
  | t :: m :: i :: rest =>
    (eqCI t 'T' && eqCI m 'M' && eqCI i 'I') || hasTMI (m :: i :: rest)
  | _ => false

/-- Two adjacent underscores occur somewhere in the string (the
`MULTIPLE_UNDERSCORES_REGEX` trigger). -/
def hasDD : List Char → Bool
  | '_' :: '_' :: _ => true
  | _ :: rest => hasDD rest
  | [] => false

/-- Embedding of `FilenameService.clean_filename`: split off the folder path,
run the step sequence on the filename portion while tracking the `modified`
flag (step 7 does not update it), reattach the folder path collapsing double
slashes, and return the original key when nothing changed. -/
def clean_filename (key : List Char) : List Char :=
  let p := rsplitSlash key
  let dirname := p.1
  let fname0 := p.2
  let f1 := unidecodeModel fname0
  let m1 : Bool := !(f1 == fname0)
  let f2 := subBracket f1
  let m2 := m1 || !(f2 == f1)
  let f3 := subParen f2
  let m3 := m2 || !(f3 == f2)
  let f4a := subTMI f3
  let m4a := m3 || !(f4a == f3)
  let f4b := subNumTMI f4a
  let m4b := m4a || !(f4b == f4a)
  let f4c := subParenNumTMI f4b
  let m4c := m4b || !(f4c == f4b)
  let f4d := subBrackNumTMI f4c
  let m4d := m4c || !(f4d == f4c)
  let f5 := subQuotes f4d
  let m5 := m4d || !(f5 == f4d)
  let f6 := subWs f5 false
  let m6 := m5 || !(f6 == f5)
  let f7 := subNonAscii f6 false
  let f8 := stripUnd (collapseUnd f7 false)
  let m8 := m6 || !(f8 == f7)
  let cleaned := if dirname ≠ [] then replaceDS (dirname ++ '/' :: f8) else f8
  if m8 then cleaned else key

/-- The common shape of the three run-collapsing scanners of
`clean_filename` (`subWs`, `subNonAscii`, `collapseUnd`): each maximal run
of characters satisfying `p` becomes a single underscore. -/
def runSub (p : Char → Bool) : List Char → Bool → List Char
  | [], _ => []
  | c :: rest, inRun =>
    if p c then
      if inRun then runSub p rest true else '_' :: runSub p rest true
    else c :: runSub p rest false

/-! ### Claims C1 and C2: ingestion-job orchestration -/

/-- Membership in the accumulator built by the `FAILED` branch: a file is
collected exactly when it was already collected or some reason matches the
token-limit regex with that file as the captured group. -/
theorem addTokenMatches_mem (rs : List (List Char)) :
    ∀ (acc : List (List Char)) (f : List Char),
      f ∈ addTokenMatches acc rs ↔ f ∈ acc ∨ ∃ r ∈ rs, tokenErrorSearch r = some f := by
  induction rs with
  | nil => intro acc f; simp [addTokenMatches]
  | cons r rest ih =>
    intro acc f
    have hstep :
        addTokenMatches acc (r :: rest)
          = addTokenMatches
              (match tokenErrorSearch r with
               | some g => if g ∈ acc then acc else acc ++ [g]
               | none => acc) rest := by
      simp [addTokenMatches, List.foldl_cons]
    rw [hstep, ih]
    cases hr : tokenErrorSearch r with
    | none =>
      simp only [hr]
      constructor
      · rintro (hf | ⟨r', hr', hf⟩)
        · exact Or.inl hf
        · exact Or.inr ⟨r', List.mem_cons_of_mem _ hr', hf⟩
      · rintro (hf | ⟨r', hr', hf⟩)
        · exact Or.inl hf
        · rcases List.mem_cons.mp hr' with h | h
          · subst h; rw [hr] at hf; cases hf
          · exact Or.inr ⟨r', h, hf⟩
    | some g =>
      simp only [hr]
      by_cases hg : g ∈ acc
      · simp only [hg, if_pos]
        constructor
        · rintro (hf | ⟨r', hr', hf⟩)
          · exact Or.inl hf
          · exact Or.inr ⟨r', List.mem_cons_of_mem _ hr', hf⟩
        · rintro (hf | ⟨r', hr', hf⟩)
          · exact Or.inl hf
          · rcases List.mem_cons.mp hr' with h | h
            · subst h; rw [hr] at hf
              cases hf; exact Or.inl hg
            · exact Or.inr ⟨r', h, hf⟩
      · simp only [hg, if_neg, not_false_iff]
        constructor
        · rintro (hf | ⟨r', hr', hf⟩)
          · rcases List.mem_append.mp hf with h | h
            · exact Or.inl h
            · rcases List.mem_singleton.mp h with rfl
              exact Or.inr ⟨r, List.mem_cons_self _ _, hr⟩
          · exact Or.inr ⟨r', List.mem_cons_of_mem _ hr', hf⟩
        · rintro (hf | ⟨r', hr', hf⟩)
          · exact Or.inl (List.mem_append.mpr (Or.inl hf))
          · rcases List.mem_cons.mp hr' with h | h
            · subst h; rw [hr] at hf
              cases hf
              exact Or.inl (List.mem_append.mpr (Or.inr (List.mem_singleton.mpr rfl)))
            · exact Or.inr ⟨r', h, hf⟩

/-- The accumulator stays duplicate-free: new files are appended only after
the `not in` check. -/
theorem addTokenMatches_nodup (rs : List (List Char)) :
    ∀ acc : List (List Char), acc.Nodup → (addTokenMatches acc rs).Nodup := by
  induction rs with
  | nil => intro acc h; simpa [addTokenMatches] using h
  | cons r rest ih =>
    intro acc h
    have hstep :
        addTokenMatches acc (r :: rest)
          = addTokenMatches
              (match tokenErrorSearch r with
               | some g => if g ∈ acc then acc else acc ++ [g]
               | none => acc) rest := by
      simp [addTokenMatches, List.foldl_cons]
    rw [hstep]
    apply ih
    cases hr : tokenErrorSearch r with
    | none => simpa using h
    | some g =>
      by_cases hg : g ∈ acc
      · simpa [hg] using h
      · simp only [hg, if_neg, not_false_iff]
        exact (List.nodup_append.mpr ⟨h, List.nodup_singleton g, by simpa using hg⟩)

/-- C2: on a `COMPLETE` poll the job returns status `COMPLETE` with the
failures accumulated so far; on a `FAILED` poll it returns
`FAILED_TOKEN_ERROR` carrying the duplicate-free list of file paths matched
by the token-limit regex when at least one reason matches, and
`FAILED_OTHER_ERROR` carrying the raw reasons when none does; on exhausting
all polling attempts it raises when no token-limit files were collected and
returns `TIMEOUT_TOKEN_ERROR` with the collected files otherwise. -/
theorem wait_for_ingestion_job_spec (rest : List PollResp)
    (acc : List (List Char)) (reasons : List (List Char)) :
    (waitLoop (PollResp.ok "COMPLETE" reasons :: rest) acc = Except.ok ⟨"COMPLETE", acc, []⟩)
    ∧ (addTokenMatches acc reasons ≠ [] →
        waitLoop (PollResp.ok "FAILED" reasons :: rest) acc
          = Except.ok ⟨"FAILED_TOKEN_ERROR", addTokenMatches acc reasons, []⟩)
    ∧ (addTokenMatches acc reasons = [] →
        waitLoop (PollResp.ok "FAILED" reasons :: rest) acc
          = Except.ok ⟨"FAILED_OTHER_ERROR", [], reasons⟩)
    ∧ (∀ f, f ∈ addTokenMatches acc reasons ↔
        f ∈ acc ∨ ∃ r ∈ reasons, tokenErrorSearch r = some f)
    ∧ (acc.Nodup → (addTokenMatches acc reasons).Nodup)
    ∧ (acc = [] → waitLoop [] acc = Except.error "Ingestion job timed out")
    ∧ (acc ≠ [] → waitLoop [] acc = Except.ok ⟨"TIMEOUT_TOKEN_ERROR", acc, []⟩) := by
  refine ⟨?_, ?_, ?_, ?_, ?_, ?_, ?_⟩
  · simp [waitLoop]
  · intro h; simp [waitLoop, h]
  · intro h; simp [waitLoop, h]
  · intro f; exact addTokenMatches_mem reasons acc f
  · exact addTokenMatches_nodup reasons acc
  · intro h; simp [waitLoop, h]
  · intro h; simp [waitLoop, h]

/-- Witness for C2 at concrete inputs: a single `FAILED` poll whose reason
matches the token regex yields `FAILED_TOKEN_ERROR` with the captured path,
and attempt exhaustion with a nonempty accumulator yields
`TIMEOUT_TOKEN_ERROR`. -/
theorem wait_for_ingestion_job_spec_witness :
    waitLoop [PollResp.ok "FAILED" [cs "file a.pdf exceeds the token limit"]] []
      = Except.ok ⟨"FAILED_TOKEN_ERROR", [cs "a.pdf"], []⟩
    ∧ waitLoop [] [cs "a.pdf"] = Except.ok ⟨"TIMEOUT_TOKEN_ERROR", [cs "a.pdf"], []⟩ := by
  constructor
  · have h := (wait_for_ingestion_job_spec [] [] [cs "file a.pdf exceeds the token limit"]).2.1
      (by decide)
    rw [h]
    have hv : addTokenMatches [] [cs "file a.pdf exceeds the token limit"] = [cs "a.pdf"] := by
      decide
    rw [hv]
  · exact (wait_for_ingestion_job_spec [] [cs "a.pdf"] []).2.2.2.2.2.2 (by decide)

/-- C1 (code bug): when the initial ingestion job reports a token-limit
failure for a file, `sync_and_handle_failed_files` returns
`Completed with Failed Files` listing the file under the
`to_further_process/` destination and submits the second ingestion job, but
its event trace contains no S3 copy and no S3 delete: the quarantine move is
never performed (kb_sync_service.py line 229 replaces the `move_s3_object`
call with a comment), even though `move_s3_object` itself would emit the
copy-then-delete pair. -/
theorem sync_and_handle_failed_files_no_move :
    sync_and_handle_failed_files true
        (Except.ok ⟨"FAILED_TOKEN_ERROR", [cs "Direct Taxes/India/notice_page_3.pdf"], []⟩)
        (Except.ok ⟨"COMPLETE", [], []⟩)
      = (⟨"Completed with Failed Files", [cs "to_further_process/notice_page_3.pdf"]⟩,
         [KbOp.startJob "initial", KbOp.startJob "retry", KbOp.lockRelease])
    ∧ ((sync_and_handle_failed_files true
        (Except.ok ⟨"FAILED_TOKEN_ERROR", [cs "Direct Taxes/India/notice_page_3.pdf"], []⟩)
        (Except.ok ⟨"COMPLETE", [], []⟩)).2.all (fun op => !isS3Write op) = true)
    ∧ move_s3_object CHUNKED_BUCKET_KB (cs "Direct Taxes/India/notice_page_3.pdf")
        UNPROCESSED_BUCKET_KB (cs "to_further_process/notice_page_3.pdf")
      = (true,
         [KbOp.s3Copy CHUNKED_BUCKET_KB (cs "Direct Taxes/India/notice_page_3.pdf")
            UNPROCESSED_BUCKET_KB (cs "to_further_process/notice_page_3.pdf"),
          KbOp.s3Delete CHUNKED_BUCKET_KB (cs "Direct Taxes/India/notice_page_3.pdf")]) := by
  refine ⟨by decide, by decide, by decide⟩

/-! ### Claim C6: OCR page-order invariant -/

/-- Looking up a page in the `ocr_results` dictionary succeeds exactly for
pages whose result arrived, and the value is that page's recognition result —
independently of the arrival order. -/
theorem lookup_ocr_results (recognize : Nat → List Char) :
    ∀ (arrival : List Nat) (j : Nat),
      (ocr_results recognize arrival).lookup j
        = if j ∈ arrival then some (recognize j) else none := by
  intro arrival
  induction arrival with
  | nil => intro j; simp [ocr_results]
  | cons a rest ih =>
    intro j
    by_cases h : j = a
    · subst h
      simp [ocr_results, List.lookup]
    · have hb : (j == a) = false := by simpa using h
      simp only [ocr_results, List.map_cons, List.lookup, hb]
      rw [show (List.map (fun i => (i, recognize i)) rest) = ocr_results recognize rest from rfl,
        ih j]
      simp [List.mem_cons, h]

/-- Membership in the flagged-page list built by the classification loop. -/
theorem mem_flaggedFrom :
    ∀ (ps : List SrcPage) (k j : Nat),
      j ∈ flaggedFrom k ps
        ↔ ∃ off p, ps[off]? = some p ∧ j = k + off ∧ needsOcr p = true := by
  intro ps
  induction ps with
  | nil => intro k j; simp [flaggedFrom]
  | cons p rest ih =>
    intro k j
    by_cases hp : needsOcr p
    · simp only [flaggedFrom, hp, if_true]
      constructor
      · intro h
        rcases List.mem_cons.mp h with rfl | h2
        · exact ⟨0, p, by simp, by simp, hp⟩
        · rcases (ih (k + 1) j).mp h2 with ⟨off, q, hq, hj, hn⟩
          exact ⟨off + 1, q, by simpa using hq, by omega, hn⟩
      · rintro ⟨off, q, hq, hj, hn⟩
        cases off with
        | zero =>
          simp only [List.getElem?_cons_zero, Option.some_inj] at hq
          subst hq
          simp only [Nat.add_zero] at hj
          subst hj
          exact List.mem_cons_self _ _
        | succ o =>
          simp only [List.getElem?_cons_succ] at hq
          refine List.mem_cons_of_mem _ ((ih (k + 1) j).mpr ⟨o, q, hq, by omega, hn⟩)
    · simp only [flaggedFrom, hp, if_false]
      constructor
      · intro h
        rcases (ih (k + 1) j).mp h with ⟨off, q, hq, hj, hn⟩
        exact ⟨off + 1, q, by simpa using hq, by omega, hn⟩
      · rintro ⟨off, q, hq, hj, hn⟩
        cases off with
        | zero =>
          simp only [List.getElem?_cons_zero, Option.some_inj] at hq
          subst hq
          exact absurd hn (by simpa using hp)
        | succ o =>
          simp only [List.getElem?_cons_succ] at hq
          exact (ih (k + 1) j).mpr ⟨o, q, hq, by omega, hn⟩

/-- The flagged-page list is empty exactly when no page needs OCR. -/
theorem flaggedFrom_eq_nil :
    ∀ (ps : List SrcPage) (k : Nat),
      flaggedFrom k ps = [] ↔ ∀ p ∈ ps, needsOcr p = false := by
  intro ps
  induction ps with
  | nil => intro k; simp [flaggedFrom]
  | cons p rest ih =>
    intro k
    by_cases hp : needsOcr p
    · simp only [flaggedFrom, hp, if_true]
      constructor
      · intro h; cases h
      · intro h
        exfalso
        have := h p (List.mem_cons_self _ _)
        rw [hp] at this
        cases this
    · have hp' : needsOcr p = false := by simpa using hp
      simp only [flaggedFrom, hp, if_false]
      constructor
      · intro h q hq
        rcases List.mem_cons.mp hq with rfl | hq2
        · exact hp'
        · exact (ih (k + 1)).mp h q hq2
      · intro h
        exact (ih (k + 1)).mpr (fun q hq => h q (List.mem_cons_of_mem _ hq))

/-- C6: whenever the per-page results cover exactly the flagged pages (in any
arrival order), `apply_ocr_to_pdf` returns the `(None, [])` sentinel exactly
when every page has extractable text and no embedded images (zero pages
flagged); otherwise it returns a document with exactly as many pages as the
input, in input order, where each flagged page is replaced — by an error
placeholder when the result carries `Error`, else by a recognized-text page —
and each unflagged page is the original copied through; the reported 1-based
replaced-page numbers are exactly the flagged pages.  The right-hand sides
do not mention `arrival`: the outcome is independent of completion order. -/
theorem apply_ocr_to_pdf_spec (pages : List SrcPage) (recognize : Nat → List Char)
    (arrival : List Nat) (fits : Nat → Nat → Bool)
    (hperm : arrival.Perm (pages_to_ocr pages)) :
    (apply_ocr_to_pdf pages recognize arrival fits = (none, []) ↔
        ∀ p ∈ pages, p.hasText = true ∧ p.hasImages = false)
    ∧ ∀ out replaced,
        apply_ocr_to_pdf pages recognize arrival fits = (some out, replaced) →
          out.length = pages.length
          ∧ (∀ j p, pages[j]? = some p →
              (needsOcr p = true →
                out[j]? = some (if containsErrorStr (recognize j)
                  then OutPage.errorPage j (recognize j)
                  else OutPage.ocrPage j (recognize j) (chooseFontSize (fits j))))
              ∧ (needsOcr p = false → out[j]? = some (OutPage.original j)))
          ∧ (∀ j, (j + 1) ∈ replaced ↔ ∃ p, pages[j]? = some p ∧ needsOcr p = true) := by
  have hflag : ∀ j, j ∈ pages_to_ocr pages
      ↔ ∃ p, pages[j]? = some p ∧ needsOcr p = true := by
    intro j
    rw [pages_to_ocr, mem_flaggedFrom]
    constructor
    · rintro ⟨off, p, hq, hj, hn⟩
      rcases Nat.zero_add off ▸ hj with rfl
      exact ⟨p, hq, hn⟩
    · rintro ⟨p, hq, hn⟩
      exact ⟨j, p, hq, by omega, hn⟩
  have hlook : ∀ j, ((ocr_results recognize arrival).lookup j).isSome = true
      ↔ ∃ p, pages[j]? = some p ∧ needsOcr p = true := by
    intro j
    rw [lookup_ocr_results recognize arrival j]
    by_cases hj : j ∈ arrival
    · simp only [hj, if_true, Option.isSome_some, true_iff]
      exact (hflag j).mp (hperm.mem_iff.mp hj)
    · simp only [hj, if_false, Option.isSome_none, Bool.false_eq_true, false_iff]
      intro hc
      exact hj (hperm.mem_iff.mpr ((hflag j).mpr hc))
  have hlookv : ∀ j p, pages[j]? = some p → needsOcr p = true →
      (ocr_results recognize arrival).lookup j = some (recognize j) := by
    intro j p hp hn
    rw [lookup_ocr_results recognize arrival j,
      if_pos (hperm.mem_iff.mpr ((hflag j).mpr ⟨p, hp, hn⟩))]
  have hlookn : ∀ j p, pages[j]? = some p → needsOcr p = false →
      (ocr_results recognize arrival).lookup j = none := by
    intro j p hp hn
    rw [lookup_ocr_results recognize arrival j, if_neg]
    intro hj
    rcases (hflag j).mp (hperm.mem_iff.mp hj) with ⟨q, hq, hnq⟩
    rw [hp] at hq
    cases hq
    rw [hn] at hnq
    cases hnq
  constructor
  · by_cases hempty : pages_to_ocr pages = []
    · simp only [apply_ocr_to_pdf, hempty, if_true, true_iff]
      intro p hp
      have := (flaggedFrom_eq_nil pages 0).mp hempty p hp
      unfold needsOcr at this
      constructor
      · cases htext : p.hasText
        · rw [htext] at this; simp at this
        · rfl
      · cases himg : p.hasImages
        · rfl
        · rw [himg] at this; simp at this
    · constructor
      · intro heq
        exfalso
        rcases List.exists_mem_of_ne_nil _ hempty with ⟨j, hj⟩
        rcases (hflag j).mp hj with ⟨p, hp, hn⟩
        have hjlen : j < pages.length := by
          by_contra hge
          rw [List.getElem?_eq_none (by omega)] at hp
          cases hp
        have hrep : (j + 1) ∈ (List.range pages.length).filterMap
            (fun j => if ((ocr_results recognize arrival).lookup j).isSome
              then some (j + 1) else none) := by
          apply List.mem_filterMap.mpr
          refine ⟨j, List.mem_range.mpr hjlen, ?_⟩
          rw [if_pos ((hlook j).mpr ⟨p, hp, hn⟩)]
        have hrne : (List.range pages.length).filterMap
            (fun j => if ((ocr_results recognize arrival).lookup j).isSome
              then some (j + 1) else none) ≠ [] := by
          intro hc; rw [hc] at hrep; cases hrep
        simp only [apply_ocr_to_pdf, hempty, if_false, hrne] at heq
        cases heq
      · intro hall
        exfalso
        rcases List.exists_mem_of_ne_nil _ hempty with ⟨j, hj⟩
        rcases (hflag j).mp hj with ⟨p, hp, hn⟩
        have hm : p ∈ pages := List.getElem?_mem hp
        rcases hall p hm with ⟨ht, hi⟩
        unfold needsOcr at hn
        rw [ht, hi] at hn
        simp at hn
  · intro out replaced heq
    by_cases hempty : pages_to_ocr pages = []
    · simp only [apply_ocr_to_pdf, hempty, if_true] at heq
      cases heq
    · by_cases hrne : (List.range pages.length).filterMap
        (fun j => if ((ocr_results recognize arrival).lookup j).isSome
          then some (j + 1) else none) = []
      · simp only [apply_ocr_to_pdf, hempty, if_false, hrne] at heq
        cases heq
      · simp only [apply_ocr_to_pdf, hempty, if_false, hrne] at heq
        have hout : out = (List.range pages.length).map
            (rebuiltPage (ocr_results recognize arrival) fits) := by
          have := congrArg Prod.fst heq
          simpa using this.symm
        have hreplaced : replaced = (List.range pages.length).filterMap
            (fun j => if ((ocr_results recognize arrival).lookup j).isSome
              then some (j + 1) else none) := by
          have := congrArg Prod.snd heq
          simpa using this.symm
        refine ⟨?_, ?_, ?_⟩
        · rw [hout]; simp
        · intro j p hp
          have hjlen : j < pages.length := by
            by_contra hge
            rw [List.getElem?_eq_none (by omega)] at hp
            cases hp
          constructor
          · intro hn
            rw [hout, List.getElem?_map, List.getElem?_range hjlen]
            simp only [Option.map_some']
            rw [rebuiltPage, hlookv j p hp hn]
          · intro hn
            rw [hout, List.getElem?_map, List.getElem?_range hjlen]
            simp only [Option.map_some']
            rw [rebuiltPage, hlookn j p hp hn]
        · intro j
          rw [hreplaced]
          constructor
          · intro hmem
            rcases List.mem_filterMap.mp hmem with ⟨a, _ha, hfa⟩
            by_cases hs : ((ocr_results recognize arrival).lookup a).isSome = true
            · rw [if_pos hs] at hfa
              have haj : a = j := by
                have := Option.some_inj.mp hfa
                omega
              subst haj
              exact (hlook a).mp hs
            · rw [if_neg (by simpa using hs)] at hfa
              cases hfa
          · rintro ⟨p, hp, hn⟩
            have hjlen : j < pages.length := by
              by_contra hge
              rw [List.getElem?_eq_none (by omega)] at hp
              cases hp
            apply List.mem_filterMap.mpr
            refine ⟨j, List.mem_range.mpr hjlen, ?_⟩
            rw [if_pos ((hlook j).mpr ⟨p, hp, hn⟩)]

/-- Witness for C6 at a concrete input: two pure-text pages without images
are never flagged, so the stage returns the `(None, [])` sentinel — derived
from the specification theorem with an empty arrival list. -/
theorem apply_ocr_to_pdf_spec_witness :
    apply_ocr_to_pdf [⟨true, false⟩, ⟨true, false⟩] (fun _ => cs "hello") []
        (fun _ _ => true) = (none, []) := by
  have h := (apply_ocr_to_pdf_spec [⟨true, false⟩, ⟨true, false⟩] (fun _ => cs "hello") []
    (fun _ _ => true) (by decide)).1
  exact h.mpr (by decide)

/-! ### Claims C7 and C10: watermark no-op and interface totality -/

/-- C7: on a document where no page text contains any watermark term and no
hyperlink URI contains one, `remove_watermarks` returns the `(None, [])`
no-op sentinel: nothing is modified, so the empty-page removal pass is
skipped entirely and no page is dropped. -/
theorem remove_watermarks_noop (pages : List WPage)
    (htext : ∀ p ∈ pages, ∀ t ∈ WATERMARK_TERMS_TO_REMOVE, containsSubstr p.text t = false)
    (hlinks : ∀ p ∈ pages, ∀ l ∈ p.links, linkHasTerm l = false) :
    remove_watermarks pages = (none, []) := by
  have hproc : ∀ p ∈ pages, (processWPage p).2.2 = false := by
    intro p hp
    have h1 := htext p hp (cs "Tax Management India .com") (by simp [WATERMARK_TERMS_TO_REMOVE])
    have h2 := htext p hp (cs "https://www.taxmanagementindia.com")
      (by simp [WATERMARK_TERMS_TO_REMOVE])
    have h3 := htext p hp (cs "TMI") (by simp [WATERMARK_TERMS_TO_REMOVE])
    have hlm : p.links.any linkHasTerm = false := by
      rw [List.any_eq_false]
      intro l hl
      simp [hlinks p hp l hl]
    simp [processWPage, removeTermsFromText, WATERMARK_TERMS_TO_REMOVE, h1, h2, h3, hlm]
  have hmod : (pages.map processWPage).any (fun r => r.2.2) = false := by
    rw [List.any_eq_false]
    intro r hr
    rcases List.mem_map.mp hr with ⟨p, hp, rfl⟩
    simp [hproc p hp]
  simp [remove_watermarks, hmod]

/-- Witness for C7: a one-page document with unrelated text and an unrelated
hyperlink is returned unchanged. -/
theorem remove_watermarks_noop_witness :
    remove_watermarks
        [⟨cs "Annual report 2023", 0, [⟨some (cs "https://example.com"), some 5⟩]⟩]
      = (none, []) :=
  remove_watermarks_noop _ (by decide) (by decide)

/-- C10: both stages are total at their interface — a missing input stream
and an exception from the fallible primitives (for instance a byte stream
that is not a valid PDF) produce the `(None, [])` sentinel rather than a
propagated exception, and that sentinel coincides with the result on
legitimate no-op inputs (a watermark-free page; a pure-text page needing no
OCR), so the caller cannot distinguish internal failure from the no-op. -/
theorem watermark_ocr_total_spec (e : String) (recognize : Nat → List Char)
    (arrival : List Nat) (fits : Nat → Nat → Bool) :
    remove_watermarks_total none = (none, [])
    ∧ remove_watermarks_total (some (Except.error e)) = (none, [])
    ∧ apply_ocr_to_pdf_total none recognize arrival fits = (none, [])
    ∧ apply_ocr_to_pdf_total (some (Except.error e)) recognize arrival fits = (none, [])
    ∧ remove_watermarks_total (some (Except.ok [⟨cs "Annual accounts", 0, []⟩])) = (none, [])
    ∧ apply_ocr_to_pdf_total (some (Except.ok [⟨true, false⟩])) recognize arrival fits
        = (none, []) := by
  refine ⟨rfl, rfl, rfl, rfl, by decide, ?_⟩
  show apply_ocr_to_pdf [⟨true, false⟩] recognize arrival fits = (none, [])
  simp [apply_ocr_to_pdf, pages_to_ocr, flaggedFrom, needsOcr]

/-! ### Claims C8 and C9: metadata derivation and chunk URIs -/

/-- `split('/')` never returns an empty list. -/
theorem splitSlash_ne_nil (s : List Char) : splitSlash s ≠ [] := by
  match s with
  | [] => simp [splitSlash]
  | c :: rest =>
    simp only [splitSlash]
    split
    · simp
    · split
      · simp
      · simp

/-- A key without a slash splits into the single segment consisting of the
whole key. -/
theorem splitSlash_no_slash (s : List Char) (h : '/' ∉ s) : splitSlash s = [s] := by
  induction s with
  | nil => rfl
  | cons c rest ih =>
    have hc : ¬(c = '/') := fun hc => h (hc ▸ List.mem_cons_self _ _)
    have hr : '/' ∉ rest := fun hr => h (List.mem_cons_of_mem _ hr)
    simp only [splitSlash, hc, if_false, ih hr]

/-- A successful lookup survives appending on the right. -/
theorem lookup_append_of_some (k : String) (v : MVal) (l1 l2 : List (String × MVal))
    (h : l1.lookup k = some v) : (l1 ++ l2).lookup k = some v := by
  induction l1 with
  | nil => simp [List.lookup] at h
  | cons kv rest ih =>
    rcases kv with ⟨k1, v1⟩
    by_cases hk : k = k1
    · subst hk
      simp only [List.lookup, beq_self_eq_true, List.cons_append] at h ⊢
      exact h
    · have hb : (k == k1) = false := by simpa using hk
      simp only [List.lookup, hb, List.cons_append] at h ⊢
      exact ih h

/-- A failed lookup defers to the appended list. -/
theorem lookup_append_of_none (k : String) (l1 l2 : List (String × MVal))
    (h : l1.lookup k = none) : (l1 ++ l2).lookup k = l2.lookup k := by
  induction l1 with
  | nil => rfl
  | cons kv rest ih =>
    rcases kv with ⟨k1, v1⟩
    by_cases hk : k = k1
    · subst hk
      simp [List.lookup] at h
    · have hb : (k == k1) = false := by simpa using hk
      simp only [List.lookup, hb, List.cons_append] at h ⊢
      exact ih h

/-- The code-side chunk URI construction coincides with the URI format
written from the specification. -/
theorem specChunkUri_eq (bucket key : List Char) (n : Nat) (suffix : List Char) :
    specChunkUri bucket key n suffix
      = cs "s3://" ++ bucket ++ '/' :: chunk_key_of key n suffix := by
  unfold specChunkUri chunk_key_of folder_path_of normalized_base_of base_filename_of
  by_cases hs : '/' ∈ key
  · simp only [hs, if_true]
    by_cases hf : List.intercalate (cs "/") (splitSlash key).dropLast = []
    · simp [hf]
    · simp [hf]
  · simp only [hs, if_false, splitSlash_no_slash key hs]
    simp [List.intercalate]

set_option maxHeartbeats 4000000 in
/-- Field characterization of `extract_metadata`: it never fails (no branch
indexes out of range), the `standard_type` entry is always the first path
segment, the `document_name` entry equals the extensionless last path
segment exactly when the matched rule's guard admits the segment count (and
is absent otherwise), the page fields are always set, and none of the
chunk-stream fields are present yet. -/
theorem extract_metadata_fields (key : List Char) (pn tp : Nat) :
    ∃ md, extract_metadata key pn tp = some md
      ∧ md.lookup "standard_type" = some (MVal.s ((splitSlash key).headI))
      ∧ md.lookup "document_name"
          = (if document_name_guard (splitSlash key) = true
             then ((splitSlash key).getLast?).map (fun p => MVal.s (splitextRoot p))
             else none)
      ∧ md.lookup "page_number" = some (MVal.n pn)
      ∧ md.lookup "total_pages" = some (MVal.n tp)
      ∧ md.lookup "processing_method" = none
      ∧ md.lookup "chunk_type" = none
      ∧ md.lookup "chunk_s3_uri" = none
      ∧ md.lookup "chunk_s3_uri_processed" = none := by
  obtain ⟨folder, rest, hp⟩ : ∃ f r, splitSlash key = f :: r := by
    cases h : splitSlash key with
    | nil => exact absurd h (splitSlash_ne_nil key)
    | cons f r => exact ⟨f, r, rfl⟩
  obtain ⟨plast, hlast⟩ : ∃ z, (splitSlash key).getLast? = some z :=
    ⟨_, List.getLast?_eq_getLast _ (splitSlash_ne_nil key)⟩
  rw [extract_metadata, hp, document_name_guard.eq_def]
  rw [hp] at hlast
  rcases rest with _ | ⟨p1, _ | ⟨p2, _ | ⟨p3, _ | ⟨p4, _ | ⟨p5, _ | ⟨p6, rest7⟩⟩⟩⟩⟩⟩
  · -- one segment
    by_cases hf1 : folder = cs "Auditing-global"
    · subst hf1
      exact ⟨_, rfl, rfl, rfl, rfl, rfl, rfl, rfl, rfl, rfl⟩
    by_cases hf2 : folder = cs "Finance Tools"
    · subst hf2
      exact ⟨_, rfl, rfl, rfl, rfl, rfl, rfl, rfl, rfl, rfl⟩
    by_cases hf3 : folder = cs "GIFT City"
    · subst hf3
      exact ⟨_, rfl, rfl, rfl, rfl, rfl, rfl, rfl, rfl, rfl⟩
    by_cases hf4 : folder = cs "test"
    · subst hf4
      exact ⟨_, rfl, rfl, rfl, rfl, rfl, rfl, rfl, rfl, rfl⟩
    by_cases hf5 : folder = cs "accounting-global"
    · subst hf5
      exact ⟨_, rfl, rfl, rfl, rfl, rfl, rfl, rfl, rfl, rfl⟩
    by_cases hf6 : folder = cs "Banking Regulations-test"
    · subst hf6
      exact ⟨_, rfl, rfl, rfl, rfl, rfl, rfl, rfl, rfl, rfl⟩
    by_cases hf7 : folder = cs "Banking-Regulations-Bahrain"
    · subst hf7
      exact ⟨_, rfl, rfl, rfl, rfl, rfl, rfl, rfl, rfl, rfl⟩
    by_cases hf8 : folder = cs "accounting-standards"
    · subst hf8
      exact ⟨_, rfl, rfl, rfl, rfl, rfl, rfl, rfl, rfl, rfl⟩
    by_cases hf9 : folder = cs "commercial-laws"
    · subst hf9
      exact ⟨_, rfl, rfl, rfl, rfl, rfl, rfl, rfl, rfl, rfl⟩
    by_cases hf10 : folder = cs "Banking Regulations"
    · subst hf10
      exact ⟨_, rfl, rfl, rfl, rfl, rfl, rfl, rfl, rfl, rfl⟩
    by_cases hf11 : folder = cs "Direct Taxes"
    · subst hf11
      exact ⟨_, rfl, rfl, rfl, rfl, rfl, rfl, rfl, rfl, rfl⟩
    by_cases hf12 : folder = cs "Capital Market Regulations"
    · subst hf12
      exact ⟨_, rfl, rfl, rfl, rfl, rfl, rfl, rfl, rfl, rfl⟩
    by_cases hf13 : folder = cs "Auditing Standards"
    · subst hf13
      exact ⟨_, rfl, rfl, rfl, rfl, rfl, rfl, rfl, rfl, rfl⟩
    by_cases hf14 : folder = cs "Insurance"
    · subst hf14
      exact ⟨_, rfl, rfl, rfl, rfl, rfl, rfl, rfl, rfl, rfl⟩
    by_cases hf15 : folder = cs "Labour Law"
    · subst hf15
      exact ⟨_, rfl, rfl, rfl, rfl, rfl, rfl, rfl, rfl, rfl⟩
    by_cases hf16 : folder = cs "Indirect Taxes"
    · subst hf16
      exact ⟨_, rfl, rfl, rfl, rfl, rfl, rfl, rfl, rfl, rfl⟩
    by_cases hf17 : folder = cs "usecase-reports-4"
    · subst hf17
      exact ⟨_, rfl, rfl, rfl, rfl, rfl, rfl, rfl, rfl, rfl⟩
    simp only [List.getElem?_cons_zero, Option.bind_eq_bind, Option.some_bind, hf1, hf2, hf3, hf4, hf5, hf6, hf7, hf8, hf9, hf10, hf11, hf12, hf13, hf14, hf15, hf16, hf17, false_or, false_and, if_false]
    exact ⟨_, rfl, rfl, rfl, rfl, rfl, rfl, rfl, rfl, rfl⟩
  · -- two segments
    by_cases hf1 : folder = cs "Auditing-global"
    · subst hf1
      exact ⟨_, rfl, rfl, rfl, rfl, rfl, rfl, rfl, rfl, rfl⟩
    by_cases hf2 : folder = cs "Finance Tools"
    · subst hf2
      exact ⟨_, rfl, rfl, rfl, rfl, rfl, rfl, rfl, rfl, rfl⟩
    by_cases hf3 : folder = cs "GIFT City"
    · subst hf3
      exact ⟨_, rfl, rfl, rfl, rfl, rfl, rfl, rfl, rfl, rfl⟩
    by_cases hf4 : folder = cs "test"
    · subst hf4
      exact ⟨_, rfl, rfl, rfl, rfl, rfl, rfl, rfl, rfl, rfl⟩
    by_cases hf5 : folder = cs "accounting-global"
    · subst hf5
      exact ⟨_, rfl, rfl, rfl, rfl, rfl, rfl, rfl, rfl, rfl⟩
    by_cases hf6 : folder = cs "Banking Regulations-test"
    · subst hf6
      by_cases hb : p1 = cs "Bahrain"
      · subst hb
        exact ⟨_, rfl, rfl, rfl, rfl, rfl, rfl, rfl, rfl, rfl⟩
      · simp only [List.getElem?_cons_zero, Option.bind_eq_bind, Option.some_bind, List.getElem?_cons_succ,
          Option.some.injEq, hb, and_false, if_false]
        exact ⟨_, rfl, rfl, rfl, rfl, rfl, rfl, rfl, rfl, rfl⟩
    by_cases hf7 : folder = cs "Banking-Regulations-Bahrain"
    · subst hf7
      by_cases hb : p1 = cs "Bahrain"
      · subst hb
        exact ⟨_, rfl, rfl, rfl, rfl, rfl, rfl, rfl, rfl, rfl⟩
      · simp only [List.getElem?_cons_zero, Option.bind_eq_bind, Option.some_bind, List.getElem?_cons_succ,
          Option.some.injEq, hb, and_false, if_false]
        exact ⟨_, rfl, rfl, rfl, rfl, rfl, rfl, rfl, rfl, rfl⟩
    by_cases hf8 : folder = cs "accounting-standards"
    · subst hf8
      exact ⟨_, rfl, rfl, rfl, rfl, rfl, rfl, rfl, rfl, rfl⟩
    by_cases hf9 : folder = cs "commercial-laws"
    · subst hf9
      exact ⟨_, rfl, rfl, rfl, rfl, rfl, rfl, rfl, rfl, rfl⟩
    by_cases hf10 : folder = cs "Banking Regulations"
    · subst hf10
      exact ⟨_, rfl, rfl, rfl, rfl, rfl, rfl, rfl, rfl, rfl⟩
    by_cases hf11 : folder = cs "Direct Taxes"
    · subst hf11
      exact ⟨_, rfl, rfl, rfl, rfl, rfl, rfl, rfl, rfl, rfl⟩
    by_cases hf12 : folder = cs "Capital Market Regulations"
    · subst hf12
      exact ⟨_, rfl, rfl, rfl, rfl, rfl, rfl, rfl, rfl, rfl⟩
    by_cases hf13 : folder = cs "Auditing Standards"
    · subst hf13
      exact ⟨_, rfl, rfl, rfl, rfl, rfl, rfl, rfl, rfl, rfl⟩
    by_cases hf14 : folder = cs "Insurance"
    · subst hf14
      exact ⟨_, rfl, rfl, rfl, rfl, rfl, rfl, rfl, rfl, rfl⟩
    by_cases hf15 : folder = cs "Labour Law"
    · subst hf15
      exact ⟨_, rfl, rfl, rfl, rfl, rfl, rfl, rfl, rfl, rfl⟩
    by_cases hf16 : folder = cs "Indirect Taxes"
    · subst hf16
      exact ⟨_, rfl, rfl, rfl, rfl, rfl, rfl, rfl, rfl, rfl⟩
    by_cases hf17 : folder = cs "usecase-reports-4"
    · subst hf17
      exact ⟨_, rfl, rfl, rfl, rfl, rfl, rfl, rfl, rfl, rfl⟩
    simp only [List.getElem?_cons_zero, Option.bind_eq_bind, Option.some_bind, hf1, hf2, hf3, hf4, hf5, hf6, hf7, hf8, hf9, hf10, hf11, hf12, hf13, hf14, hf15, hf16, hf17, false_or, false_and, if_false]
    exact ⟨_, rfl, rfl, rfl, rfl, rfl, rfl, rfl, rfl, rfl⟩
  · -- three segments
    by_cases hf1 : folder = cs "Auditing-global"
    · subst hf1
      exact ⟨_, rfl, rfl, rfl, rfl, rfl, rfl, rfl, rfl, rfl⟩
    by_cases hf2 : folder = cs "Finance Tools"
    · subst hf2
      exact ⟨_, rfl, rfl, rfl, rfl, rfl, rfl, rfl, rfl, rfl⟩
    by_cases hf3 : folder = cs "GIFT City"
    · subst hf3
      exact ⟨_, rfl, rfl, rfl, rfl, rfl, rfl, rfl, rfl, rfl⟩
    by_cases hf4 : folder = cs "test"
    · subst hf4
      exact ⟨_, rfl, rfl, rfl, rfl, rfl, rfl, rfl, rfl, rfl⟩
    by_cases hf5 : folder = cs "accounting-global"
    · subst hf5
      exact ⟨_, rfl, rfl, rfl, rfl, rfl, rfl, rfl, rfl, rfl⟩
    by_cases hf6 : folder = cs "Banking Regulations-test"
    · subst hf6
      by_cases hb : p1 = cs "Bahrain"
      · subst hb
        exact ⟨_, rfl, rfl, rfl, rfl, rfl, rfl, rfl, rfl, rfl⟩
      · simp only [List.getElem?_cons_zero, Option.bind_eq_bind, Option.some_bind, List.getElem?_cons_succ,
          Option.some.injEq, hb, and_false, if_false]
        exact ⟨_, rfl, rfl, rfl, rfl, rfl, rfl, rfl, rfl, rfl⟩
    by_cases hf7 : folder = cs "Banking-Regulations-Bahrain"
    · subst hf7
      by_cases hb : p1 = cs "Bahrain"
      · subst hb
        exact ⟨_, rfl, rfl, rfl, rfl, rfl, rfl, rfl, rfl, rfl⟩
      · simp only [List.getElem?_cons_zero, Option.bind_eq_bind, Option.some_bind, List.getElem?_cons_succ,
          Option.some.injEq, hb, and_false, if_false]
        exact ⟨_, rfl, rfl, rfl, rfl, rfl, rfl, rfl, rfl, rfl⟩
    by_cases hf8 : folder = cs "accounting-standards"
    · subst hf8
      exact ⟨_, rfl, rfl, rfl, rfl, rfl, rfl, rfl, rfl, rfl⟩
    by_cases hf9 : folder = cs "commercial-laws"
    · subst hf9
      exact ⟨_, rfl, rfl, rfl, rfl, rfl, rfl, rfl, rfl, rfl⟩
    by_cases hf10 : folder = cs "Banking Regulations"
    · subst hf10
      exact ⟨_, rfl, rfl, rfl, rfl, rfl, rfl, rfl, rfl, rfl⟩
    by_cases hf11 : folder = cs "Direct Taxes"
    · subst hf11
      exact ⟨_, rfl, rfl, rfl, rfl, rfl, rfl, rfl, rfl, rfl⟩
    by_cases hf12 : folder = cs "Capital Market Regulations"
    · subst hf12
      exact ⟨_, rfl, rfl, rfl, rfl, rfl, rfl, rfl, rfl, rfl⟩
    by_cases hf13 : folder = cs "Auditing Standards"
    · subst hf13
      exact ⟨_, rfl, rfl, rfl, rfl, rfl, rfl, rfl, rfl, rfl⟩
    by_cases hf14 : folder = cs "Insurance"
    · subst hf14
      exact ⟨_, rfl, rfl, rfl, rfl, rfl, rfl, rfl, rfl, rfl⟩
    by_cases hf15 : folder = cs "Labour Law"
    · subst hf15
      exact ⟨_, rfl, rfl, rfl, rfl, rfl, rfl, rfl, rfl, rfl⟩
    by_cases hf16 : folder = cs "Indirect Taxes"
    · subst hf16
      exact ⟨_, rfl, rfl, rfl, rfl, rfl, rfl, rfl, rfl, rfl⟩
    by_cases hf17 : folder = cs "usecase-reports-4"
    · subst hf17
      exact ⟨_, rfl, rfl, rfl, rfl, rfl, rfl, rfl, rfl, rfl⟩
    simp only [List.getElem?_cons_zero, Option.bind_eq_bind, Option.some_bind, hf1, hf2, hf3, hf4, hf5, hf6, hf7, hf8, hf9, hf10, hf11, hf12, hf13, hf14, hf15, hf16, hf17, false_or, false_and, if_false]
    exact ⟨_, rfl, rfl, rfl, rfl, rfl, rfl, rfl, rfl, rfl⟩
  · -- four segments
    by_cases hf1 : folder = cs "Auditing-global"
    · subst hf1
      exact ⟨_, rfl, rfl, rfl, rfl, rfl, rfl, rfl, rfl, rfl⟩
    by_cases hf2 : folder = cs "Finance Tools"
    · subst hf2
      exact ⟨_, rfl, rfl, rfl, rfl, rfl, rfl, rfl, rfl, rfl⟩
    by_cases hf3 : folder = cs "GIFT City"
    · subst hf3
      exact ⟨_, rfl, rfl, rfl, rfl, rfl, rfl, rfl, rfl, rfl⟩
    by_cases hf4 : folder = cs "test"
    · subst hf4
      exact ⟨_, rfl, rfl, rfl, rfl, rfl, rfl, rfl, rfl, rfl⟩
    by_cases hf5 : folder = cs "accounting-global"
    · subst hf5
      exact ⟨_, rfl, rfl, rfl, rfl, rfl, rfl, rfl, rfl, rfl⟩
    by_cases hf6 : folder = cs "Banking Regulations-test"
    · subst hf6
      by_cases hb : p1 = cs "Bahrain"
      · subst hb
        exact ⟨_, rfl, rfl, rfl, rfl, rfl, rfl, rfl, rfl, rfl⟩
      · simp only [List.getElem?_cons_zero, Option.bind_eq_bind, Option.some_bind, List.getElem?_cons_succ,
          Option.some.injEq, hb, and_false, if_false]
        exact ⟨_, rfl, rfl, rfl, rfl, rfl, rfl, rfl, rfl, rfl⟩
    by_cases hf7 : folder = cs "Banking-Regulations-Bahrain"
    · subst hf7
      by_cases hb : p1 = cs "Bahrain"
      · subst hb
        exact ⟨_, rfl, rfl, rfl, rfl, rfl, rfl, rfl, rfl, rfl⟩
      · simp only [List.getElem?_cons_zero, Option.bind_eq_bind, Option.some_bind, List.getElem?_cons_succ,
          Option.some.injEq, hb, and_false, if_false]
        exact ⟨_, rfl, rfl, rfl, rfl, rfl, rfl, rfl, rfl, rfl⟩
    by_cases hf8 : folder = cs "accounting-standards"
    · subst hf8
      exact ⟨_, rfl, rfl, rfl, rfl, rfl, rfl, rfl, rfl, rfl⟩
    by_cases hf9 : folder = cs "commercial-laws"
    · subst hf9
      exact ⟨_, rfl, rfl, rfl, rfl, rfl, rfl, rfl, rfl, rfl⟩
    by_cases hf10 : folder = cs "Banking Regulations"
    · subst hf10
      exact ⟨_, rfl, rfl, rfl, rfl, rfl, rfl, rfl, rfl, rfl⟩
    by_cases hf11 : folder = cs "Direct Taxes"
    · subst hf11
      exact ⟨_, rfl, rfl, rfl, rfl, rfl, rfl, rfl, rfl, rfl⟩
    by_cases hf12 : folder = cs "Capital Market Regulations"
    · subst hf12
      exact ⟨_, rfl, rfl, rfl, rfl, rfl, rfl, rfl, rfl, rfl⟩
    by_cases hf13 : folder = cs "Auditing Standards"
    · subst hf13
      exact ⟨_, rfl, rfl, rfl, rfl, rfl, rfl, rfl, rfl, rfl⟩
    by_cases hf14 : folder = cs "Insurance"
    · subst hf14
      exact ⟨_, rfl, rfl, rfl, rfl, rfl, rfl, rfl, rfl, rfl⟩
    by_cases hf15 : folder = cs "Labour Law"
    · subst hf15
      exact ⟨_, rfl, rfl, rfl, rfl, rfl, rfl, rfl, rfl, rfl⟩
    by_cases hf16 : folder = cs "Indirect Taxes"
    · subst hf16
      exact ⟨_, rfl, rfl, rfl, rfl, rfl, rfl, rfl, rfl, rfl⟩
    by_cases hf17 : folder = cs "usecase-reports-4"
    · subst hf17
      exact ⟨_, rfl, rfl, rfl, rfl, rfl, rfl, rfl, rfl, rfl⟩
    simp only [List.getElem?_cons_zero, Option.bind_eq_bind, Option.some_bind, hf1, hf2, hf3, hf4, hf5, hf6, hf7, hf8, hf9, hf10, hf11, hf12, hf13, hf14, hf15, hf16, hf17, false_or, false_and, if_false]
    exact ⟨_, rfl, rfl, rfl, rfl, rfl, rfl, rfl, rfl, rfl⟩
  · -- five segments
    by_cases hf1 : folder = cs "Auditing-global"
    · subst hf1
      exact ⟨_, rfl, rfl, rfl, rfl, rfl, rfl, rfl, rfl, rfl⟩
    by_cases hf2 : folder = cs "Finance Tools"
    · subst hf2
      exact ⟨_, rfl, rfl, rfl, rfl, rfl, rfl, rfl, rfl, rfl⟩
    by_cases hf3 : folder = cs "GIFT City"
    · subst hf3
      exact ⟨_, rfl, rfl, rfl, rfl, rfl, rfl, rfl, rfl, rfl⟩
    by_cases hf4 : folder = cs "test"
    · subst hf4
      exact ⟨_, rfl, rfl, rfl, rfl, rfl, rfl, rfl, rfl, rfl⟩
    by_cases hf5 : folder = cs "accounting-global"
    · subst hf5
      exact ⟨_, rfl, rfl, rfl, rfl, rfl, rfl, rfl, rfl, rfl⟩
    by_cases hf6 : folder = cs "Banking Regulations-test"
    · subst hf6
      by_cases hb : p1 = cs "Bahrain"
      · subst hb
        exact ⟨_, rfl, rfl, rfl, rfl, rfl, rfl, rfl, rfl, rfl⟩
      · simp only [List.getElem?_cons_zero, Option.bind_eq_bind, Option.some_bind, List.getElem?_cons_succ,
          Option.some.injEq, hb, and_false, if_false]
        exact ⟨_, rfl, rfl, rfl, rfl, rfl, rfl, rfl, rfl, rfl⟩
    by_cases hf7 : folder = cs "Banking-Regulations-Bahrain"
    · subst hf7
      by_cases hb : p1 = cs "Bahrain"
      · subst hb
        exact ⟨_, rfl, rfl, rfl, rfl, rfl, rfl, rfl, rfl, rfl⟩
      · simp only [List.getElem?_cons_zero, Option.bind_eq_bind, Option.some_bind, List.getElem?_cons_succ,
          Option.some.injEq, hb, and_false, if_false]
        exact ⟨_, rfl, rfl, rfl, rfl, rfl, rfl, rfl, rfl, rfl⟩
    by_cases hf8 : folder = cs "accounting-standards"
    · subst hf8
      exact ⟨_, rfl, rfl, rfl, rfl, rfl, rfl, rfl, rfl, rfl⟩
    by_cases hf9 : folder = cs "commercial-laws"
    · subst hf9
      exact ⟨_, rfl, rfl, rfl, rfl, rfl, rfl, rfl, rfl, rfl⟩
    by_cases hf10 : folder = cs "Banking Regulations"
    · subst hf10
      exact ⟨_, rfl, rfl, rfl, rfl, rfl, rfl, rfl, rfl, rfl⟩
    by_cases hf11 : folder = cs "Direct Taxes"
    · subst hf11
      exact ⟨_, rfl, rfl, rfl, rfl, rfl, rfl, rfl, rfl, rfl⟩
    by_cases hf12 : folder = cs "Capital Market Regulations"
    · subst hf12
      exact ⟨_, rfl, rfl, rfl, rfl, rfl, rfl, rfl, rfl, rfl⟩
    by_cases hf13 : folder = cs "Auditing Standards"
    · subst hf13
      exact ⟨_, rfl, rfl, rfl, rfl, rfl, rfl, rfl, rfl, rfl⟩
    by_cases hf14 : folder = cs "Insurance"
    · subst hf14
      exact ⟨_, rfl, rfl, rfl, rfl, rfl, rfl, rfl, rfl, rfl⟩
    by_cases hf15 : folder = cs "Labour Law"
    · subst hf15
      exact ⟨_, rfl, rfl, rfl, rfl, rfl, rfl, rfl, rfl, rfl⟩
    by_cases hf16 : folder = cs "Indirect Taxes"
    · subst hf16
      exact ⟨_, rfl, rfl, rfl, rfl, rfl, rfl, rfl, rfl, rfl⟩
    by_cases hf17 : folder = cs "usecase-reports-4"
    · subst hf17
      exact ⟨_, rfl, rfl, rfl, rfl, rfl, rfl, rfl, rfl, rfl⟩
    simp only [List.getElem?_cons_zero, Option.bind_eq_bind, Option.some_bind, hf1, hf2, hf3, hf4, hf5, hf6, hf7, hf8, hf9, hf10, hf11, hf12, hf13, hf14, hf15, hf16, hf17, false_or, false_and, if_false]
    exact ⟨_, rfl, rfl, rfl, rfl, rfl, rfl, rfl, rfl, rfl⟩
  · -- six segments
    by_cases hf1 : folder = cs "Auditing-global"
    · subst hf1
      exact ⟨_, rfl, rfl, rfl, rfl, rfl, rfl, rfl, rfl, rfl⟩
    by_cases hf2 : folder = cs "Finance Tools"
    · subst hf2
      exact ⟨_, rfl, rfl, rfl, rfl, rfl, rfl, rfl, rfl, rfl⟩
    by_cases hf3 : folder = cs "GIFT City"
    · subst hf3
      exact ⟨_, rfl, rfl, rfl, rfl, rfl, rfl, rfl, rfl, rfl⟩
    by_cases hf4 : folder = cs "test"
    · subst hf4
      exact ⟨_, rfl, rfl, rfl, rfl, rfl, rfl, rfl, rfl, rfl⟩
    by_cases hf5 : folder = cs "accounting-global"
    · subst hf5
      exact ⟨_, rfl, rfl, rfl, rfl, rfl, rfl, rfl, rfl, rfl⟩
    by_cases hf6 : folder = cs "Banking Regulations-test"
    · subst hf6
      by_cases hb : p1 = cs "Bahrain"
      · subst hb
        exact ⟨_, rfl, rfl, rfl, rfl, rfl, rfl, rfl, rfl, rfl⟩
      · simp only [List.getElem?_cons_zero, Option.bind_eq_bind, Option.some_bind, List.getElem?_cons_succ,
          Option.some.injEq, hb, and_false, if_false]
        exact ⟨_, rfl, rfl, rfl, rfl, rfl, rfl, rfl, rfl, rfl⟩
    by_cases hf7 : folder = cs "Banking-Regulations-Bahrain"
    · subst hf7
      by_cases hb : p1 = cs "Bahrain"
      · subst hb
        exact ⟨_, rfl, rfl, rfl, rfl, rfl, rfl, rfl, rfl, rfl⟩
      · simp only [List.getElem?_cons_zero, Option.bind_eq_bind, Option.some_bind, List.getElem?_cons_succ,
          Option.some.injEq, hb, and_false, if_false]
        exact ⟨_, rfl, rfl, rfl, rfl, rfl, rfl, rfl, rfl, rfl⟩
    by_cases hf8 : folder = cs "accounting-standards"
    · subst hf8
      exact ⟨_, rfl, rfl, rfl, rfl, rfl, rfl, rfl, rfl, rfl⟩
    by_cases hf9 : folder = cs "commercial-laws"
    · subst hf9
      exact ⟨_, rfl, rfl, rfl, rfl, rfl, rfl, rfl, rfl, rfl⟩
    by_cases hf10 : folder = cs "Banking Regulations"
    · subst hf10
      exact ⟨_, rfl, rfl, rfl, rfl, rfl, rfl, rfl, rfl, rfl⟩
    by_cases hf11 : folder = cs "Direct Taxes"
    · subst hf11
      exact ⟨_, rfl, rfl, rfl, rfl, rfl, rfl, rfl, rfl, rfl⟩
    by_cases hf12 : folder = cs "Capital Market Regulations"
    · subst hf12
      exact ⟨_, rfl, rfl, rfl, rfl, rfl, rfl, rfl, rfl, rfl⟩
    by_cases hf13 : folder = cs "Auditing Standards"
    · subst hf13
      exact ⟨_, rfl, rfl, rfl, rfl, rfl, rfl, rfl, rfl, rfl⟩
    by_cases hf14 : folder = cs "Insurance"
    · subst hf14
      exact ⟨_, rfl, rfl, rfl, rfl, rfl, rfl, rfl, rfl, rfl⟩
    by_cases hf15 : folder = cs "Labour Law"
    · subst hf15
      exact ⟨_, rfl, rfl, rfl, rfl, rfl, rfl, rfl, rfl, rfl⟩
    by_cases hf16 : folder = cs "Indirect Taxes"
    · subst hf16
      exact ⟨_, rfl, rfl, rfl, rfl, rfl, rfl, rfl, rfl, rfl⟩
    by_cases hf17 : folder = cs "usecase-reports-4"
    · subst hf17
      exact ⟨_, rfl, rfl, rfl, rfl, rfl, rfl, rfl, rfl, rfl⟩
    simp only [List.getElem?_cons_zero, Option.bind_eq_bind, Option.some_bind, hf1, hf2, hf3, hf4, hf5, hf6, hf7, hf8, hf9, hf10, hf11, hf12, hf13, hf14, hf15, hf16, hf17, false_or, false_and, if_false]
    exact ⟨_, rfl, rfl, rfl, rfl, rfl, rfl, rfl, rfl, rfl⟩
  · -- seven or more segments
    by_cases hf1 : folder = cs "Auditing-global"
    · subst hf1
      simp only [List.length_cons]
      simp only [(show (1:Nat) < List.length rest7 + 1 + 1 + 1 + 1 + 1 + 1 + 1 from by omega), (show (2:Nat) < List.length rest7 + 1 + 1 + 1 + 1 + 1 + 1 + 1 from by omega), (show (3:Nat) < List.length rest7 + 1 + 1 + 1 + 1 + 1 + 1 + 1 from by omega), (show (4:Nat) < List.length rest7 + 1 + 1 + 1 + 1 + 1 + 1 + 1 from by omega), (show (5:Nat) < List.length rest7 + 1 + 1 + 1 + 1 + 1 + 1 + 1 from by omega), (show (6:Nat) < List.length rest7 + 1 + 1 + 1 + 1 + 1 + 1 + 1 from by omega), if_true, hlast]
      exact ⟨_, rfl, rfl, rfl, rfl, rfl, rfl, rfl, rfl, rfl⟩
    by_cases hf2 : folder = cs "Finance Tools"
    · subst hf2
      simp only [List.length_cons]
      simp only [(show (1:Nat) < List.length rest7 + 1 + 1 + 1 + 1 + 1 + 1 + 1 from by omega), (show (2:Nat) < List.length rest7 + 1 + 1 + 1 + 1 + 1 + 1 + 1 from by omega), (show (3:Nat) < List.length rest7 + 1 + 1 + 1 + 1 + 1 + 1 + 1 from by omega), (show (4:Nat) < List.length rest7 + 1 + 1 + 1 + 1 + 1 + 1 + 1 from by omega), (show (5:Nat) < List.length rest7 + 1 + 1 + 1 + 1 + 1 + 1 + 1 from by omega), (show (6:Nat) < List.length rest7 + 1 + 1 + 1 + 1 + 1 + 1 + 1 from by omega), if_true, hlast]
      exact ⟨_, rfl, rfl, rfl, rfl, rfl, rfl, rfl, rfl, rfl⟩
    by_cases hf3 : folder = cs "GIFT City"
    · subst hf3
      simp only [List.length_cons]
      simp only [(show (1:Nat) < List.length rest7 + 1 + 1 + 1 + 1 + 1 + 1 + 1 from by omega), (show (2:Nat) < List.length rest7 + 1 + 1 + 1 + 1 + 1 + 1 + 1 from by omega), (show (3:Nat) < List.length rest7 + 1 + 1 + 1 + 1 + 1 + 1 + 1 from by omega), (show (4:Nat) < List.length rest7 + 1 + 1 + 1 + 1 + 1 + 1 + 1 from by omega), (show (5:Nat) < List.length rest7 + 1 + 1 + 1 + 1 + 1 + 1 + 1 from by omega), (show (6:Nat) < List.length rest7 + 1 + 1 + 1 + 1 + 1 + 1 + 1 from by omega), if_true, hlast]
      exact ⟨_, rfl, rfl, rfl, rfl, rfl, rfl, rfl, rfl, rfl⟩
    by_cases hf4 : folder = cs "test"
    · subst hf4
      simp only [List.length_cons]
      simp only [(show (1:Nat) < List.length rest7 + 1 + 1 + 1 + 1 + 1 + 1 + 1 from by omega), (show (2:Nat) < List.length rest7 + 1 + 1 + 1 + 1 + 1 + 1 + 1 from by omega), (show (3:Nat) < List.length rest7 + 1 + 1 + 1 + 1 + 1 + 1 + 1 from by omega), (show (4:Nat) < List.length rest7 + 1 + 1 + 1 + 1 + 1 + 1 + 1 from by omega), (show (5:Nat) < List.length rest7 + 1 + 1 + 1 + 1 + 1 + 1 + 1 from by omega), (show (6:Nat) < List.length rest7 + 1 + 1 + 1 + 1 + 1 + 1 + 1 from by omega), if_true, hlast]
      exact ⟨_, rfl, rfl, rfl, rfl, rfl, rfl, rfl, rfl, rfl⟩
    by_cases hf5 : folder = cs "accounting-global"
    · subst hf5
      simp only [List.length_cons]
      simp only [(show (1:Nat) < List.length rest7 + 1 + 1 + 1 + 1 + 1 + 1 + 1 from by omega), (show (2:Nat) < List.length rest7 + 1 + 1 + 1 + 1 + 1 + 1 + 1 from by omega), (show (3:Nat) < List.length rest7 + 1 + 1 + 1 + 1 + 1 + 1 + 1 from by omega), (show (4:Nat) < List.length rest7 + 1 + 1 + 1 + 1 + 1 + 1 + 1 from by omega), (show (5:Nat) < List.length rest7 + 1 + 1 + 1 + 1 + 1 + 1 + 1 from by omega), (show (6:Nat) < List.length rest7 + 1 + 1 + 1 + 1 + 1 + 1 + 1 from by omega), if_true, hlast]
      exact ⟨_, rfl, rfl, rfl, rfl, rfl, rfl, rfl, rfl, rfl⟩
    by_cases hf6 : folder = cs "Banking Regulations-test"
    · subst hf6
      by_cases hb : p1 = cs "Bahrain"
      · subst hb
        simp only [List.length_cons]
        simp only [(show (1:Nat) < List.length rest7 + 1 + 1 + 1 + 1 + 1 + 1 + 1 from by omega), (show (2:Nat) < List.length rest7 + 1 + 1 + 1 + 1 + 1 + 1 + 1 from by omega), (show (3:Nat) < List.length rest7 + 1 + 1 + 1 + 1 + 1 + 1 + 1 from by omega), (show (4:Nat) < List.length rest7 + 1 + 1 + 1 + 1 + 1 + 1 + 1 from by omega), (show (5:Nat) < List.length rest7 + 1 + 1 + 1 + 1 + 1 + 1 + 1 from by omega), (show (6:Nat) < List.length rest7 + 1 + 1 + 1 + 1 + 1 + 1 + 1 from by omega), if_true, hlast]
        exact ⟨_, rfl, rfl, rfl, rfl, rfl, rfl, rfl, rfl, rfl⟩
      · simp only [List.getElem?_cons_zero, Option.bind_eq_bind, Option.some_bind, List.getElem?_cons_succ,
          Option.some.injEq, hb, and_false, if_false, List.length_cons]
        simp only [(show (1:Nat) < List.length rest7 + 1 + 1 + 1 + 1 + 1 + 1 + 1 from by omega), (show (2:Nat) < List.length rest7 + 1 + 1 + 1 + 1 + 1 + 1 + 1 from by omega), (show (3:Nat) < List.length rest7 + 1 + 1 + 1 + 1 + 1 + 1 + 1 from by omega), (show (4:Nat) < List.length rest7 + 1 + 1 + 1 + 1 + 1 + 1 + 1 from by omega), (show (5:Nat) < List.length rest7 + 1 + 1 + 1 + 1 + 1 + 1 + 1 from by omega), (show (6:Nat) < List.length rest7 + 1 + 1 + 1 + 1 + 1 + 1 + 1 from by omega), if_true, hlast]
        exact ⟨_, rfl, rfl, rfl, rfl, rfl, rfl, rfl, rfl, rfl⟩
    by_cases hf7 : folder = cs "Banking-Regulations-Bahrain"
    · subst hf7
      by_cases hb : p1 = cs "Bahrain"
      · subst hb
        simp only [List.length_cons]
        simp only [(show (1:Nat) < List.length rest7 + 1 + 1 + 1 + 1 + 1 + 1 + 1 from by omega), (show (2:Nat) < List.length rest7 + 1 + 1 + 1 + 1 + 1 + 1 + 1 from by omega), (show (3:Nat) < List.length rest7 + 1 + 1 + 1 + 1 + 1 + 1 + 1 from by omega), (show (4:Nat) < List.length rest7 + 1 + 1 + 1 + 1 + 1 + 1 + 1 from by omega), (show (5:Nat) < List.length rest7 + 1 + 1 + 1 + 1 + 1 + 1 + 1 from by omega), (show (6:Nat) < List.length rest7 + 1 + 1 + 1 + 1 + 1 + 1 + 1 from by omega), if_true, hlast]
        exact ⟨_, rfl, rfl, rfl, rfl, rfl, rfl, rfl, rfl, rfl⟩
      · simp only [List.getElem?_cons_zero, Option.bind_eq_bind, Option.some_bind, List.getElem?_cons_succ,
          Option.some.injEq, hb, and_false, if_false, List.length_cons]
        simp only [(show (1:Nat) < List.length rest7 + 1 + 1 + 1 + 1 + 1 + 1 + 1 from by omega), (show (2:Nat) < List.length rest7 + 1 + 1 + 1 + 1 + 1 + 1 + 1 from by omega), (show (3:Nat) < List.length rest7 + 1 + 1 + 1 + 1 + 1 + 1 + 1 from by omega), (show (4:Nat) < List.length rest7 + 1 + 1 + 1 + 1 + 1 + 1 + 1 from by omega), (show (5:Nat) < List.length rest7 + 1 + 1 + 1 + 1 + 1 + 1 + 1 from by omega), (show (6:Nat) < List.length rest7 + 1 + 1 + 1 + 1 + 1 + 1 + 1 from by omega), if_true, hlast]
        exact ⟨_, rfl, rfl, rfl, rfl, rfl, rfl, rfl, rfl, rfl⟩
    by_cases hf8 : folder = cs "accounting-standards"
    · subst hf8
      simp only [List.length_cons]
      simp only [(show (1:Nat) < List.length rest7 + 1 + 1 + 1 + 1 + 1 + 1 + 1 from by omega), (show (2:Nat) < List.length rest7 + 1 + 1 + 1 + 1 + 1 + 1 + 1 from by omega), (show (3:Nat) < List.length rest7 + 1 + 1 + 1 + 1 + 1 + 1 + 1 from by omega), (show (4:Nat) < List.length rest7 + 1 + 1 + 1 + 1 + 1 + 1 + 1 from by omega), (show (5:Nat) < List.length rest7 + 1 + 1 + 1 + 1 + 1 + 1 + 1 from by omega), (show (6:Nat) < List.length rest7 + 1 + 1 + 1 + 1 + 1 + 1 + 1 from by omega), if_true, hlast]
      exact ⟨_, rfl, rfl, rfl, rfl, rfl, rfl, rfl, rfl, rfl⟩
    by_cases hf9 : folder = cs "commercial-laws"
    · subst hf9
      simp only [List.length_cons]
      simp only [(show (1:Nat) < List.length rest7 + 1 + 1 + 1 + 1 + 1 + 1 + 1 from by omega), (show (2:Nat) < List.length rest7 + 1 + 1 + 1 + 1 + 1 + 1 + 1 from by omega), (show (3:Nat) < List.length rest7 + 1 + 1 + 1 + 1 + 1 + 1 + 1 from by omega), (show (4:Nat) < List.length rest7 + 1 + 1 + 1 + 1 + 1 + 1 + 1 from by omega), (show (5:Nat) < List.length rest7 + 1 + 1 + 1 + 1 + 1 + 1 + 1 from by omega), (show (6:Nat) < List.length rest7 + 1 + 1 + 1 + 1 + 1 + 1 + 1 from by omega), if_true, hlast]
      exact ⟨_, rfl, rfl, rfl, rfl, rfl, rfl, rfl, rfl, rfl⟩
    by_cases hf10 : folder = cs "Banking Regulations"
    · subst hf10
      simp only [List.length_cons]
      simp only [(show (1:Nat) < List.length rest7 + 1 + 1 + 1 + 1 + 1 + 1 + 1 from by omega), (show (2:Nat) < List.length rest7 + 1 + 1 + 1 + 1 + 1 + 1 + 1 from by omega), (show (3:Nat) < List.length rest7 + 1 + 1 + 1 + 1 + 1 + 1 + 1 from by omega), (show (4:Nat) < List.length rest7 + 1 + 1 + 1 + 1 + 1 + 1 + 1 from by omega), (show (5:Nat) < List.length rest7 + 1 + 1 + 1 + 1 + 1 + 1 + 1 from by omega), (show (6:Nat) < List.length rest7 + 1 + 1 + 1 + 1 + 1 + 1 + 1 from by omega), if_true, hlast]
      exact ⟨_, rfl, rfl, rfl, rfl, rfl, rfl, rfl, rfl, rfl⟩
    by_cases hf11 : folder = cs "Direct Taxes"
    · subst hf11
      simp only [List.length_cons]
      simp only [(show (1:Nat) < List.length rest7 + 1 + 1 + 1 + 1 + 1 + 1 + 1 from by omega), (show (2:Nat) < List.length rest7 + 1 + 1 + 1 + 1 + 1 + 1 + 1 from by omega), (show (3:Nat) < List.length rest7 + 1 + 1 + 1 + 1 + 1 + 1 + 1 from by omega), (show (4:Nat) < List.length rest7 + 1 + 1 + 1 + 1 + 1 + 1 + 1 from by omega), (show (5:Nat) < List.length rest7 + 1 + 1 + 1 + 1 + 1 + 1 + 1 from by omega), (show (6:Nat) < List.length rest7 + 1 + 1 + 1 + 1 + 1 + 1 + 1 from by omega), if_true, hlast]
      exact ⟨_, rfl, rfl, rfl, rfl, rfl, rfl, rfl, rfl, rfl⟩
    by_cases hf12 : folder = cs "Capital Market Regulations"
    · subst hf12
      simp only [List.length_cons]
      simp only [(show (1:Nat) < List.length rest7 + 1 + 1 + 1 + 1 + 1 + 1 + 1 from by omega), (show (2:Nat) < List.length rest7 + 1 + 1 + 1 + 1 + 1 + 1 + 1 from by omega), (show (3:Nat) < List.length rest7 + 1 + 1 + 1 + 1 + 1 + 1 + 1 from by omega), (show (4:Nat) < List.length rest7 + 1 + 1 + 1 + 1 + 1 + 1 + 1 from by omega), (show (5:Nat) < List.length rest7 + 1 + 1 + 1 + 1 + 1 + 1 + 1 from by omega), (show (6:Nat) < List.length rest7 + 1 + 1 + 1 + 1 + 1 + 1 + 1 from by omega), if_true, hlast]
      exact ⟨_, rfl, rfl, rfl, rfl, rfl, rfl, rfl, rfl, rfl⟩
    by_cases hf13 : folder = cs "Auditing Standards"
    · subst hf13
      simp only [List.length_cons]
      simp only [(show (1:Nat) < List.length rest7 + 1 + 1 + 1 + 1 + 1 + 1 + 1 from by omega), (show (2:Nat) < List.length rest7 + 1 + 1 + 1 + 1 + 1 + 1 + 1 from by omega), (show (3:Nat) < List.length rest7 + 1 + 1 + 1 + 1 + 1 + 1 + 1 from by omega), (show (4:Nat) < List.length rest7 + 1 + 1 + 1 + 1 + 1 + 1 + 1 from by omega), (show (5:Nat) < List.length rest7 + 1 + 1 + 1 + 1 + 1 + 1 + 1 from by omega), (show (6:Nat) < List.length rest7 + 1 + 1 + 1 + 1 + 1 + 1 + 1 from by omega), if_true, hlast]
      exact ⟨_, rfl, rfl, rfl, rfl, rfl, rfl, rfl, rfl, rfl⟩
    by_cases hf14 : folder = cs "Insurance"
    · subst hf14
      simp only [List.length_cons]
      simp only [(show (1:Nat) < List.length rest7 + 1 + 1 + 1 + 1 + 1 + 1 + 1 from by omega), (show (2:Nat) < List.length rest7 + 1 + 1 + 1 + 1 + 1 + 1 + 1 from by omega), (show (3:Nat) < List.length rest7 + 1 + 1 + 1 + 1 + 1 + 1 + 1 from by omega), (show (4:Nat) < List.length rest7 + 1 + 1 + 1 + 1 + 1 + 1 + 1 from by omega), (show (5:Nat) < List.length rest7 + 1 + 1 + 1 + 1 + 1 + 1 + 1 from by omega), (show (6:Nat) < List.length rest7 + 1 + 1 + 1 + 1 + 1 + 1 + 1 from by omega), if_true, hlast]
      exact ⟨_, rfl, rfl, rfl, rfl, rfl, rfl, rfl, rfl, rfl⟩
    by_cases hf15 : folder = cs "Labour Law"
    · subst hf15
      simp only [List.length_cons]
      simp only [(show (1:Nat) < List.length rest7 + 1 + 1 + 1 + 1 + 1 + 1 + 1 from by omega), (show (2:Nat) < List.length rest7 + 1 + 1 + 1 + 1 + 1 + 1 + 1 from by omega), (show (3:Nat) < List.length rest7 + 1 + 1 + 1 + 1 + 1 + 1 + 1 from by omega), (show (4:Nat) < List.length rest7 + 1 + 1 + 1 + 1 + 1 + 1 + 1 from by omega), (show (5:Nat) < List.length rest7 + 1 + 1 + 1 + 1 + 1 + 1 + 1 from by omega), (show (6:Nat) < List.length rest7 + 1 + 1 + 1 + 1 + 1 + 1 + 1 from by omega), if_true, hlast]
      exact ⟨_, rfl, rfl, rfl, rfl, rfl, rfl, rfl, rfl, rfl⟩
    by_cases hf16 : folder = cs "Indirect Taxes"
    · subst hf16
      simp only [List.length_cons]
      simp only [(show (1:Nat) < List.length rest7 + 1 + 1 + 1 + 1 + 1 + 1 + 1 from by omega), (show (2:Nat) < List.length rest7 + 1 + 1 + 1 + 1 + 1 + 1 + 1 from by omega), (show (3:Nat) < List.length rest7 + 1 + 1 + 1 + 1 + 1 + 1 + 1 from by omega), (show (4:Nat) < List.length rest7 + 1 + 1 + 1 + 1 + 1 + 1 + 1 from by omega), (show (5:Nat) < List.length rest7 + 1 + 1 + 1 + 1 + 1 + 1 + 1 from by omega), (show (6:Nat) < List.length rest7 + 1 + 1 + 1 + 1 + 1 + 1 + 1 from by omega), if_true, hlast]
      exact ⟨_, rfl, rfl, rfl, rfl, rfl, rfl, rfl, rfl, rfl⟩
    by_cases hf17 : folder = cs "usecase-reports-4"
    · subst hf17
      simp only [List.length_cons]
      simp only [(show (1:Nat) < List.length rest7 + 1 + 1 + 1 + 1 + 1 + 1 + 1 from by omega), (show (2:Nat) < List.length rest7 + 1 + 1 + 1 + 1 + 1 + 1 + 1 from by omega), (show (3:Nat) < List.length rest7 + 1 + 1 + 1 + 1 + 1 + 1 + 1 from by omega), (show (4:Nat) < List.length rest7 + 1 + 1 + 1 + 1 + 1 + 1 + 1 from by omega), (show (5:Nat) < List.length rest7 + 1 + 1 + 1 + 1 + 1 + 1 + 1 from by omega), (show (6:Nat) < List.length rest7 + 1 + 1 + 1 + 1 + 1 + 1 + 1 from by omega), if_true, hlast]
      exact ⟨_, rfl, rfl, rfl, rfl, rfl, rfl, rfl, rfl, rfl⟩
    simp only [List.getElem?_cons_zero, Option.bind_eq_bind, Option.some_bind, hf1, hf2, hf3, hf4, hf5, hf6, hf7, hf8, hf9, hf10, hf11, hf12, hf13, hf14, hf15, hf16, hf17, false_or, false_and, if_false, List.length_cons]
    simp only [(show (1:Nat) < List.length rest7 + 1 + 1 + 1 + 1 + 1 + 1 + 1 from by omega), (show (2:Nat) < List.length rest7 + 1 + 1 + 1 + 1 + 1 + 1 + 1 from by omega), (show (3:Nat) < List.length rest7 + 1 + 1 + 1 + 1 + 1 + 1 + 1 from by omega), (show (4:Nat) < List.length rest7 + 1 + 1 + 1 + 1 + 1 + 1 + 1 from by omega), (show (5:Nat) < List.length rest7 + 1 + 1 + 1 + 1 + 1 + 1 + 1 from by omega), (show (6:Nat) < List.length rest7 + 1 + 1 + 1 + 1 + 1 + 1 + 1 from by omega), if_true, hlast]
    exact ⟨_, rfl, rfl, rfl, rfl, rfl, rfl, rfl, rfl, rfl⟩

/-- C8 (amended): `extract_metadata` returns without an exception on every
key — every rule path checks the segment count before indexing, simply
omitting fields whose segments are missing — and always sets `standard_type`
to the first path segment; the `document_name` field — equal to the filename
without its extension whenever present — is set exactly when the matched
rule's guard admits the key's segment count, so it is absent for a
single-segment key of a recognized taxonomy root and for a `<root>/Bahrain`
key of the two Bahrain rules. -/
theorem extract_metadata_spec (key : List Char) (pn tp : Nat) :
    (extract_metadata key pn tp).isSome = true
    ∧ ∀ md, extract_metadata key pn tp = some md →
        md.lookup "standard_type" = some (MVal.s ((splitSlash key).headI))
        ∧ md.lookup "document_name"
            = (if document_name_guard (splitSlash key) = true
               then ((splitSlash key).getLast?).map (fun p => MVal.s (splitextRoot p))
               else none)
        ∧ md.lookup "page_number" = some (MVal.n pn)
        ∧ md.lookup "total_pages" = some (MVal.n tp) := by
  obtain ⟨md, h1, h2, h3, h4, h5, _⟩ := extract_metadata_fields key pn tp
  constructor
  · rw [h1]; rfl
  · intro md2 hmd2
    rw [h1] at hmd2
    cases hmd2
    exact ⟨h2, h3, h4, h5⟩

/-- Witness for C8 at a concrete key: the spec example key gets
`standard_type` set to its first segment and `document_name` set to the
filename without its extension. -/
theorem extract_metadata_spec_witness :
    (extract_metadata (cs "Direct Taxes/India/notice.pdf") 1 1).isSome = true
    ∧ (extract_metadata (cs "Direct Taxes/India/notice.pdf") 1 1).map
        (fun md => md.lookup "standard_type")
      = some (some (MVal.s (cs "Direct Taxes")))
    ∧ (extract_metadata (cs "Direct Taxes/India/notice.pdf") 1 1).map
        (fun md => md.lookup "document_name")
      = some (some (MVal.s (cs "notice"))) := by
  have h := extract_metadata_spec (cs "Direct Taxes/India/notice.pdf") 1 1
  refine ⟨h.1, ?_, ?_⟩
  · cases hm : extract_metadata (cs "Direct Taxes/India/notice.pdf") 1 1 with
    | none => rw [hm] at h; exact absurd h.1 (by simp)
    | some md =>
      have h2 := (h.2 md hm).1
      rw [Option.map_some', h2]
      rfl
  · cases hm : extract_metadata (cs "Direct Taxes/India/notice.pdf") 1 1 with
    | none => rw [hm] at h; exact absurd h.1 (by simp)
    | some md =>
      have h2 := (h.2 md hm).2.1
      rw [Option.map_some', h2]
      rfl

/-- Counterexample for C8 as frozen: on the single-segment key
`Direct Taxes` the code sets no `document_name` field at all (the rule's
`len(parts) > 1` guard fails), contradicting the claim that a
`document_name` is always set. -/
theorem extract_metadata_counterexample :
    extract_metadata (cs "Direct Taxes") 1 1
      = some [("standard_type", MVal.s (cs "Direct Taxes")),
              ("page_number", MVal.n 1), ("total_pages", MVal.n 1)]
    ∧ List.lookup "document_name"
        [("standard_type", MVal.s (cs "Direct Taxes")),
         ("page_number", MVal.n 1), ("total_pages", MVal.n 1)] = none := ⟨rfl, rfl⟩

/-- The chunk loop succeeds elementwise when every iteration succeeds, with
output length and entries determined by the per-page function. -/
theorem chunkLoop_eq_some (f : Nat → Option (List (String × MVal))) :
    ∀ is : List Nat, (∀ i ∈ is, (f i).isSome = true) →
      ∃ l, chunkLoop f is = some l ∧ l.length = is.length
        ∧ ∀ k : Nat, l[k]? = (is[k]?).bind f := by
  intro is
  induction is with
  | nil =>
    intro _
    exact ⟨[], rfl, rfl, by intro k; simp⟩
  | cons i rest ih =>
    intro hf
    have hfi : (f i).isSome = true := hf i (List.mem_cons_self _ _)
    obtain ⟨x, hx⟩ := Option.isSome_iff_exists.mp hfi
    obtain ⟨l, hl, hlen, hk⟩ := ih (fun j hj => hf j (List.mem_cons_of_mem _ hj))
    refine ⟨x :: l, ?_, by simp [hlen], ?_⟩
    · simp only [chunkLoop, hx, hl, Option.some_bind, Option.bind_eq_bind]
      rfl
    · intro k
      cases k with
      | zero => simp [hx]
      | succ k2 => simpa using hk k2

/-- The metadata of one direct-stream chunk exists and carries the
destination URI in the specification's format, at the page's 1-based
number. -/
theorem direct_chunk_md_uri (key : List Char) (i tp : Nat) :
    ∃ md, direct_chunk_md key i tp = some md
      ∧ md.lookup "chunk_s3_uri"
          = some (MVal.s (specChunkUri DIRECT_CHUNKED_BUCKET key (i + 1) [])) := by
  obtain ⟨md0, h1, _hstd, _hdoc, hpn, _htp, _hpm, _hct, huri, _hurip⟩ :=
    extract_metadata_fields key (i + 1) tp
  have hget : mdGetNat (md0 ++ [("processing_method", MVal.s (cs "direct")),
      ("chunk_type", MVal.s (cs "direct"))]) "page_number" 1 = i + 1 := by
    unfold mdGetNat
    rw [lookup_append_of_some _ _ _ _ hpn]
  have huri2 : (md0 ++ [("processing_method", MVal.s (cs "direct")),
      ("chunk_type", MVal.s (cs "direct"))]).lookup "chunk_s3_uri" = none := by
    rw [lookup_append_of_none _ _ _ huri]
    rfl
  have hd : direct_chunk_md key i tp
      = some ((md0 ++ [("processing_method", MVal.s (cs "direct")),
          ("chunk_type", MVal.s (cs "direct"))])
        ++ [("chunk_s3_uri", MVal.s (cs "s3://" ++ DIRECT_CHUNKED_BUCKET
              ++ '/' :: chunk_key_of key (i + 1) []))]) := by
    unfold direct_chunk_md
    rw [h1]
    simp only [Option.bind_eq_bind, Option.some_bind, hget]
    rfl
  refine ⟨_, hd, ?_⟩
  rw [specChunkUri_eq, lookup_append_of_none _ _ _ huri2]
  rfl

/-- The metadata of one processed-stream chunk exists and carries both
destination URIs in the specification's format. -/
theorem processed_chunk_md_uri (key : List Char) (i tp : Nat) :
    ∃ md, processed_chunk_md key i tp = some md
      ∧ md.lookup "chunk_s3_uri_processed"
          = some (MVal.s (specChunkUri CHUNKED_BUCKET key (i + 1) (cs "_processed")))
      ∧ md.lookup "chunk_s3_uri"
          = some (MVal.s (specChunkUri DIRECT_CHUNKED_BUCKET key (i + 1) [])) := by
  obtain ⟨md0, h1, _hstd, _hdoc, hpn, _htp, _hpm, _hct, huri, hurip⟩ :=
    extract_metadata_fields key (i + 1) tp
  have hget : mdGetNat (md0 ++ [("processing_method", MVal.s (cs "processed")),
      ("chunk_type", MVal.s (cs "processed"))]) "page_number" 1 = i + 1 := by
    unfold mdGetNat
    rw [lookup_append_of_some _ _ _ _ hpn]
  have hurip2 : (md0 ++ [("processing_method", MVal.s (cs "processed")),
      ("chunk_type", MVal.s (cs "processed"))]).lookup "chunk_s3_uri_processed" = none := by
    rw [lookup_append_of_none _ _ _ hurip]
    rfl
  have huri2 : (md0 ++ [("processing_method", MVal.s (cs "processed")),
      ("chunk_type", MVal.s (cs "processed"))]).lookup "chunk_s3_uri" = none := by
    rw [lookup_append_of_none _ _ _ huri]
    rfl
  have hd : processed_chunk_md key i tp
      = some ((md0 ++ [("processing_method", MVal.s (cs "processed")),
          ("chunk_type", MVal.s (cs "processed"))])
        ++ [("chunk_s3_uri_processed", MVal.s (cs "s3://" ++ CHUNKED_BUCKET
              ++ '/' :: chunk_key_of key (i + 1) (cs "_processed"))),
            ("chunk_s3_uri", MVal.s (cs "s3://" ++ DIRECT_CHUNKED_BUCKET
              ++ '/' :: chunk_key_of key (i + 1) []))]) := by
    unfold processed_chunk_md
    rw [h1]
    simp only [Option.bind_eq_bind, Option.some_bind, hget]
    rfl
  refine ⟨_, hd, ?_, ?_⟩
  · rw [specChunkUri_eq, lookup_append_of_none _ _ _ hurip2]
    rfl
  · rw [specChunkUri_eq, lookup_append_of_none _ _ _ huri2]
    rfl

/-- C9 (amended): both chunk streams produce one chunk per page, and every
destination URI recorded in chunk metadata resolves to
`s3://<bucket>/<folder_path>/<base_name>_page_<n>[_processed].pdf` — the
specification-side format with the source key's folder path preserved
verbatim and every space (U+0020) in the base filename replaced by an
underscore; the normalized base filename contains no space character.
(Other whitespace characters, such as tabs, are not replaced — see the
counterexample.) -/
theorem chunk_stream_uri_spec (total_pages : Nat) (key : List Char) :
    (chunk_pdf_direct total_pages key).length = total_pages
    ∧ (chunk_pdf_processed total_pages key).length = total_pages
    ∧ (∀ i md, (chunk_pdf_direct total_pages key)[i]? = some md →
        md.lookup "chunk_s3_uri"
          = some (MVal.s (specChunkUri DIRECT_CHUNKED_BUCKET key (i + 1) [])))
    ∧ (∀ i md, (chunk_pdf_processed total_pages key)[i]? = some md →
        md.lookup "chunk_s3_uri_processed"
          = some (MVal.s (specChunkUri CHUNKED_BUCKET key (i + 1) (cs "_processed")))
        ∧ md.lookup "chunk_s3_uri"
          = some (MVal.s (specChunkUri DIRECT_CHUNKED_BUCKET key (i + 1) [])))
    ∧ (∀ c ∈ normalized_base_of key, c ≠ ' ') := by
  have hfD : ∀ i ∈ List.range total_pages, (direct_chunk_md key i total_pages).isSome = true := by
    intro i _
    obtain ⟨md, h, _⟩ := direct_chunk_md_uri key i total_pages
    rw [h]; rfl
  have hfP : ∀ i ∈ List.range total_pages,
      (processed_chunk_md key i total_pages).isSome = true := by
    intro i _
    obtain ⟨md, h, _, _⟩ := processed_chunk_md_uri key i total_pages
    rw [h]; rfl
  obtain ⟨lD, hlD, hlenD, hkD⟩ :=
    chunkLoop_eq_some (fun i => direct_chunk_md key i total_pages) (List.range total_pages) hfD
  obtain ⟨lP, hlP, hlenP, hkP⟩ :=
    chunkLoop_eq_some (fun i => processed_chunk_md key i total_pages) (List.range total_pages) hfP
  have heqD : chunk_pdf_direct total_pages key = lD := by
    unfold chunk_pdf_direct
    rw [hlD]
    rfl
  have heqP : chunk_pdf_processed total_pages key = lP := by
    unfold chunk_pdf_processed
    rw [hlP]
    rfl
  refine ⟨by rw [heqD, hlenD]; simp, by rw [heqP, hlenP]; simp, ?_, ?_, ?_⟩
  · intro i md hmd
    rw [heqD, hkD i] at hmd
    by_cases hi : i < total_pages
    · rw [List.getElem?_range hi] at hmd
      obtain ⟨md2, h2, hu⟩ := direct_chunk_md_uri key i total_pages
      simp only [Option.some_bind, Option.bind_eq_bind] at hmd
      rw [h2] at hmd
      cases hmd
      exact hu
    · rw [List.getElem?_eq_none (by simpa using hi)] at hmd
      cases hmd
  · intro i md hmd
    rw [heqP, hkP i] at hmd
    by_cases hi : i < total_pages
    · rw [List.getElem?_range hi] at hmd
      obtain ⟨md2, h2, hup, hu⟩ := processed_chunk_md_uri key i total_pages
      simp only [Option.some_bind, Option.bind_eq_bind] at hmd
      rw [h2] at hmd
      cases hmd
      exact ⟨hup, hu⟩
    · rw [List.getElem?_eq_none (by simpa using hi)] at hmd
      cases hmd
  · intro c hc
    rcases List.mem_map.mp hc with ⟨a, _, rfl⟩
    by_cases h : a = ' '
    · simp [h]
    · simp [h]

/-- Witness for C9 at a concrete key with a space in the filename: the first
direct chunk's URI has the space replaced by an underscore and the folder
path intact. -/
theorem chunk_stream_uri_spec_witness :
    ((chunk_pdf_direct 1 (cs "test/a b.pdf"))[0]?.map
        (fun md => md.lookup "chunk_s3_uri"))
      = some (some (MVal.s (cs "s3://rules-repository-alpha/test/a_b_page_1.pdf"))) := by
  have h := (chunk_stream_uri_spec 1 (cs "test/a b.pdf")).2.2.1
  cases hmd : (chunk_pdf_direct 1 (cs "test/a b.pdf"))[0]? with
  | none =>
    exfalso
    have hl := (chunk_stream_uri_spec 1 (cs "test/a b.pdf")).1
    have h0 : 0 < (chunk_pdf_direct 1 (cs "test/a b.pdf")).length := by
      rw [hl]
      omega
    rw [List.getElem?_eq_getElem h0] at hmd
    cases hmd
  | some md =>
    rw [Option.map_some', h 0 md hmd]
    rfl

/-- Counterexample for C9 as frozen: a tab character in the base filename is
not replaced by an underscore (`replace(' ', '_')` touches only spaces), so
the recorded URI still contains whitespace. -/
theorem chunk_uri_whitespace_counterexample :
    ((chunk_pdf_direct 1 (cs "test/a\tb.pdf"))[0]?.map
        (fun md => md.lookup "chunk_s3_uri"))
      = some (some (MVal.s (cs "s3://rules-repository-alpha/test/a\tb_page_1.pdf")))
    ∧ '\t' ∈ cs "s3://rules-repository-alpha/test/a\tb_page_1.pdf" := by
  exact ⟨rfl, by decide⟩

/-! ### Claims C4 and C5: filename normalization (`services/filename_service.py`) -/

/-- Prepending a character preserves an existing TMI occurrence. -/
theorem hasTMI_cons (c : Char) (l : List Char) (h : hasTMI l = true) :
    hasTMI (c :: l) = true := by
  rcases l with _ | ⟨m, _ | ⟨i, r⟩⟩
  · simp [hasTMI] at h
  · simp [hasTMI] at h
  · simp only [hasTMI] at h ⊢
    rw [h]
    simp

/-- A head that cannot start `TMI` does not affect the occurrence check. -/
theorem hasTMI_cons_notT (c : Char) (l : List Char) (h : eqCI c 'T' = false) :
    hasTMI (c :: l) = hasTMI l := by
  rcases l with _ | ⟨m, _ | ⟨i, r⟩⟩
  · simp [hasTMI]
  · simp [hasTMI]
  · simp only [hasTMI, h]
    simp

/-- Occurrence characterization: `hasTMI` holds exactly when the string
decomposes around three consecutive TMI characters. -/
theorem hasTMI_iff (s : List Char) :
    hasTMI s = true ↔ ∃ a t m i b, s = a ++ t :: m :: i :: b
      ∧ eqCI t 'T' = true ∧ eqCI m 'M' = true ∧ eqCI i 'I' = true := by
  induction s with
  | nil =>
    simp only [hasTMI]
    constructor
    · intro h; cases h
    · rintro ⟨a, t, m, i, b, heq, -⟩
      have := congrArg List.length heq
      simp at this
      omega
  | cons c rest ih =>
    rcases rest with _ | ⟨m0, _ | ⟨i0, r⟩⟩
    · simp only [hasTMI]
      constructor
      · intro h; cases h
      · rintro ⟨a, t, m, i, b, heq, -⟩
        have := congrArg List.length heq
        simp at this
        omega
    · simp only [hasTMI]
      constructor
      · intro h; cases h
      · rintro ⟨a, t, m, i, b, heq, -⟩
        have := congrArg List.length heq
        simp at this
        omega
    · simp only [hasTMI]
      constructor
      · intro h
        rcases Bool.or_eq_true_iff.mp h with h1 | h2
        · exact ⟨[], c, m0, i0, r, rfl,
            (Bool.and_eq_true_iff.mp (Bool.and_eq_true_iff.mp h1).1).1,
            (Bool.and_eq_true_iff.mp (Bool.and_eq_true_iff.mp h1).1).2,
            (Bool.and_eq_true_iff.mp h1).2⟩
        · rcases ih.mp h2 with ⟨a, t, m, i, b, heq, h3, h4, h5⟩
          exact ⟨c :: a, t, m, i, b, by rw [List.cons_append, heq], h3, h4, h5⟩
      · rintro ⟨a, t, m, i, b, heq, h3, h4, h5⟩
        rcases a with _ | ⟨x, a2⟩
        · simp only [List.nil_append] at heq
          injection heq with e1 heq2
          injection heq2 with e2 heq3
          injection heq3 with e3 _
          subst e1; subst e2; subst e3
          rw [h3, h4, h5]
          simp
        · simp only [List.cons_append] at heq
          injection heq with e1 heq2
          have : hasTMI (m0 :: i0 :: r) = true :=
            ih.mpr ⟨a2, t, m, i, b, heq2, h3, h4, h5⟩
          rw [this]
          simp

/-- An occurrence in the right part survives prepending a list. -/
theorem hasTMI_append_left (pre t : List Char) (h : hasTMI t = true) :
    hasTMI (pre ++ t) = true := by
  induction pre with
  | nil => simpa using h
  | cons c rest ih => exact hasTMI_cons c _ ih

/-- A case-insensitive `TMI` prefix is an occurrence. -/
theorem hasTMI_of_startsWithCI (s : List Char) (h : startsWithCI (cs "TMI") s = true) :
    hasTMI s = true := by
  rcases s with _ | ⟨t, _ | ⟨m, _ | ⟨i, r⟩⟩⟩
  · simp [startsWithCI, cs] at h
  · simp [startsWithCI, cs] at h
  · simp [startsWithCI, cs] at h
  · simp only [startsWithCI, cs, Bool.and_eq_true_iff] at h
    simp only [hasTMI]
    rw [h.1, h.2.1, h.2.2.1]
    simp

/-- Double-underscore characterization. -/
theorem hasDD_iff (s : List Char) :
    hasDD s = true ↔ ∃ a b, s = a ++ '_' :: '_' :: b := by
  induction s with
  | nil =>
    simp only [hasDD]
    constructor
    · intro h; cases h
    · rintro ⟨a, b, heq⟩
      have := congrArg List.length heq
      simp at this
      omega
  | cons c rest ih =>
    constructor
    · intro h
      rcases rest with _ | ⟨d, r⟩
      · simp [hasDD] at h
      · by_cases hc : c = '_'
        · by_cases hd : d = '_'
          · exact ⟨[], r, by rw [hc, hd]; rfl⟩
          · subst hc
            have h2 : hasDD (d :: r) = true := by
              rcases r with _ | ⟨e, r2⟩
              · simp [hasDD, hd] at h
              · simpa [hasDD, hd] using h
            rcases ih.mp h2 with ⟨a, b, heq⟩
            exact ⟨'_' :: a, b, by rw [List.cons_append, heq]⟩
        · have h2 : hasDD (d :: r) = true := by
            rcases r with _ | ⟨e, r2⟩
            · simp [hasDD, hc] at h
            · simpa [hasDD, hc] using h
          rcases ih.mp h2 with ⟨a, b, heq⟩
          exact ⟨c :: a, b, by rw [List.cons_append, heq]⟩
    · rintro ⟨a, b, heq⟩
      rcases a with _ | ⟨x, a2⟩
      · simp only [List.nil_append] at heq
        rw [heq]
        simp [hasDD]
      · simp only [List.cons_append] at heq
        injection heq with e1 heq2
        have h2 : hasDD rest = true := ih.mpr ⟨a2, b, heq2⟩
        rcases rest with _ | ⟨d, r⟩
        · simp [hasDD] at h2
        · by_cases hc : c = '_'
          · by_cases hd : d = '_'
            · subst hc; subst hd; simp [hasDD]
            · subst hc
              rcases r with _ | ⟨e, r2⟩
              · simp [hasDD] at h2
              · simpa [hasDD, hd] using h2
          · rcases r with _ | ⟨e, r2⟩
            · simp [hasDD] at h2
            · simpa [hasDD, hc] using h2

theorem subWs_eq_runSub (s : List Char) : ∀ b, subWs s b = runSub isWsP s b := by
  induction s with
  | nil => intro b; rfl
  | cons c rest ih =>
    intro b
    by_cases hc : isWsP c = true
    · cases b <;> simp [subWs, runSub, hc, ih]
    · cases b <;> simp [subWs, runSub, hc, ih]

theorem subNonAscii_eq_runSub (s : List Char) :
    ∀ b, subNonAscii s b = runSub (fun c => !isAsciiP c) s b := by
  induction s with
  | nil => intro b; rfl
  | cons c rest ih =>
    intro b
    by_cases hc : isAsciiP c = true
    · cases b <;> simp [subNonAscii, runSub, hc, ih]
    · cases b <;> simp [subNonAscii, runSub, hc, ih]

theorem collapseUnd_eq_runSub (s : List Char) :
    ∀ b, collapseUnd s b = runSub (fun c => c = '_') s b := by
  induction s with
  | nil => intro b; rfl
  | cons c rest ih =>
    intro b
    by_cases hc : c = '_'
    · cases b <;> simp [collapseUnd, runSub, hc, ih]
    · cases b <;> simp [collapseUnd, runSub, hc, ih]

/-- A run substitution leaves a string without `p`-characters unchanged. -/
theorem runSub_id (p : Char → Bool) (s : List Char) (h : ∀ c ∈ s, p c = false) :
    ∀ b, runSub p s b = s := by
  induction s with
  | nil => intro b; rfl
  | cons c rest ih =>
    intro b
    have hc : p c = false := h c (List.mem_cons_self c rest)
    simp [runSub, hc, ih (fun x hx => h x (List.mem_cons_of_mem c hx))]

/-- Every character of a run-substitution output comes from the input or is
the inserted underscore. -/
theorem runSub_subset (p : Char → Bool) (s : List Char) :
    ∀ b c, c ∈ runSub p s b → c ∈ s ∨ c = '_' := by
  induction s with
  | nil => intro b c hc; simp [runSub] at hc
  | cons a rest ih =>
    intro b c hc
    by_cases ha : p a = true
    · have hc2 : c ∈ '_' :: runSub p rest true := by
        cases b with
        | false => simpa [runSub, ha] using hc
        | true => exact List.mem_cons_of_mem _ (by simpa [runSub, ha] using hc)
      rcases List.mem_cons.mp hc2 with h | h
      · exact Or.inr h
      · rcases ih true c h with h2 | h2
        · exact Or.inl (List.mem_cons_of_mem a h2)
        · exact Or.inr h2
    · have hc2 : c = a ∨ c ∈ runSub p rest false := by
        cases b <;> simpa [runSub, ha] using hc
      rcases hc2 with h | h
      · exact Or.inl (h ▸ List.mem_cons_self a rest)
      · rcases ih false c h with h2 | h2
        · exact Or.inl (List.mem_cons_of_mem a h2)
        · exact Or.inr h2

/-- When the underscore itself is not a `p`-character, the output of a run
substitution contains no `p`-characters at all. -/
theorem runSub_not (p : Char → Bool) (hp : p '_' = false) (s : List Char) :
    ∀ b c, c ∈ runSub p s b → p c = false := by
  induction s with
  | nil => intro b c hc; simp [runSub] at hc
  | cons a rest ih =>
    intro b c hc
    by_cases ha : p a = true
    · have hc2 : c ∈ '_' :: runSub p rest true := by
        cases b with
        | false => simpa [runSub, ha] using hc
        | true => exact List.mem_cons_of_mem _ (by simpa [runSub, ha] using hc)
      rcases List.mem_cons.mp hc2 with h | h
      · rw [h]; exact hp
      · exact ih true c h
    · have hc2 : c = a ∨ c ∈ runSub p rest false := by
        cases b <;> simpa [runSub, ha] using hc
      rcases hc2 with h | h
      · rw [h]; simpa using ha
      · exact ih false c h

/-- When the underscore is a `p`-character (the `collapseUnd` instance), the
output never holds two adjacent underscores, and in run-state the output
never starts with an underscore. -/
theorem runSub_noDD (p : Char → Bool) (hp : p '_' = true) (s : List Char) :
    (hasDD (runSub p s true) = false ∧ hasDD (runSub p s false) = false)
      ∧ (runSub p s true).head? ≠ some '_' := by
  induction s with
  | nil => exact ⟨⟨rfl, rfl⟩, by simp [runSub]⟩
  | cons a rest ih =>
    by_cases ha : p a = true
    · refine ⟨⟨?_, ?_⟩, ?_⟩
      · have he : runSub p (a :: rest) true = runSub p rest true := by
          simp [runSub, ha]
        rw [he]; exact ih.1.1
      · have he : runSub p (a :: rest) false = '_' :: runSub p rest true := by
          simp [runSub, ha]
        rw [he]
        rcases hr : runSub p rest true with _ | ⟨x, l⟩
        · rfl
        · have hx : ¬(x = '_') := by
            intro hx
            exact ih.2 (by simp [hr, hx])
          have hdd : hasDD ('_' :: x :: l) = hasDD (x :: l) := by
            simp [hasDD, hx]
          rw [hdd, ← hr]
          exact ih.1.1
      · have he : runSub p (a :: rest) true = runSub p rest true := by
          simp [runSub, ha]
        rw [he]; exact ih.2
    · have hane : ¬(a = '_') := by
        intro h; rw [h] at ha; exact ha hp
      have he : ∀ b, runSub p (a :: rest) b = a :: runSub p rest false := by
        intro b; cases b <;> simp [runSub, ha]
      have hdd : hasDD (a :: runSub p rest false) = hasDD (runSub p rest false) := by
        rcases hr : runSub p rest false with _ | ⟨x, l⟩
        · simp [hasDD]
        · simp [hasDD, hane]
      refine ⟨⟨?_, ?_⟩, ?_⟩
      · rw [he true, hdd]; exact ih.1.2
      · rw [he false, hdd]; exact ih.1.2
      · rw [he true]; simp [hane]

/-- A string without double underscores is a fixed point of `collapseUnd`
(jointly with the run-state variant under a head condition). -/
theorem collapseUnd_id_aux (s : List Char) :
    hasDD s = false →
      (collapseUnd s false = s ∧ (s.head? ≠ some '_' → collapseUnd s true = s)) := by
  induction s with
  | nil => intro h; exact ⟨rfl, fun _ => rfl⟩
  | cons c rest ih =>
    intro h
    have hrest : hasDD rest = false := by
      by_contra hr
      have hr2 : hasDD rest = true := by simpa using hr
      rcases (hasDD_iff rest).mp hr2 with ⟨a, b, heq⟩
      have hcc : hasDD (c :: rest) = true := (hasDD_iff _).mpr ⟨c :: a, b, by rw [heq]; rfl⟩
      rw [hcc] at h; cases h
    by_cases hc : c = '_'
    · subst hc
      have hhead : rest.head? ≠ some '_' := by
        intro hh
        rcases rest with _ | ⟨d, r⟩
        · simp at hh
        · simp at hh
          subst hh
          simp [hasDD] at h
      constructor
      · have he : collapseUnd ('_' :: rest) false = '_' :: collapseUnd rest true := by
          simp [collapseUnd]
        rw [he, (ih hrest).2 hhead]
      · intro hh
        simp at hh
    · constructor
      · have he : collapseUnd (c :: rest) false = c :: collapseUnd rest false := by
          simp [collapseUnd, hc]
        rw [he, (ih hrest).1]
      · intro _
        have he : collapseUnd (c :: rest) true = c :: collapseUnd rest false := by
          simp [collapseUnd, hc]
        rw [he, (ih hrest).1]

/-- A `TMI` occurrence in a run-substitution output comes from one in the
input: the inserted underscores cannot take part in an occurrence, and
characters adjacent in the output around no underscore were adjacent in the
input. -/
theorem runSub_hasTMI_aux (p : Char → Bool) :
    ∀ (n : Nat) (s : List Char), s.length ≤ n →
      ∀ b, hasTMI (runSub p s b) = true → hasTMI s = true := by
  intro n
  induction n with
  | zero =>
    intro s hs b h
    have hnil : s = [] := List.length_eq_zero.mp (Nat.le_zero.mp hs)
    subst hnil
    simpa [runSub] using h
  | succ n ih =>
    intro s hs b h
    rcases s with _ | ⟨c, rest⟩
    · simpa [runSub] using h
    · simp only [List.length_cons] at hs
      have hrest : rest.length ≤ n := by omega
      by_cases hc : p c = true
      · have h2 : hasTMI (runSub p rest true) = true := by
          cases b with
          | false =>
            have he : runSub p (c :: rest) false = '_' :: runSub p rest true := by
              simp [runSub, hc]
            rw [he] at h
            rwa [hasTMI_cons_notT _ _ (by decide)] at h
          | true =>
            have he : runSub p (c :: rest) true = runSub p rest true := by
              simp [runSub, hc]
            rwa [he] at h
        exact hasTMI_cons c rest (ih rest hrest true h2)
      · have he : runSub p (c :: rest) b = c :: runSub p rest false := by
          cases b <;> simp [runSub, hc]
        rw [he] at h
        rcases hl : runSub p rest false with _ | ⟨m, _ | ⟨i, l⟩⟩
        · rw [hl] at h; simp [hasTMI] at h
        · rw [hl] at h; simp [hasTMI] at h
        · rw [hl] at h
          simp only [hasTMI, Bool.or_eq_true_iff] at h
          rcases h with h1 | h2
          · rcases rest with _ | ⟨c2, rest2⟩
            · simp [runSub] at hl
            · by_cases hc2 : p c2 = true
              · have he2 : runSub p (c2 :: rest2) false = '_' :: runSub p rest2 true := by
                  simp [runSub, hc2]
                rw [he2] at hl
                injection hl with e1 _
                rw [← e1] at h1
                have hm : eqCI '_' 'M' = false := by decide
                rw [hm] at h1
                simp at h1
              · have he2 : runSub p (c2 :: rest2) false = c2 :: runSub p rest2 false := by
                  simp [runSub, hc2]
                rw [he2] at hl
                injection hl with e1 hl2
                rcases rest2 with _ | ⟨c3, rest3⟩
                · simp [runSub] at hl2
                · by_cases hc3 : p c3 = true
                  · have he3 : runSub p (c3 :: rest3) false = '_' :: runSub p rest3 true := by
                      simp [runSub, hc3]
                    rw [he3] at hl2
                    injection hl2 with e2 _
                    rw [← e1, ← e2] at h1
                    have hi : eqCI '_' 'I' = false := by decide
                    rw [hi] at h1
                    simp at h1
                  · have he3 : runSub p (c3 :: rest3) false = c3 :: runSub p rest3 false := by
                      simp [runSub, hc3]
                    rw [he3] at hl2
                    injection hl2 with e2 _
                    rw [← e1, ← e2] at h1
                    simp only [hasTMI]
                    exact Bool.or_eq_true_iff.mpr (Or.inl h1)
          · have h3 : hasTMI (runSub p rest false) = true := by rw [hl]; exact h2
            exact hasTMI_cons c rest (ih rest hrest false h3)

/-- A string without a `TMI` occurrence keeps that property through any run
substitution. -/
theorem runSub_noTMI (p : Char → Bool) (s : List Char) (h : hasTMI s = false)
    (b : Bool) : hasTMI (runSub p s b) = false := by
  by_contra hx
  have hx2 : hasTMI (runSub p s b) = true := by simpa using hx
  have h2 := runSub_hasTMI_aux p s.length s (le_refl _) b hx2
  rw [h2] at h; cases h

/-- A suffix occurrence of `TMI` is an occurrence. -/
theorem hasTMI_of_suffix (t s : List Char) (hsuf : t <:+ s) (h : hasTMI t = true) :
    hasTMI s = true := by
  rcases hsuf with ⟨pre, hpre⟩
  rw [← hpre]
  exact hasTMI_append_left pre t h

/-- An infix occurrence of `TMI` is an occurrence. -/
theorem hasTMI_of_infix (t s : List Char) (hinf : t <:+: s) (h : hasTMI t = true) :
    hasTMI s = true := by
  rcases hinf with ⟨a, b, hab⟩
  rcases (hasTMI_iff t).mp h with ⟨x, t0, m0, i0, y, hxy, h1, h2, h3⟩
  refine (hasTMI_iff s).mpr ⟨a ++ x, t0, m0, i0, y ++ b, ?_, h1, h2, h3⟩
  rw [← hab, hxy]
  simp

/-- An infix double underscore is a double underscore. -/
theorem hasDD_of_infix (t s : List Char) (hinf : t <:+: s) (h : hasDD t = true) :
    hasDD s = true := by
  rcases hinf with ⟨a, b, hab⟩
  rcases (hasDD_iff t).mp h with ⟨x, y, hxy⟩
  refine (hasDD_iff s).mpr ⟨a ++ x, y ++ b, ?_⟩
  rw [← hab, hxy]
  simp

/-- `unidecode` (modelled) is the identity on ASCII input. -/
theorem unidecodeModel_id (s : List Char) (h : ∀ c ∈ s, isAsciiP c = true) :
    unidecodeModel s = s :=
  List.filter_eq_self.mpr h

/-- Without an opening bracket the bracket-content substitution is the
identity. -/
theorem subBracket_id (s : List Char) (h : '[' ∉ s) : subBracket s = s := by
  induction s with
  | nil => simp [subBracket]
  | cons c rest ih =>
    have hc : ¬(c = '[') := fun he => h (he ▸ List.mem_cons_self c rest)
    simp only [subBracket, hc, if_false]
    rw [ih (fun hm => h (List.mem_cons_of_mem c hm))]

/-- Without an opening parenthesis the paren-content substitution is the
identity. -/
theorem subParen_id (s : List Char) (h : '(' ∉ s) : subParen s = s := by
  induction s with
  | nil => simp [subParen]
  | cons c rest ih =>
    have hc : ¬(c = '(') := fun he => h (he ▸ List.mem_cons_self c rest)
    simp only [subParen, hc, if_false]
    rw [ih (fun hm => h (List.mem_cons_of_mem c hm))]

/-- Without a `TMI` occurrence the `TMI` substitution is the identity. -/
theorem subTMI_id (s : List Char) (h : hasTMI s = false) : subTMI s = s := by
  induction s with
  | nil => simp [subTMI]
  | cons c rest ih =>
    have hst : startsWithCI (cs "TMI") (c :: rest) = false := by
      by_contra hx
      have hx2 : startsWithCI (cs "TMI") (c :: rest) = true := by simpa using hx
      rw [hasTMI_of_startsWithCI _ hx2] at h; cases h
    have hrest : hasTMI rest = false := by
      by_contra hx
      have hx2 : hasTMI rest = true := by simpa using hx
      rw [hasTMI_cons c rest hx2] at h; cases h
    simp [subTMI, hst, ih hrest]

/-- Without a `TMI` occurrence the numeric-prefixed `TMI` substitution is
the identity. -/
theorem subNumTMI_id (s : List Char) (h : hasTMI s = false) : subNumTMI s = s := by
  induction s with
  | nil => simp [subNumTMI]
  | cons c rest ih =>
    have hrest : hasTMI rest = false := by
      by_contra hx
      have hx2 : hasTMI rest = true := by simpa using hx
      rw [hasTMI_cons c rest hx2] at h; cases h
    by_cases hd : isDigitP c = true
    · have hsuf : ((rest.dropWhile isDigitP).dropWhile isWsP) <:+ rest :=
        (List.dropWhile_suffix isWsP).trans (List.dropWhile_suffix isDigitP)
      have hst :
          startsWithCI (cs "TMI") ((rest.dropWhile isDigitP).dropWhile isWsP) = false := by
        by_contra hx
        have hx2 :
            startsWithCI (cs "TMI") ((rest.dropWhile isDigitP).dropWhile isWsP) = true := by
          simpa using hx
        have h3 := hasTMI_of_startsWithCI _ hx2
        rw [hasTMI_of_suffix _ rest hsuf h3] at hrest
        cases hrest
      simp [subNumTMI, hd, hst, ih hrest]
    · simp [subNumTMI, hd, ih hrest]

/-- Without an opening parenthesis the paren-numeric `TMI` substitution is
the identity. -/
theorem subParenNumTMI_id (s : List Char) (h : '(' ∉ s) : subParenNumTMI s = s := by
  induction s with
  | nil => simp [subParenNumTMI]
  | cons c rest ih =>
    have hc : ¬(c = '(') := fun he => h (he ▸ List.mem_cons_self c rest)
    simp only [subParenNumTMI, hc, if_false]
    rw [ih (fun hm => h (List.mem_cons_of_mem c hm))]

/-- Without an opening bracket the bracket-numeric `TMI` substitution is the
identity. -/
theorem subBrackNumTMI_id (s : List Char) (h : '[' ∉ s) : subBrackNumTMI s = s := by
  induction s with
  | nil => simp [subBrackNumTMI]
  | cons c rest ih =>
    have hc : ¬(c = '[') := fun he => h (he ▸ List.mem_cons_self c rest)
    simp only [subBrackNumTMI, hc, if_false]
    rw [ih (fun hm => h (List.mem_cons_of_mem c hm))]

/-- A quote-free string is a fixed point of the quote substitution. -/
theorem subQuotes_id (s : List Char) (h : ∀ c ∈ s, isQuoteF c = false) :
    subQuotes s = s :=
  List.filter_eq_self.mpr (fun a ha => by simp [h a ha])

/-- The quote substitution output is quote-free. -/
theorem subQuotes_quote_free (s : List Char) : ∀ c ∈ subQuotes s, isQuoteF c = false := by
  intro c hc
  have h2 := List.of_mem_filter hc
  simpa using h2

/-- The quote substitution only drops characters. -/
theorem subQuotes_subset (s : List Char) : ∀ c ∈ subQuotes s, c ∈ s :=
  fun _ hc => List.mem_of_mem_filter hc

/-- A string unchanged by the quote substitution is quote-free. -/
theorem quote_free_of_subQuotes_eq (s : List Char) (h : subQuotes s = s) :
    ∀ c ∈ s, isQuoteF c = false := by
  intro c hc
  have h2 := List.filter_eq_self.mp h c hc
  simpa using h2

/-- The head of a `dropWhile` result fails the predicate. -/
theorem dropWhile_head_not (p : Char → Bool) (l : List Char) (x : Char)
    (hx : (l.dropWhile p).head? = some x) : p x = false := by
  induction l with
  | nil => simp [List.dropWhile] at hx
  | cons c rest ih =>
    by_cases hc : p c = true
    · rw [List.dropWhile_cons, if_pos hc] at hx
      exact ih hx
    · rw [List.dropWhile_cons, if_neg hc] at hx
      simp at hx
      rw [← hx]
      simpa using hc

/-- `strip("_")` returns a prefix of the left-stripped string. -/
theorem stripUnd_front (s : List Char) :
    stripUnd s <+: s.dropWhile (fun c => c = '_') := by
  have h2 := List.dropWhile_suffix (l := (s.dropWhile (fun c => c = '_')).reverse)
    (fun c => c = '_')
  have h3 := List.reverse_prefix.mpr h2
  rwa [List.reverse_reverse] at h3

/-- `strip("_")` returns an infix of its input. -/
theorem stripUnd_within (s : List Char) : stripUnd s <:+: s :=
  (stripUnd_front s).isInfix.trans (List.dropWhile_suffix _).isInfix

/-- `strip("_")` only drops characters. -/
theorem stripUnd_subset (s : List Char) : ∀ c ∈ stripUnd s, c ∈ s :=
  fun _ hc => (stripUnd_within s).subset hc

/-- `strip("_")` never returns a leading underscore. -/
theorem stripUnd_head (s : List Char) : (stripUnd s).head? ≠ some '_' := by
  intro hh
  rcases stripUnd_front s with ⟨t, ht⟩
  rcases he : stripUnd s with _ | ⟨x, l⟩
  · rw [he] at hh; simp at hh
  · rw [he] at hh ht
    simp at hh
    subst hh
    have hhd : (s.dropWhile (fun c => c = '_')).head? = some '_' := by
      rw [← ht]; rfl
    have h2 := dropWhile_head_not (fun c => c = '_') s '_' hhd
    simp at h2

/-- `strip("_")` never returns a trailing underscore. -/
theorem stripUnd_getLast (s : List Char) : (stripUnd s).getLast? ≠ some '_' := by
  intro hh
  have h1 : (stripUnd s).reverse.head? = some '_' := by
    rw [List.head?_reverse]; exact hh
  have h2 : (stripUnd s).reverse
      = (s.dropWhile (fun c => c = '_')).reverse.dropWhile (fun c => c = '_') := by
    unfold stripUnd
    rw [List.reverse_reverse]
  rw [h2] at h1
  have h3 := dropWhile_head_not (fun c => c = '_') _ '_' h1
  simp at h3

/-- A string with neither a leading nor a trailing underscore is a fixed
point of `strip("_")`. -/
theorem stripUnd_id (s : List Char) (h1 : s.head? ≠ some '_')
    (h2 : s.getLast? ≠ some '_') : stripUnd s = s := by
  have hd1 : s.dropWhile (fun c => c = '_') = s := by
    rcases s with _ | ⟨c, rest⟩
    · rfl
    · have hc : ¬(c = '_') := by
        intro he; exact h1 (by simp [he])
      simp [List.dropWhile_cons, hc]
  have hd2 : s.reverse.dropWhile (fun c => c = '_') = s.reverse := by
    rcases hr : s.reverse with _ | ⟨c, rest⟩
    · rfl
    · have hc : ¬(c = '_') := by
        intro he
        apply h2
        rw [← List.head?_reverse, hr, he]
        rfl
      simp [List.dropWhile_cons, hc]
  unfold stripUnd
  rw [hd1, hd2, List.reverse_reverse]

/-- A non-slash head passes through the double-slash collapse. -/
theorem replaceDS_cons_ne (c : Char) (hc : ¬(c = '/')) (rest : List Char) :
    replaceDS (c :: rest) = c :: replaceDS rest := by
  rcases rest with _ | ⟨d, r⟩
  · simp [replaceDS]
  · simp [replaceDS, hc]

/-- A slash followed by a non-slash passes through the double-slash
collapse. -/
theorem replaceDS_slash_cons_ne (c2 : Char) (hc2 : ¬(c2 = '/')) (r : List Char) :
    replaceDS ('/' :: c2 :: r) = '/' :: replaceDS (c2 :: r) := by
  simp [replaceDS, hc2]

/-- Collapsing double slashes is the identity on a slash-free string. -/
theorem replaceDS_id (l : List Char) (h : '/' ∉ l) : replaceDS l = l := by
  induction l with
  | nil => rfl
  | cons c rest ih =>
    have hc : ¬(c = '/') := fun he => h (he ▸ List.mem_cons_self c rest)
    have hrest : replaceDS rest = rest := ih (fun hm => h (List.mem_cons_of_mem c hm))
    rw [replaceDS_cons_ne c hc rest, hrest]

/-- A slash before a slash-free string passes through the double-slash
collapse. -/
theorem replaceDS_slash (l : List Char) (hl : '/' ∉ l) :
    replaceDS ('/' :: l) = '/' :: l := by
  rcases l with _ | ⟨x, l2⟩
  · simp [replaceDS]
  · have hx : ¬(x = '/') := fun he => hl (he ▸ List.mem_cons_self x l2)
    rw [replaceDS_slash_cons_ne x hx l2, replaceDS_id (x :: l2) hl]

theorem replaceDS_sep_aux : ∀ (n : Nat) (d : List Char), d.length ≤ n →
    ∀ l, '/' ∉ l → ∃ d2, replaceDS (d ++ '/' :: l) = d2 ++ '/' :: l := by
  intro n
  induction n with
  | zero =>
    intro d hd l hl
    have hnil : d = [] := List.length_eq_zero.mp (Nat.le_zero.mp hd)
    subst hnil
    exact ⟨[], by simpa using replaceDS_slash l hl⟩
  | succ n ih =>
    intro d hd l hl
    rcases d with _ | ⟨c, d1⟩
    · exact ⟨[], by simpa using replaceDS_slash l hl⟩
    · simp only [List.length_cons] at hd
      by_cases hc : c = '/'
      · subst hc
        rcases d1 with _ | ⟨c2, d2⟩
        · refine ⟨[], ?_⟩
          have hstep : replaceDS ('/' :: '/' :: l) = '/' :: replaceDS l := by
            simp [replaceDS]
          simp only [List.cons_append, List.nil_append]
          rw [hstep, replaceDS_id l hl]
        · by_cases hc2 : c2 = '/'
          · subst hc2
            simp only [List.length_cons] at hd
            rcases ih d2 (by omega) l hl with ⟨e, he⟩
            refine ⟨'/' :: e, ?_⟩
            have hstep : replaceDS ('/' :: '/' :: (d2 ++ '/' :: l))
                = '/' :: replaceDS (d2 ++ '/' :: l) := by simp [replaceDS]
            simp only [List.cons_append]
            rw [hstep, he]
          · rcases ih (c2 :: d2) (by omega) l hl with ⟨e, he⟩
            refine ⟨'/' :: e, ?_⟩
            simp only [List.cons_append]
            rw [replaceDS_slash_cons_ne c2 hc2 (d2 ++ '/' :: l)]
            rw [show c2 :: (d2 ++ '/' :: l) = (c2 :: d2) ++ '/' :: l from rfl, he]
      · rcases ih d1 (by omega) l hl with ⟨e, he⟩
        refine ⟨c :: e, ?_⟩
        simp only [List.cons_append]
        rw [replaceDS_cons_ne c hc (d1 ++ '/' :: l), he]

/-- Collapsing double slashes preserves the final slash-free component: the
result still ends in a slash followed by exactly that component. -/
theorem replaceDS_sep (d l : List Char) (hl : '/' ∉ l) :
    ∃ d2, replaceDS (d ++ '/' :: l) = d2 ++ '/' :: l :=
  replaceDS_sep_aux d.length d (le_refl _) l hl

theorem takeWhile_append_not (p : Char → Bool) (a r : List Char) (c : Char)
    (ha : ∀ x ∈ a, p x = true) (hc : p c = false) :
    (a ++ c :: r).takeWhile p = a ∧ (a ++ c :: r).dropWhile p = c :: r := by
  induction a with
  | nil =>
    constructor
    · simp [List.takeWhile_cons, hc]
    · simp [List.dropWhile_cons, hc]
  | cons x a2 ih =>
    have hx : p x = true := ha x (List.mem_cons_self x a2)
    have ih2 := ih (fun y hy => ha y (List.mem_cons_of_mem x hy))
    constructor
    · simp only [List.cons_append, List.takeWhile_cons, hx, if_true]
      rw [ih2.1]
    · simp only [List.cons_append, List.dropWhile_cons, hx, if_true]
      exact ih2.2

/-- `rsplit('/', 1)` splits exactly at the final slash. -/
theorem rsplitSlash_append (d l : List Char) (hl : '/' ∉ l) :
    rsplitSlash (d ++ '/' :: l) = (d, l) := by
  have hmem : '/' ∈ d ++ '/' :: l :=
    List.mem_append_right d (List.mem_cons_self _ _)
  have hrev : (d ++ '/' :: l).reverse = l.reverse ++ '/' :: d.reverse := by
    simp [List.reverse_append]
  have hall : ∀ x ∈ l.reverse, decide (x ≠ '/') = true := by
    intro x hx
    have hx2 : x ∈ l := List.mem_reverse.mp hx
    have hx3 : x ≠ '/' := fun he => hl (he ▸ hx2)
    simpa using hx3
  have hslash : decide (('/' : Char) ≠ '/') = false := by decide
  have htd := takeWhile_append_not (fun c => decide (c ≠ '/')) l.reverse d.reverse '/'
    hall hslash
  unfold rsplitSlash
  rw [if_pos hmem, hrev, htd.1, htd.2]
  simp

/-- The filename portion returned by `rsplit('/', 1)` is slash-free. -/
theorem rsplitSlash_no_slash (key : List Char) : '/' ∉ (rsplitSlash key).2 := by
  unfold rsplitSlash
  by_cases h : '/' ∈ key
  · rw [if_pos h]
    intro hm
    simp only at hm
    have hm2 := List.mem_reverse.mp hm
    have hm3 := List.mem_takeWhile_imp hm2
    simp at hm3
  · rw [if_neg h]
    exact h

/-- A key whose filename portion is already in normal form — ASCII, no
bracket or paren opener, no `TMI` occurrence, no quotes, no whitespace, no
double underscore, and no leading or trailing underscore — is a fixed point
of `clean_filename`: every substitution step is the identity, the `modified`
flag stays false, and the original key is returned. -/
theorem clean_filename_fixed (k : List Char)
    (hascii : ∀ c ∈ (rsplitSlash k).2, isAsciiP c = true)
    (hbr : '[' ∉ (rsplitSlash k).2)
    (hpr : '(' ∉ (rsplitSlash k).2)
    (htmi : hasTMI (rsplitSlash k).2 = false)
    (hq : ∀ c ∈ (rsplitSlash k).2, isQuoteF c = false)
    (hws : ∀ c ∈ (rsplitSlash k).2, isWsP c = false)
    (hdd : hasDD (rsplitSlash k).2 = false)
    (hhead : (rsplitSlash k).2.head? ≠ some '_')
    (hlast : (rsplitSlash k).2.getLast? ≠ some '_') :
    clean_filename k = k := by
  have h1 : unidecodeModel (rsplitSlash k).2 = (rsplitSlash k).2 := unidecodeModel_id _ hascii
  have h2 : subBracket (rsplitSlash k).2 = (rsplitSlash k).2 := subBracket_id _ hbr
  have h3 : subParen (rsplitSlash k).2 = (rsplitSlash k).2 := subParen_id _ hpr
  have h4 : subTMI (rsplitSlash k).2 = (rsplitSlash k).2 := subTMI_id _ htmi
  have h5 : subNumTMI (rsplitSlash k).2 = (rsplitSlash k).2 := subNumTMI_id _ htmi
  have h6 : subParenNumTMI (rsplitSlash k).2 = (rsplitSlash k).2 := subParenNumTMI_id _ hpr
  have h7 : subBrackNumTMI (rsplitSlash k).2 = (rsplitSlash k).2 := subBrackNumTMI_id _ hbr
  have h8 : subQuotes (rsplitSlash k).2 = (rsplitSlash k).2 := subQuotes_id _ hq
  have h9 : subWs (rsplitSlash k).2 false = (rsplitSlash k).2 := by
    rw [subWs_eq_runSub]
    exact runSub_id isWsP _ hws false
  have h10 : subNonAscii (rsplitSlash k).2 false = (rsplitSlash k).2 := by
    rw [subNonAscii_eq_runSub]
    exact runSub_id _ _ (fun c hc => by simp [hascii c hc]) false
  have h11 : collapseUnd (rsplitSlash k).2 false = (rsplitSlash k).2 :=
    (collapseUnd_id_aux _ hdd).1
  have h12 : stripUnd (rsplitSlash k).2 = (rsplitSlash k).2 := stripUnd_id _ hhead hlast
  simp [clean_filename, h1, h2, h3, h4, h5, h6, h7, h8, h9, h10, h11, h12]

/-- The suffix returned by the bracket scan only holds characters of its
input. -/
theorem bracketRest_mem (close : Char) :
    ∀ (s : List Char) (x : { r : List Char // r.length ≤ s.length }),
      bracketRest close s = some x → ∀ c ∈ x.val, c ∈ s := by
  intro s
  induction s with
  | nil => intro x hx; simp [bracketRest] at hx
  | cons a rest ih =>
    intro x hx c hc
    by_cases ha : a = close
    · simp only [bracketRest, if_pos ha] at hx
      have hv : rest = x.val := congrArg Subtype.val (Option.some.inj hx)
      rw [← hv] at hc
      exact List.mem_cons_of_mem a hc
    · by_cases hn : a = '\n'
      · simp only [bracketRest, if_neg ha, if_pos hn] at hx
        cases hx
      · rcases hrec : bracketRest close rest with _ | ⟨r, hr⟩
        · simp only [bracketRest, if_neg ha, if_neg hn, hrec] at hx
          cases hx
        · simp only [bracketRest, if_neg ha, if_neg hn, hrec] at hx
          have hv : r = x.val := congrArg Subtype.val (Option.some.inj hx)
          rw [← hv] at hc
          exact List.mem_cons_of_mem a (ih ⟨r, hr⟩ hrec c hc)

/-- The bracket-content substitution only drops characters. -/
theorem subBracket_mem : ∀ (n : Nat) (s : List Char), s.length ≤ n →
    ∀ c ∈ subBracket s, c ∈ s := by
  intro n
  induction n with
  | zero =>
    intro s hs c hc
    have hnil : s = [] := List.length_eq_zero.mp (Nat.le_zero.mp hs)
    subst hnil
    simpa [subBracket] using hc
  | succ n ih =>
    intro s hs c hc
    rcases s with _ | ⟨a, rest⟩
    · simpa [subBracket] using hc
    · simp only [List.length_cons] at hs
      by_cases ha : a = '['
      · rcases hrec : bracketRest ']' rest with _ | ⟨r, hr⟩
        · simp [subBracket, ha, hrec] at hc
          rcases hc with hc | hc
          · rw [hc, ha]; exact List.mem_cons_self _ _
          · exact List.mem_cons_of_mem a (ih rest (by omega) c hc)
        · simp [subBracket, ha, hrec] at hc
          have hlen : (r.dropWhile isWsP).length ≤ n := by
            have g1 := List.Sublist.length_le (List.dropWhile_sublist (l := r) isWsP)
            omega
          have hcm := ih _ hlen c hc
          have hcr : c ∈ r := (List.dropWhile_sublist isWsP).subset hcm
          exact List.mem_cons_of_mem a (bracketRest_mem ']' rest ⟨r, hr⟩ hrec c hcr)
      · simp [subBracket, ha] at hc
        rcases hc with hc | hc
        · exact hc ▸ List.mem_cons_self a rest
        · exact List.mem_cons_of_mem a (ih rest (by omega) c hc)

/-- The paren-content substitution only drops characters. -/
theorem subParen_mem : ∀ (n : Nat) (s : List Char), s.length ≤ n →
    ∀ c ∈ subParen s, c ∈ s := by
  intro n
  induction n with
  | zero =>
    intro s hs c hc
    have hnil : s = [] := List.length_eq_zero.mp (Nat.le_zero.mp hs)
    subst hnil
    simpa [subParen] using hc
  | succ n ih =>
    intro s hs c hc
    rcases s with _ | ⟨a, rest⟩
    · simpa [subParen] using hc
    · simp only [List.length_cons] at hs
      by_cases ha : a = '('
      · rcases hrec : bracketRest ')' rest with _ | ⟨r, hr⟩
        · simp [subParen, ha, hrec] at hc
          rcases hc with hc | hc
          · rw [hc, ha]; exact List.mem_cons_self _ _
          · exact List.mem_cons_of_mem a (ih rest (by omega) c hc)
        · simp [subParen, ha, hrec] at hc
          have hlen : (r.dropWhile isWsP).length ≤ n := by
            have g1 := List.Sublist.length_le (List.dropWhile_sublist (l := r) isWsP)
            omega
          have hcm := ih _ hlen c hc
          have hcr : c ∈ r := (List.dropWhile_sublist isWsP).subset hcm
          exact List.mem_cons_of_mem a (bracketRest_mem ')' rest ⟨r, hr⟩ hrec c hcr)
      · simp [subParen, ha] at hc
        rcases hc with hc | hc
        · exact hc ▸ List.mem_cons_self a rest
        · exact List.mem_cons_of_mem a (ih rest (by omega) c hc)

/-- The `TMI` substitution only drops characters. -/
theorem subTMI_mem : ∀ (n : Nat) (s : List Char), s.length ≤ n →
    ∀ c ∈ subTMI s, c ∈ s := by
  intro n
  induction n with
  | zero =>
    intro s hs c hc
    have hnil : s = [] := List.length_eq_zero.mp (Nat.le_zero.mp hs)
    subst hnil
    simpa [subTMI] using hc
  | succ n ih =>
    intro s hs c hc
    rcases s with _ | ⟨a, rest⟩
    · simpa [subTMI] using hc
    · simp only [List.length_cons] at hs
      by_cases hst : startsWithCI (cs "TMI") (a :: rest) = true
      · simp [subTMI, hst] at hc
        have hsub : List.Sublist (((a :: rest).drop 3).dropWhile isWsP) (a :: rest) :=
          (List.dropWhile_sublist _).trans (List.drop_sublist 3 (a :: rest))
        have hlen : (((a :: rest).drop 3).dropWhile isWsP).length ≤ n := by
          have g1 := List.Sublist.length_le
            (List.dropWhile_sublist (l := (a :: rest).drop 3) isWsP)
          have g2 := List.length_drop 3 (a :: rest)
          simp only [List.length_cons] at g2
          omega
        exact hsub.subset (ih _ hlen c hc)
      · have hst2 : startsWithCI (cs "TMI") (a :: rest) = false := by simpa using hst
        simp [subTMI, hst2] at hc
        rcases hc with hc | hc
        · exact hc ▸ List.mem_cons_self a rest
        · exact List.mem_cons_of_mem a (ih rest (by omega) c hc)

/-- The numeric-prefixed `TMI` substitution only drops characters. -/
theorem subNumTMI_mem : ∀ (n : Nat) (s : List Char), s.length ≤ n →
    ∀ c ∈ subNumTMI s, c ∈ s := by
  intro n
  induction n with
  | zero =>
    intro s hs c hc
    have hnil : s = [] := List.length_eq_zero.mp (Nat.le_zero.mp hs)
    subst hnil
    simpa [subNumTMI] using hc
  | succ n ih =>
    intro s hs c hc
    rcases s with _ | ⟨a, rest⟩
    · simpa [subNumTMI] using hc
    · simp only [List.length_cons] at hs
      by_cases hd : isDigitP a = true
      · by_cases hst : startsWithCI (cs "TMI")
            ((rest.dropWhile isDigitP).dropWhile isWsP) = true
        · simp [subNumTMI, hd, hst] at hc
          have hsub : List.Sublist
              (((((rest.dropWhile isDigitP).dropWhile isWsP).drop 3).dropWhile isWsP))
              rest :=
            ((List.dropWhile_sublist _).trans
              ((List.drop_sublist 3 _).trans
                ((List.dropWhile_sublist _).trans (List.dropWhile_sublist _))))
          have hlen :
              ((((rest.dropWhile isDigitP).dropWhile isWsP).drop 3).dropWhile isWsP).length
                ≤ n := by
            have g := List.Sublist.length_le hsub
            omega
          exact List.mem_cons_of_mem a (hsub.subset (ih _ hlen c hc))
        · have hst2 : startsWithCI (cs "TMI")
              ((rest.dropWhile isDigitP).dropWhile isWsP) = false := by simpa using hst
          simp [subNumTMI, hd, hst2] at hc
          rcases hc with hc | hc
          · exact hc ▸ List.mem_cons_self a rest
          · exact List.mem_cons_of_mem a (ih rest (by omega) c hc)
      · simp [subNumTMI, hd] at hc
        rcases hc with hc | hc
        · exact hc ▸ List.mem_cons_self a rest
        · exact List.mem_cons_of_mem a (ih rest (by omega) c hc)

/-- Case analysis for the paren-numeric `TMI` scanner: one step either
keeps the head or, at `'('` with a digit run closed by `')'`, recurses on
the suffix after the matched span. -/
theorem subParenNumTMI_eq_cases (a : Char) (rest : List Char) :
    subParenNumTMI (a :: rest) = a :: subParenNumTMI rest
    ∨ (a = '(' ∧ ∃ r2, rest.dropWhile isDigitP = ')' :: r2
        ∧ subParenNumTMI (a :: rest)
            = subParenNumTMI (((r2.dropWhile isWsP).drop 3).dropWhile isWsP)) := by
  by_cases ha : a = '('
  · subst ha
    simp only [subParenNumTMI]
    rw [if_pos trivial]
    split
    · rename_i head tail r2 heq1 heq2
      by_cases hst : startsWithCI (cs "TMI") (r2.dropWhile isWsP) = true
      · right
        exact ⟨trivial, r2, heq2, by rw [if_pos hst]⟩
      · left
        rw [if_neg hst]
    · left
      rfl
  · left
    simp only [subParenNumTMI]
    rw [if_neg ha]

/-- Case analysis for the bracket-numeric `TMI` scanner. -/
theorem subBrackNumTMI_eq_cases (a : Char) (rest : List Char) :
    subBrackNumTMI (a :: rest) = a :: subBrackNumTMI rest
    ∨ (a = '[' ∧ ∃ r2, rest.dropWhile isDigitP = ']' :: r2
        ∧ subBrackNumTMI (a :: rest)
            = subBrackNumTMI (((r2.dropWhile isWsP).drop 3).dropWhile isWsP)) := by
  by_cases ha : a = '['
  · subst ha
    simp only [subBrackNumTMI]
    rw [if_pos trivial]
    split
    · rename_i head tail r2 heq1 heq2
      by_cases hst : startsWithCI (cs "TMI") (r2.dropWhile isWsP) = true
      · right
        exact ⟨trivial, r2, heq2, by rw [if_pos hst]⟩
      · left
        rw [if_neg hst]
    · left
      rfl
  · left
    simp only [subBrackNumTMI]
    rw [if_neg ha]

/-- The paren-numeric `TMI` substitution only drops characters. -/
theorem subParenNumTMI_mem : ∀ (n : Nat) (s : List Char), s.length ≤ n →
    ∀ c ∈ subParenNumTMI s, c ∈ s := by
  intro n
  induction n with
  | zero =>
    intro s hs c hc
    have hnil : s = [] := List.length_eq_zero.mp (Nat.le_zero.mp hs)
    subst hnil
    simpa [subParenNumTMI] using hc
  | succ n ih =>
    intro s hs c hc
    rcases s with _ | ⟨a, rest⟩
    · simpa [subParenNumTMI] using hc
    · simp only [List.length_cons] at hs
      rcases subParenNumTMI_eq_cases a rest with hcase | ⟨ha, r2, hdw, hcase⟩
      · rw [hcase] at hc
        rcases List.mem_cons.mp hc with hc | hc
        · exact hc ▸ List.mem_cons_self a rest
        · exact List.mem_cons_of_mem a (ih rest (by omega) c hc)
      · rw [hcase] at hc
        have hr2 : List.Sublist r2 rest := by
          have h1 : List.Sublist (rest.dropWhile isDigitP) rest :=
            List.dropWhile_sublist _
          rw [hdw] at h1
          exact (List.sublist_cons_self ')' r2).trans h1
        have hsub : List.Sublist
            (((r2.dropWhile isWsP).drop 3).dropWhile isWsP) rest :=
          ((List.dropWhile_sublist _).trans
            ((List.drop_sublist 3 _).trans
              ((List.dropWhile_sublist _).trans hr2)))
        have hlen : (((r2.dropWhile isWsP).drop 3).dropWhile isWsP).length ≤ n := by
          have g := List.Sublist.length_le hsub
          omega
        exact List.mem_cons_of_mem a (hsub.subset (ih _ hlen c hc))

/-- The bracket-numeric `TMI` substitution only drops characters. -/
theorem subBrackNumTMI_mem : ∀ (n : Nat) (s : List Char), s.length ≤ n →
    ∀ c ∈ subBrackNumTMI s, c ∈ s := by
  intro n
  induction n with
  | zero =>
    intro s hs c hc
    have hnil : s = [] := List.length_eq_zero.mp (Nat.le_zero.mp hs)
    subst hnil
    simpa [subBrackNumTMI] using hc
  | succ n ih =>
    intro s hs c hc
    rcases s with _ | ⟨a, rest⟩
    · simpa [subBrackNumTMI] using hc
    · simp only [List.length_cons] at hs
      rcases subBrackNumTMI_eq_cases a rest with hcase | ⟨ha, r2, hdw, hcase⟩
      · rw [hcase] at hc
        rcases List.mem_cons.mp hc with hc | hc
        · exact hc ▸ List.mem_cons_self a rest
        · exact List.mem_cons_of_mem a (ih rest (by omega) c hc)
      · rw [hcase] at hc
        have hr2 : List.Sublist r2 rest := by
          have h1 : List.Sublist (rest.dropWhile isDigitP) rest :=
            List.dropWhile_sublist _
          rw [hdw] at h1
          exact (List.sublist_cons_self ']' r2).trans h1
        have hsub : List.Sublist
            (((r2.dropWhile isWsP).drop 3).dropWhile isWsP) rest :=
          ((List.dropWhile_sublist _).trans
            ((List.drop_sublist 3 _).trans
              ((List.dropWhile_sublist _).trans hr2)))
        have hlen : (((r2.dropWhile isWsP).drop 3).dropWhile isWsP).length ≤ n := by
          have g := List.Sublist.length_le hsub
          omega
        exact List.mem_cons_of_mem a (hsub.subset (ih _ hlen c hc))

/-- A slash-free key splits into an empty folder and itself. -/
theorem rsplitSlash_of_no_slash (s : List Char) (h : '/' ∉ s) :
    rsplitSlash s = ([], s) := by
  unfold rsplitSlash
  rw [if_neg h]

/-- Evaluation of `clean_filename` when the filename portion is ASCII,
bracket-, paren-, `TMI`- and quote-free: the first eight steps are the
identity, so the result is governed by the whitespace collapse and the
underscore cleanup alone. -/
theorem clean_filename_eval (key : List Char)
    (hascii : ∀ c ∈ (rsplitSlash key).2, isAsciiP c = true)
    (hbr : '[' ∉ (rsplitSlash key).2)
    (hpr : '(' ∉ (rsplitSlash key).2)
    (htmi : hasTMI (rsplitSlash key).2 = false)
    (hq : ∀ c ∈ (rsplitSlash key).2, isQuoteF c = false) :
    clean_filename key =
      (if (!(subWs (rsplitSlash key).2 false == (rsplitSlash key).2)
          || !(stripUnd (collapseUnd (subWs (rsplitSlash key).2 false) false)
              == subWs (rsplitSlash key).2 false)) = true
       then
         (if (rsplitSlash key).1 ≠ [] then
            replaceDS ((rsplitSlash key).1 ++ '/' ::
              stripUnd (collapseUnd (subWs (rsplitSlash key).2 false) false))
          else stripUnd (collapseUnd (subWs (rsplitSlash key).2 false) false))
       else key) := by
  have h1 : unidecodeModel (rsplitSlash key).2 = (rsplitSlash key).2 :=
    unidecodeModel_id _ hascii
  have h2 : subBracket (rsplitSlash key).2 = (rsplitSlash key).2 := subBracket_id _ hbr
  have h3 : subParen (rsplitSlash key).2 = (rsplitSlash key).2 := subParen_id _ hpr
  have h4 : subTMI (rsplitSlash key).2 = (rsplitSlash key).2 := subTMI_id _ htmi
  have h5 : subNumTMI (rsplitSlash key).2 = (rsplitSlash key).2 := subNumTMI_id _ htmi
  have h6 : subParenNumTMI (rsplitSlash key).2 = (rsplitSlash key).2 :=
    subParenNumTMI_id _ hpr
  have h7 : subBrackNumTMI (rsplitSlash key).2 = (rsplitSlash key).2 :=
    subBrackNumTMI_id _ hbr
  have h8 : subQuotes (rsplitSlash key).2 = (rsplitSlash key).2 := subQuotes_id _ hq
  have h10 : subNonAscii (subWs (rsplitSlash key).2 false) false
      = subWs (rsplitSlash key).2 false := by
    rw [subNonAscii_eq_runSub]
    apply runSub_id
    intro c hc
    rw [subWs_eq_runSub] at hc
    rcases runSub_subset isWsP _ false c hc with h | h
    · simp [hascii c h]
    · rw [h]; decide
  simp only [clean_filename, h1, h2, h3, h4, h5, h6, h7, h8, h10, beq_self_eq_true,
    Bool.not_true, Bool.or_self, Bool.or_false, Bool.false_or]

/-- **C4.** `clean_filename` is idempotent on every key whose filename
portion is ASCII and free of brackets, parens, quote characters and
case-insensitive `TMI` occurrences: a second application returns the first
application's result unchanged.  (The unconditional statement is refuted by
`clean_filename_not_idem`: removing one `TMI` occurrence can create a new
one.) -/
theorem clean_filename_idem (key : List Char)
    (hascii : ∀ c ∈ (rsplitSlash key).2, isAsciiP c = true)
    (hbr : '[' ∉ (rsplitSlash key).2)
    (hpr : '(' ∉ (rsplitSlash key).2)
    (htmi : hasTMI (rsplitSlash key).2 = false)
    (hq : ∀ c ∈ (rsplitSlash key).2, isQuoteF c = false) :
    clean_filename (clean_filename key) = clean_filename key := by
  have heval := clean_filename_eval key hascii hbr hpr htmi hq
  by_cases hm : (!(subWs (rsplitSlash key).2 false == (rsplitSlash key).2)
      || !(stripUnd (collapseUnd (subWs (rsplitSlash key).2 false) false)
          == subWs (rsplitSlash key).2 false)) = true
  · rw [if_pos hm] at heval
    have hWchar : ∀ c ∈ subWs (rsplitSlash key).2 false,
        c ∈ (rsplitSlash key).2 ∨ c = '_' := by
      intro c hc
      rw [subWs_eq_runSub] at hc
      exact runSub_subset isWsP _ false c hc
    have hWw : ∀ c ∈ subWs (rsplitSlash key).2 false, isWsP c = false := by
      intro c hc
      rw [subWs_eq_runSub] at hc
      exact runSub_not isWsP (by decide) _ false c hc
    have hWtmi : hasTMI (subWs (rsplitSlash key).2 false) = false := by
      rw [subWs_eq_runSub]
      exact runSub_noTMI isWsP _ htmi false
    have hCchar : ∀ c ∈ collapseUnd (subWs (rsplitSlash key).2 false) false,
        c ∈ subWs (rsplitSlash key).2 false ∨ c = '_' := by
      intro c hc
      rw [collapseUnd_eq_runSub] at hc
      exact runSub_subset _ _ false c hc
    have hCtmi : hasTMI (collapseUnd (subWs (rsplitSlash key).2 false) false)
        = false := by
      rw [collapseUnd_eq_runSub]
      exact runSub_noTMI _ _ hWtmi false
    have hCdd : hasDD (collapseUnd (subWs (rsplitSlash key).2 false) false) = false := by
      rw [collapseUnd_eq_runSub]
      exact (runSub_noDD _ (by decide) _).1.2
    have hFsub := stripUnd_subset (collapseUnd (subWs (rsplitSlash key).2 false) false)
    have hFchar : ∀ c ∈ stripUnd (collapseUnd (subWs (rsplitSlash key).2 false) false),
        c ∈ (rsplitSlash key).2 ∨ c = '_' := by
      intro c hc
      rcases hCchar c (hFsub c hc) with h | h
      · exact hWchar c h
      · exact Or.inr h
    have hFtmi : hasTMI (stripUnd (collapseUnd (subWs (rsplitSlash key).2 false) false))
        = false := by
      by_contra hx
      have hx2 : hasTMI (stripUnd (collapseUnd (subWs (rsplitSlash key).2 false) false))
          = true := by simpa using hx
      have h3 := hasTMI_of_infix _ _ (stripUnd_within _) hx2
      rw [h3] at hCtmi; cases hCtmi
    have hFdd : hasDD (stripUnd (collapseUnd (subWs (rsplitSlash key).2 false) false))
        = false := by
      by_contra hx
      have hx2 : hasDD (stripUnd (collapseUnd (subWs (rsplitSlash key).2 false) false))
          = true := by simpa using hx
      have h3 := hasDD_of_infix _ _ (stripUnd_within _) hx2
      rw [h3] at hCdd; cases hCdd
    have hFslash :
        '/' ∉ stripUnd (collapseUnd (subWs (rsplitSlash key).2 false) false) := by
      intro hs
      rcases hFchar '/' hs with h | h
      · exact rsplitSlash_no_slash key h
      · exact absurd h (by decide)
    have hfix : ∀ k2 : List Char,
        (rsplitSlash k2).2
            = stripUnd (collapseUnd (subWs (rsplitSlash key).2 false) false) →
        clean_filename k2 = k2 := by
      intro k2 hk2
      refine clean_filename_fixed k2 ?_ ?_ ?_ ?_ ?_ ?_ ?_ ?_ ?_ <;> rw [hk2]
      · intro c hc
        rcases hFchar c hc with h | h
        · exact hascii c h
        · rw [h]; decide
      · intro hs
        rcases hFchar '[' hs with h | h
        · exact hbr h
        · exact absurd h (by decide)
      · intro hs
        rcases hFchar '(' hs with h | h
        · exact hpr h
        · exact absurd h (by decide)
      · exact hFtmi
      · intro c hc
        rcases hFchar c hc with h | h
        · exact hq c h
        · rw [h]; decide
      · intro c hc
        rcases hCchar c (hFsub c hc) with h | h
        · exact hWw c h
        · rw [h]; decide
      · exact hFdd
      · exact stripUnd_head _
      · exact stripUnd_getLast _
    by_cases hdn : (rsplitSlash key).1 = []
    · rw [if_neg (by simp [hdn])] at heval
      rw [heval]
      refine hfix _ ?_
      rw [rsplitSlash_of_no_slash _ hFslash]
    · rw [if_pos hdn] at heval
      rcases replaceDS_sep (rsplitSlash key).1 _ hFslash with ⟨d2, hd2⟩
      rw [heval, hd2]
      exact hfix _ (by rw [rsplitSlash_append d2 _ hFslash])
  · rw [if_neg hm] at heval
    rw [heval]
    exact heval

/-- Closed witness for `clean_filename_idem` at a concrete key satisfying
every hypothesis. -/
theorem clean_filename_idem_witness :
    (rsplitSlash (cs "Direct Taxes/Annual Report 2024.pdf")).2.all isAsciiP = true
    ∧ hasTMI (rsplitSlash (cs "Direct Taxes/Annual Report 2024.pdf")).2 = false
    ∧ clean_filename (clean_filename (cs "Direct Taxes/Annual Report 2024.pdf"))
        = clean_filename (cs "Direct Taxes/Annual Report 2024.pdf") :=
  ⟨by decide, by decide,
    clean_filename_idem (cs "Direct Taxes/Annual Report 2024.pdf")
      (by decide) (by decide) (by decide) (by decide) (by decide)⟩

/-- **C4 counterexample.** On `"TTMIMI"` one pass removes the inner `TMI`
occurrence and yields `"TMI"`, which a second pass removes entirely:
normalization is not idempotent on all inputs. -/
theorem clean_filename_not_idem :
    clean_filename (cs "TTMIMI") = cs "TMI"
    ∧ clean_filename (clean_filename (cs "TTMIMI")) = []
    ∧ clean_filename (clean_filename (cs "TTMIMI")) ≠ clean_filename (cs "TTMIMI") := by
  have h1 : clean_filename (cs "TTMIMI") = cs "TMI" := by
    simp [clean_filename, rsplitSlash, cs, unidecodeModel, isAsciiP, subBracket, subParen,
      subTMI, startsWithCI, eqCI, subNumTMI, isDigitP, subParenNumTMI, subBrackNumTMI,
      subQuotes, isQuoteF, subWs, isWsP, subNonAscii, collapseUnd, stripUnd]
  have h2 : clean_filename (cs "TMI") = [] := by
    simp [clean_filename, rsplitSlash, cs, unidecodeModel, isAsciiP, subBracket, subParen,
      subTMI, startsWithCI, eqCI, subNumTMI, isDigitP, subParenNumTMI, subBrackNumTMI,
      subQuotes, isQuoteF, subWs, isWsP, subNonAscii, collapseUnd, stripUnd]
  refine ⟨h1, ?_, ?_⟩
  · rw [h1, h2]
  · rw [h1, h2]
    decide

/-- One-step unfolding of `clean_filename`: the `let` chain written out. -/
theorem clean_filename_def (key : List Char) :
    clean_filename key =
      (if (!((unidecodeModel (rsplitSlash key).2) == (rsplitSlash key).2) || !((subBracket (unidecodeModel (rsplitSlash key).2)) == unidecodeModel (rsplitSlash key).2) || !((subParen (subBracket (unidecodeModel (rsplitSlash key).2))) == subBracket (unidecodeModel (rsplitSlash key).2)) || !((subTMI (subParen (subBracket (unidecodeModel (rsplitSlash key).2)))) == subParen (subBracket (unidecodeModel (rsplitSlash key).2))) || !((subNumTMI (subTMI (subParen (subBracket (unidecodeModel (rsplitSlash key).2))))) == subTMI (subParen (subBracket (unidecodeModel (rsplitSlash key).2)))) || !((subParenNumTMI (subNumTMI (subTMI (subParen (subBracket (unidecodeModel (rsplitSlash key).2)))))) == subNumTMI (subTMI (subParen (subBracket (unidecodeModel (rsplitSlash key).2))))) || !((subBrackNumTMI (subParenNumTMI (subNumTMI (subTMI (subParen (subBracket (unidecodeModel (rsplitSlash key).2))))))) == subParenNumTMI (subNumTMI (subTMI (subParen (subBracket (unidecodeModel (rsplitSlash key).2)))))) || !((subQuotes (subBrackNumTMI (subParenNumTMI (subNumTMI (subTMI (subParen (subBracket (unidecodeModel (rsplitSlash key).2)))))))) == subBrackNumTMI (subParenNumTMI (subNumTMI (subTMI (subParen (subBracket (unidecodeModel (rsplitSlash key).2))))))) || !((subWs (subQuotes (subBrackNumTMI (subParenNumTMI (subNumTMI (subTMI (subParen (subBracket (unidecodeModel (rsplitSlash key).2)))))))) false) == subQuotes (subBrackNumTMI (subParenNumTMI (subNumTMI (subTMI (subParen (subBracket (unidecodeModel (rsplitSlash key).2)))))))) || !((stripUnd (collapseUnd (subNonAscii (subWs (subQuotes (subBrackNumTMI (subParenNumTMI (subNumTMI (subTMI (subParen (subBracket (unidecodeModel (rsplitSlash key).2)))))))) false) false) false)) == subNonAscii (subWs (subQuotes (subBrackNumTMI (subParenNumTMI (subNumTMI (subTMI (subParen (subBracket (unidecodeModel (rsplitSlash key).2)))))))) false) false)) = true
       then
         (if (rsplitSlash key).1 ≠ [] then
            replaceDS ((rsplitSlash key).1 ++ '/' :: stripUnd (collapseUnd (subNonAscii (subWs (subQuotes (subBrackNumTMI (subParenNumTMI (subNumTMI (subTMI (subParen (subBracket (unidecodeModel (rsplitSlash key).2)))))))) false) false) false))
          else stripUnd (collapseUnd (subNonAscii (subWs (subQuotes (subBrackNumTMI (subParenNumTMI (subNumTMI (subTMI (subParen (subBracket (unidecodeModel (rsplitSlash key).2)))))))) false) false) false))
       else key) := rfl

/-- An ASCII character that is not a straight quote is no quote character
at all: the curly quotes are non-ASCII code points. -/
theorem isQuoteAny_eq_false (c : Char) (h1 : isQuoteF c = false)
    (h2 : isAsciiP c = true) : isQuoteAny c = false := by
  simp only [isQuoteF, Bool.or_eq_false_iff] at h1
  have hlt : c.toNat < 128 := by simpa [isAsciiP] using h2
  simp only [isQuoteAny, Bool.or_eq_false_iff]
  refine ⟨⟨⟨⟨⟨h1.1, h1.2⟩, ?_⟩, ?_⟩, ?_⟩, ?_⟩
  · by_contra hx
    have he : c = '‘' := by simpa using hx
    subst he
    exact absurd hlt (by decide)
  · by_contra hx
    have he : c = '’' := by simpa using hx
    subst he
    exact absurd hlt (by decide)
  · by_contra hx
    have he : c = '“' := by simpa using hx
    subst he
    exact absurd hlt (by decide)
  · by_contra hx
    have he : c = '”' := by simpa using hx
    subst he
    exact absurd hlt (by decide)

/-- **C5 (amended).** The filename portion of every key returned by
`clean_filename` contains no quote character, straight or curly, single or
double: the quote-deletion step removes the straight quotes, the curly
quotes are non-ASCII and cannot survive the transliteration and the
non-ASCII fallback, and when nothing was modified the returned original
filename portion is shown to have been ASCII and quote-free already.  (The
boilerplate-term conjunct and the bracket/paren-content conjunct of the
claim are refuted by `clean_filename_term_bracket_counterexample`.) -/
theorem clean_filename_quote_free (key : List Char) :
    ((rsplitSlash (clean_filename key)).2.all (fun c => !isQuoteAny c)) = true := by
  have hkey := clean_filename_def key
  by_cases hm : (!((unidecodeModel (rsplitSlash key).2) == (rsplitSlash key).2) || !((subBracket (unidecodeModel (rsplitSlash key).2)) == unidecodeModel (rsplitSlash key).2) || !((subParen (subBracket (unidecodeModel (rsplitSlash key).2))) == subBracket (unidecodeModel (rsplitSlash key).2)) || !((subTMI (subParen (subBracket (unidecodeModel (rsplitSlash key).2)))) == subParen (subBracket (unidecodeModel (rsplitSlash key).2))) || !((subNumTMI (subTMI (subParen (subBracket (unidecodeModel (rsplitSlash key).2))))) == subTMI (subParen (subBracket (unidecodeModel (rsplitSlash key).2)))) || !((subParenNumTMI (subNumTMI (subTMI (subParen (subBracket (unidecodeModel (rsplitSlash key).2)))))) == subNumTMI (subTMI (subParen (subBracket (unidecodeModel (rsplitSlash key).2))))) || !((subBrackNumTMI (subParenNumTMI (subNumTMI (subTMI (subParen (subBracket (unidecodeModel (rsplitSlash key).2))))))) == subParenNumTMI (subNumTMI (subTMI (subParen (subBracket (unidecodeModel (rsplitSlash key).2)))))) || !((subQuotes (subBrackNumTMI (subParenNumTMI (subNumTMI (subTMI (subParen (subBracket (unidecodeModel (rsplitSlash key).2)))))))) == subBrackNumTMI (subParenNumTMI (subNumTMI (subTMI (subParen (subBracket (unidecodeModel (rsplitSlash key).2))))))) || !((subWs (subQuotes (subBrackNumTMI (subParenNumTMI (subNumTMI (subTMI (subParen (subBracket (unidecodeModel (rsplitSlash key).2)))))))) false) == subQuotes (subBrackNumTMI (subParenNumTMI (subNumTMI (subTMI (subParen (subBracket (unidecodeModel (rsplitSlash key).2)))))))) || !((stripUnd (collapseUnd (subNonAscii (subWs (subQuotes (subBrackNumTMI (subParenNumTMI (subNumTMI (subTMI (subParen (subBracket (unidecodeModel (rsplitSlash key).2)))))))) false) false) false)) == subNonAscii (subWs (subQuotes (subBrackNumTMI (subParenNumTMI (subNumTMI (subTMI (subParen (subBracket (unidecodeModel (rsplitSlash key).2)))))))) false) false)) = true
  · rw [if_pos hm] at hkey
    have h5q : ∀ c ∈ subQuotes (subBrackNumTMI (subParenNumTMI (subNumTMI (subTMI (subParen (subBracket (unidecodeModel (rsplitSlash key).2))))))), isQuoteF c = false := subQuotes_quote_free _
    have h6q : ∀ c ∈ subWs (subQuotes (subBrackNumTMI (subParenNumTMI (subNumTMI (subTMI (subParen (subBracket (unidecodeModel (rsplitSlash key).2)))))))) false, isQuoteF c = false := by
      intro c hc
      rw [subWs_eq_runSub] at hc
      rcases runSub_subset isWsP _ false c hc with h | h
      · exact h5q c h
      · rw [h]; decide
    have h7q : ∀ c ∈ subNonAscii (subWs (subQuotes (subBrackNumTMI (subParenNumTMI (subNumTMI (subTMI (subParen (subBracket (unidecodeModel (rsplitSlash key).2)))))))) false) false, isQuoteF c = false := by
      intro c hc
      rw [subNonAscii_eq_runSub] at hc
      rcases runSub_subset _ _ false c hc with h | h
      · exact h6q c h
      · rw [h]; decide
    have h7a : ∀ c ∈ subNonAscii (subWs (subQuotes (subBrackNumTMI (subParenNumTMI (subNumTMI (subTMI (subParen (subBracket (unidecodeModel (rsplitSlash key).2)))))))) false) false, isAsciiP c = true := by
      intro c hc
      rw [subNonAscii_eq_runSub] at hc
      have hn := runSub_not _ (by decide) _ false c hc
      simpa using hn
    have hCq : ∀ c ∈ collapseUnd (subNonAscii (subWs (subQuotes (subBrackNumTMI (subParenNumTMI (subNumTMI (subTMI (subParen (subBracket (unidecodeModel (rsplitSlash key).2)))))))) false) false) false, isQuoteF c = false := by
      intro c hc
      rw [collapseUnd_eq_runSub] at hc
      rcases runSub_subset _ _ false c hc with h | h
      · exact h7q c h
      · rw [h]; decide
    have hCa : ∀ c ∈ collapseUnd (subNonAscii (subWs (subQuotes (subBrackNumTMI (subParenNumTMI (subNumTMI (subTMI (subParen (subBracket (unidecodeModel (rsplitSlash key).2)))))))) false) false) false, isAsciiP c = true := by
      intro c hc
      rw [collapseUnd_eq_runSub] at hc
      rcases runSub_subset _ _ false c hc with h | h
      · exact h7a c h
      · rw [h]; decide
    have h8q : ∀ c ∈ stripUnd (collapseUnd (subNonAscii (subWs (subQuotes (subBrackNumTMI (subParenNumTMI (subNumTMI (subTMI (subParen (subBracket (unidecodeModel (rsplitSlash key).2)))))))) false) false) false), isQuoteF c = false := by
      intro c hc
      exact hCq c (stripUnd_subset _ c hc)
    have h8a : ∀ c ∈ stripUnd (collapseUnd (subNonAscii (subWs (subQuotes (subBrackNumTMI (subParenNumTMI (subNumTMI (subTMI (subParen (subBracket (unidecodeModel (rsplitSlash key).2)))))))) false) false) false), isAsciiP c = true := by
      intro c hc
      exact hCa c (stripUnd_subset _ c hc)
    have h8s : '/' ∉ stripUnd (collapseUnd (subNonAscii (subWs (subQuotes (subBrackNumTMI (subParenNumTMI (subNumTMI (subTMI (subParen (subBracket (unidecodeModel (rsplitSlash key).2)))))))) false) false) false) := by
      intro hs
      have hs5 : '/' ∈ subQuotes (subBrackNumTMI (subParenNumTMI (subNumTMI (subTMI (subParen (subBracket (unidecodeModel (rsplitSlash key).2))))))) ∨ ('/' : Char) = '_' := by
        have hsC := stripUnd_subset _ '/' hs
        rw [collapseUnd_eq_runSub] at hsC
        rcases runSub_subset _ _ false '/' hsC with h | h
        · rw [subNonAscii_eq_runSub] at h
          rcases runSub_subset _ _ false '/' h with h2 | h2
          · rw [subWs_eq_runSub] at h2
            rcases runSub_subset _ _ false '/' h2 with h3 | h3
            · exact Or.inl h3
            · exact Or.inr h3
          · exact Or.inr h2
        · exact Or.inr h
      rcases hs5 with h | h
      · have m1 := subQuotes_subset _ '/' h
        have m2 := subBrackNumTMI_mem (subParenNumTMI (subNumTMI (subTMI (subParen (subBracket (unidecodeModel (rsplitSlash key).2)))))).length _ (le_refl _) '/' m1
        have m3 := subParenNumTMI_mem (subNumTMI (subTMI (subParen (subBracket (unidecodeModel (rsplitSlash key).2))))).length _ (le_refl _) '/' m2
        have m4 := subNumTMI_mem (subTMI (subParen (subBracket (unidecodeModel (rsplitSlash key).2)))).length _ (le_refl _) '/' m3
        have m5 := subTMI_mem (subParen (subBracket (unidecodeModel (rsplitSlash key).2))).length _ (le_refl _) '/' m4
        have m6 := subParen_mem (subBracket (unidecodeModel (rsplitSlash key).2)).length _ (le_refl _) '/' m5
        have m7 := subBracket_mem (unidecodeModel (rsplitSlash key).2).length _ (le_refl _) '/' m6
        have m8 := List.mem_of_mem_filter m7
        exact rsplitSlash_no_slash key m8
      · exact absurd h (by decide)
    by_cases hdn : (rsplitSlash key).1 = []
    · rw [if_neg (by simp [hdn])] at hkey
      rw [hkey, rsplitSlash_of_no_slash _ h8s]
      exact List.all_eq_true.mpr
        (fun c hc => by simp [isQuoteAny_eq_false c (h8q c hc) (h8a c hc)])
    · rw [if_pos hdn] at hkey
      rcases replaceDS_sep (rsplitSlash key).1 _ h8s with ⟨d2, hd2⟩
      rw [hkey, hd2, rsplitSlash_append d2 _ h8s]
      exact List.all_eq_true.mpr
        (fun c hc => by simp [isQuoteAny_eq_false c (h8q c hc) (h8a c hc)])
  · rw [if_neg hm] at hkey
    have hmf : ((!((unidecodeModel (rsplitSlash key).2) == (rsplitSlash key).2) || !((subBracket (unidecodeModel (rsplitSlash key).2)) == unidecodeModel (rsplitSlash key).2) || !((subParen (subBracket (unidecodeModel (rsplitSlash key).2))) == subBracket (unidecodeModel (rsplitSlash key).2)) || !((subTMI (subParen (subBracket (unidecodeModel (rsplitSlash key).2)))) == subParen (subBracket (unidecodeModel (rsplitSlash key).2))) || !((subNumTMI (subTMI (subParen (subBracket (unidecodeModel (rsplitSlash key).2))))) == subTMI (subParen (subBracket (unidecodeModel (rsplitSlash key).2)))) || !((subParenNumTMI (subNumTMI (subTMI (subParen (subBracket (unidecodeModel (rsplitSlash key).2)))))) == subNumTMI (subTMI (subParen (subBracket (unidecodeModel (rsplitSlash key).2))))) || !((subBrackNumTMI (subParenNumTMI (subNumTMI (subTMI (subParen (subBracket (unidecodeModel (rsplitSlash key).2))))))) == subParenNumTMI (subNumTMI (subTMI (subParen (subBracket (unidecodeModel (rsplitSlash key).2)))))) || !((subQuotes (subBrackNumTMI (subParenNumTMI (subNumTMI (subTMI (subParen (subBracket (unidecodeModel (rsplitSlash key).2)))))))) == subBrackNumTMI (subParenNumTMI (subNumTMI (subTMI (subParen (subBracket (unidecodeModel (rsplitSlash key).2))))))) || !((subWs (subQuotes (subBrackNumTMI (subParenNumTMI (subNumTMI (subTMI (subParen (subBracket (unidecodeModel (rsplitSlash key).2)))))))) false) == subQuotes (subBrackNumTMI (subParenNumTMI (subNumTMI (subTMI (subParen (subBracket (unidecodeModel (rsplitSlash key).2)))))))) || !((stripUnd (collapseUnd (subNonAscii (subWs (subQuotes (subBrackNumTMI (subParenNumTMI (subNumTMI (subTMI (subParen (subBracket (unidecodeModel (rsplitSlash key).2)))))))) false) false) false)) == subNonAscii (subWs (subQuotes (subBrackNumTMI (subParenNumTMI (subNumTMI (subTMI (subParen (subBracket (unidecodeModel (rsplitSlash key).2)))))))) false) false)) = false) := by
      simpa using hm
    simp only [Bool.or_eq_false_iff, Bool.not_eq_false', beq_iff_eq] at hmf
    obtain ⟨⟨⟨⟨⟨⟨⟨⟨⟨e1, e2⟩, e3⟩, e4⟩, e5⟩, e6⟩, e7⟩, e8⟩, e9⟩, e10⟩ := hmf
    have hq4d := quote_free_of_subQuotes_eq _ e8
    have hgq : ∀ c ∈ (rsplitSlash key).2, isQuoteF c = false := by
      intro c hc
      apply hq4d
      rw [e7, e6, e5, e4, e3, e2, e1]
      exact hc
    have e1f : ((rsplitSlash key).2).filter isAsciiP = (rsplitSlash key).2 := e1
    have hga : ∀ c ∈ (rsplitSlash key).2, isAsciiP c = true :=
      List.filter_eq_self.mp e1f
    rw [hkey]
    exact List.all_eq_true.mpr
      (fun c hc => by simp [isQuoteAny_eq_false c (hgq c hc) (hga c hc)])

/-- **C5 counterexample.** Two conjuncts of the claim fail.  Boilerplate
terms: on `"T'MI"` (which has no `TMI` occurrence, the quote splits it) the
quote-deletion step produces exactly `"TMI"`, so the output contains the
term.  Bracket content: in `"[abc]Z[abc(x)\n]"` the bracketed span
`"[abc]"` is present; the scanner removes the first copy, but the second
`'['` survives because the newline blocks the lazy `.*?` match, and after
the paren span and the newline (eaten as the paren pattern's trailing
whitespace) are removed the output `"Z[abc]"` again contains the input's
bracketed span. -/
theorem clean_filename_term_bracket_counterexample :
    clean_filename (cs "T'MI") = cs "TMI"
    ∧ containsSubstr (clean_filename (cs "T'MI")) (cs "TMI") = true
    ∧ clean_filename (cs "[abc]Z[abc(x)\n]") = cs "Z[abc]"
    ∧ containsSubstr (cs "[abc]Z[abc(x)\n]") (cs "[abc]") = true
    ∧ containsSubstr (clean_filename (cs "[abc]Z[abc(x)\n]")) (cs "[abc]") = true := by
  have h1 : clean_filename (cs "T'MI") = cs "TMI" := by
    simp [clean_filename, rsplitSlash, cs, unidecodeModel, isAsciiP, subBracket, subParen,
      subTMI, startsWithCI, eqCI, subNumTMI, isDigitP, subParenNumTMI, subBrackNumTMI,
      subQuotes, isQuoteF, subWs, isWsP, subNonAscii, collapseUnd, stripUnd, bracketRest]
  have h2 : clean_filename (cs "[abc]Z[abc(x)\n]") = cs "Z[abc]" := by
    simp [clean_filename, rsplitSlash, cs, unidecodeModel, isAsciiP, subBracket, subParen,
      subTMI, startsWithCI, eqCI, subNumTMI, isDigitP, subParenNumTMI, subBrackNumTMI,
      subQuotes, isQuoteF, subWs, isWsP, subNonAscii, collapseUnd, stripUnd, bracketRest]
  refine ⟨h1, by rw [h1]; decide, h2, by decide, by rw [h2]; decide⟩
